import Mathlib

/-!
Verification development for the heuristic data-extraction and document-templating
engine of the AI_Bank_Pi repository.  The JavaScript source is shallowly embedded:
JS numbers become an inductive `JSNum` over `ℚ` together with `NaN` and the two
infinities, JS strings become `List Char`, and each source function becomes an
executable Lean definition that mirrors the original control flow.
-/

set_option maxRecDepth 40000
set_option maxHeartbeats 1000000

namespace BankPi

/-! ## JavaScript primitives: whitespace, trim, substring search -/

/-- The character class matched by `\s` in JavaScript regular expressions and
used by `String.prototype.trim`. -/
def jsWs (c : Char) : Bool :=
  c.val = 0x20 || c.val = 0x09 || c.val = 0x0A || c.val = 0x0D ||
  c.val = 0x0B || c.val = 0x0C || c.val = 0xA0 || c.val = 0x1680 ||
  (0x2000 ≤ c.val && c.val ≤ 0x200A) ||
  c.val = 0x2028 || c.val = 0x2029 || c.val = 0x202F || c.val = 0x205F ||
  c.val = 0x3000 || c.val = 0xFEFF

/-- JavaScript `String.prototype.trim`. -/
def trimJS (s : List Char) : List Char :=
  ((s.dropWhile jsWs).reverse.dropWhile jsWs).reverse

/-- Does `hay` start with `pre` (exact character comparison)? -/
def startsWithL : List Char → List Char → Bool
  | _, [] => true
  | [], _ :: _ => false
  | h :: hs, p :: ps => h = p && startsWithL hs ps

/-- JavaScript `String.prototype.includes`: substring search. -/
def containsSub : List Char → List Char → Bool
  | hay, needle =>
    if startsWithL hay needle then true
    else match hay with
      | [] => false
      | _ :: t => containsSub t needle

/-! ## JavaScript numbers -/

/-- A JavaScript number: a finite value (modelled exactly as a rational),
`NaN`, `Infinity` or `-Infinity`. -/
inductive JSNum where
  | fin (q : ℚ)
  | nan
  | posInf
  | negInf
deriving DecidableEq, Repr

/-- Truthiness of a JS number slot read from an object: absent (`undefined`),
`0` and `NaN` are falsy, every other number is truthy. -/
def truthyN : Option JSNum → Bool
  | none => false
  | some n => !(n = JSNum.fin 0 || n = JSNum.nan)

/-- JS division on numbers (finite arithmetic is exact over `ℚ`). -/
def jdiv : JSNum → JSNum → JSNum
  | JSNum.nan, _ => JSNum.nan
  | _, JSNum.nan => JSNum.nan
  | JSNum.fin a, JSNum.fin b =>
    if b = 0 then
      if a = 0 then JSNum.nan
      else if a > 0 then JSNum.posInf else JSNum.negInf
    else JSNum.fin (a / b)
  | JSNum.fin _, JSNum.posInf => JSNum.fin 0
  | JSNum.fin _, JSNum.negInf => JSNum.fin 0
  | JSNum.posInf, JSNum.fin b => if b < 0 then JSNum.negInf else JSNum.posInf
  | JSNum.negInf, JSNum.fin b => if b < 0 then JSNum.posInf else JSNum.negInf
  | _, _ => JSNum.nan

/-- JS multiplication on numbers. -/
def jmul : JSNum → JSNum → JSNum
  | JSNum.nan, _ => JSNum.nan
  | _, JSNum.nan => JSNum.nan
  | JSNum.fin a, JSNum.fin b => JSNum.fin (a * b)
  | JSNum.fin a, JSNum.posInf =>
    if a = 0 then JSNum.nan else if a > 0 then JSNum.posInf else JSNum.negInf
  | JSNum.fin a, JSNum.negInf =>
    if a = 0 then JSNum.nan else if a > 0 then JSNum.negInf else JSNum.posInf
  | JSNum.posInf, JSNum.fin b =>
    if b = 0 then JSNum.nan else if b > 0 then JSNum.posInf else JSNum.negInf
  | JSNum.negInf, JSNum.fin b =>
    if b = 0 then JSNum.nan else if b > 0 then JSNum.negInf else JSNum.posInf
  | JSNum.posInf, JSNum.posInf => JSNum.posInf
  | JSNum.posInf, JSNum.negInf => JSNum.negInf
  | JSNum.negInf, JSNum.posInf => JSNum.negInf
  | JSNum.negInf, JSNum.negInf => JSNum.posInf

/-- JS subtraction on numbers. -/
def jsub : JSNum → JSNum → JSNum
  | JSNum.nan, _ => JSNum.nan
  | _, JSNum.nan => JSNum.nan
  | JSNum.fin a, JSNum.fin b => JSNum.fin (a - b)
  | JSNum.fin _, JSNum.posInf => JSNum.negInf
  | JSNum.fin _, JSNum.negInf => JSNum.posInf
  | JSNum.posInf, JSNum.fin _ => JSNum.posInf
  | JSNum.negInf, JSNum.fin _ => JSNum.negInf
  | JSNum.posInf, JSNum.negInf => JSNum.posInf
  | JSNum.negInf, JSNum.posInf => JSNum.negInf
  | _, _ => JSNum.nan

/-- Decimal digits of a natural number. -/
def natDigits (n : Nat) : List Char := Nat.toDigits 10 n

/-- `Number.prototype.toFixed(2)` for a nonnegative rational: the integer `n`
with `n / 100` closest to the value (ties pick the larger `n`), rendered with
two fraction digits. -/
def toFixed2Abs (q : ℚ) : List Char :=
  let n : ℕ := (Int.floor (100 * q + 1 / 2)).toNat
  natDigits (n / 100) ++ '.' :: (if n % 100 < 10 then ['0'] else []) ++ natDigits (n % 100)

/-- `Number.prototype.toFixed(2)` (ECMA: a leading sign, then the rounding of
the absolute value). -/
def toFixed2 : JSNum → List Char
  | JSNum.nan => "NaN".data
  | JSNum.posInf => "Infinity".data
  | JSNum.negInf => "-Infinity".data
  | JSNum.fin q => if q < 0 then '-' :: toFixed2Abs (-q) else toFixed2Abs q

/-! ## `parseFloat` and `FileParser.parseNumber` -/

/-- Numeric value of a list of decimal digit characters. -/
def digitsVal (ds : List Char) : ℕ :=
  ds.foldl (fun acc c => 10 * acc + (c.toNat - '0'.toNat)) 0

/-- JavaScript `parseFloat`: skip leading whitespace, optional sign, either the
literal `Infinity` or a decimal mantissa with optional exponent; trailing
garbage is ignored; no digits at all gives `NaN`. -/
def parseFloatJS (s : List Char) : JSNum :=
  let s1 := s.dropWhile jsWs
  let (neg, s2) : Bool × List Char :=
    match s1 with
    | '-' :: r => (true, r)
    | '+' :: r => (false, r)
    | r => (false, r)
  if startsWithL s2 ("Infinity".data) then
    if neg then JSNum.negInf else JSNum.posInf
  else
    let intDs := s2.takeWhile Char.isDigit
    let s3 := s2.drop intDs.length
    let (fracDs, s4) : List Char × List Char :=
      match s3 with
      | '.' :: r => (r.takeWhile Char.isDigit, r.drop (r.takeWhile Char.isDigit).length)
      | r => ([], r)
    if intDs = [] ∧ fracDs = [] then JSNum.nan
    else
      let mant : ℚ := (digitsVal intDs : ℚ) + (digitsVal fracDs : ℚ) / (10 ^ fracDs.length : ℕ)
      let expo : ℤ :=
        match s4 with
        | 'e' :: r => parseExpo r
        | 'E' :: r => parseExpo r
        | _ => 0
      let v : ℚ := if expo ≥ 0 then mant * 10 ^ expo.toNat else mant / 10 ^ (-expo).toNat
      JSNum.fin (if neg then -v else v)
where
  /-- Exponent part after `e`/`E`: optional sign then digits; if no digits
  follow, the exponent marker is trailing garbage and contributes `0`. -/
  parseExpo (r : List Char) : ℤ :=
    let (eneg, r1) : Bool × List Char :=
      match r with
      | '-' :: t => (true, t)
      | '+' :: t => (false, t)
      | t => (false, t)
    let eds := r1.takeWhile Char.isDigit
    if eds = [] then 0
    else if eneg then -(digitsVal eds : ℤ) else (digitsVal eds : ℤ)

/-- The character class removed by `parseNumber` before parsing:
`value.replace(/[,，\s元万千百]/g, '')`. -/
def numNoise (c : Char) : Bool :=
  c = ',' || c = '，' || jsWs c || c = '元' || c = '万' || c = '千' || c = '百'

/-- `parseNumber`'s string cleanup pass. -/
def cleanNumeric (s : List Char) : List Char := s.filter (fun c => !numNoise c)

/-- A JavaScript value as it occurs in a spreadsheet cell or a context field:
a number, a string, `null` or `undefined`. -/
inductive JSVal where
  | num (n : JSNum)
  | str (s : List Char)
  | nullv
  | undef
deriving DecidableEq, Repr

/-- `FileParser.parseNumber`: `null`, `undefined` and the empty string give
`null`; a non-`NaN` number is returned unchanged; a string is cleaned of
separators, whitespace and unit glyphs and parsed with `parseFloat`; everything
else gives `null`. -/
def parseNumber : JSVal → Option JSNum
  | JSVal.nullv => none
  | JSVal.undef => none
  | JSVal.str [] => none
  | JSVal.num n => if n = JSNum.nan then none else some n
  | JSVal.str s =>
    let m := parseFloatJS (cleanNumeric s)
    if m = JSNum.nan then none else some m

/-! ## String conversion of JS values (for `String(value)`) -/

/-- Fraction digits of `num / den` (`num < den`), expanded until the remainder
is zero or the fuel runs out (every IEEE float value terminates well within the
chosen fuel). -/
def fracDigitsAux : Nat → Nat → Nat → List Char
  | 0, _, _ => []
  | _ + 1, _, 0 => []
  | fuel + 1, den, r =>
    let d := (10 * r) / den
    Char.ofNat ('0'.toNat + d) :: fracDigitsAux fuel den ((10 * r) % den)

/-- Decimal rendering of a rational (used for `String(value)` on a finite
number). -/
def ratToChars (q : ℚ) : List Char :=
  let sign : List Char := if q < 0 then ['-'] else []
  let n : ℕ := q.num.natAbs
  let d : ℕ := q.den
  let ip := n / d
  let r := n % d
  sign ++ natDigits ip ++ (if r = 0 then [] else '.' :: fracDigitsAux 1200 d r)

/-- `String(n)` for a JS number. -/
def numToChars : JSNum → List Char
  | JSNum.fin q => ratToChars q
  | JSNum.nan => "NaN".data
  | JSNum.posInf => "Infinity".data
  | JSNum.negInf => "-Infinity".data

/-- `String(v)` for a JS value. -/
def strJS : JSVal → List Char
  | JSVal.num n => numToChars n
  | JSVal.str s => s
  | JSVal.nullv => "null".data
  | JSVal.undef => "undefined".data

/-- JS truthiness of a value. -/
def truthyV : JSVal → Bool
  | JSVal.num n => !(n = JSNum.fin 0 || n = JSNum.nan)
  | JSVal.str s => !s.isEmpty
  | JSVal.nullv => false
  | JSVal.undef => false

/-- `String(row[col] || '')`: a falsy cell renders as the empty string. -/
def cellRawStr (v : JSVal) : List Char :=
  if truthyV v then strJS v else []

/-! ## `FileParser.extractFinancialData`: data model -/

/-- Canonical balance-sheet metric keys. -/
inductive BSKey where
  | totalAssets | totalLiabilities | ownerEquity | paidInCapital
  | currentAssets | currentLiabilities | inventory | accountsReceivable
  | cashAndEquivalents
deriving DecidableEq, Repr

/-- Canonical income-statement metric keys. -/
inductive ISKey where
  | revenue | netProfit | totalProfit | operatingProfit | operatingCost
  | sellingExpenses | adminExpenses | financialExpenses
deriving DecidableEq, Repr

/-- `result.balanceSheet`: extracted base metrics plus the derived ratio
strings produced by `toFixed(2)`. -/
structure BalanceSheet where
  totalAssets : Option JSNum := none
  totalLiabilities : Option JSNum := none
  ownerEquity : Option JSNum := none
  paidInCapital : Option JSNum := none
  currentAssets : Option JSNum := none
  currentLiabilities : Option JSNum := none
  inventory : Option JSNum := none
  accountsReceivable : Option JSNum := none
  cashAndEquivalents : Option JSNum := none
  debtRatio : Option (List Char) := none
  currentRatio : Option (List Char) := none
  quickRatio : Option (List Char) := none
  roe : Option (List Char) := none
deriving DecidableEq, Repr

/-- `result.incomeStatement`. -/
structure IncomeStatement where
  revenue : Option JSNum := none
  netProfit : Option JSNum := none
  totalProfit : Option JSNum := none
  operatingProfit : Option JSNum := none
  operatingCost : Option JSNum := none
  sellingExpenses : Option JSNum := none
  adminExpenses : Option JSNum := none
  financialExpenses : Option JSNum := none
deriving DecidableEq, Repr

/-- The per-file extraction record. -/
structure FinResult where
  balanceSheet : BalanceSheet := {}
  incomeStatement : IncomeStatement := {}
deriving DecidableEq, Repr

def emptyFinResult : FinResult := {}

/-- Read `result.balanceSheet[key]`. -/
def getBS (b : BalanceSheet) : BSKey → Option JSNum
  | BSKey.totalAssets => b.totalAssets
  | BSKey.totalLiabilities => b.totalLiabilities
  | BSKey.ownerEquity => b.ownerEquity
  | BSKey.paidInCapital => b.paidInCapital
  | BSKey.currentAssets => b.currentAssets
  | BSKey.currentLiabilities => b.currentLiabilities
  | BSKey.inventory => b.inventory
  | BSKey.accountsReceivable => b.accountsReceivable
  | BSKey.cashAndEquivalents => b.cashAndEquivalents

/-- Write `result.balanceSheet[key] = v`. -/
def setBS (b : BalanceSheet) : BSKey → JSNum → BalanceSheet
  | BSKey.totalAssets, v => { b with totalAssets := some v }
  | BSKey.totalLiabilities, v => { b with totalLiabilities := some v }
  | BSKey.ownerEquity, v => { b with ownerEquity := some v }
  | BSKey.paidInCapital, v => { b with paidInCapital := some v }
  | BSKey.currentAssets, v => { b with currentAssets := some v }
  | BSKey.currentLiabilities, v => { b with currentLiabilities := some v }
  | BSKey.inventory, v => { b with inventory := some v }
  | BSKey.accountsReceivable, v => { b with accountsReceivable := some v }
  | BSKey.cashAndEquivalents, v => { b with cashAndEquivalents := some v }

/-- Read `result.incomeStatement[key]`. -/
def getIS (b : IncomeStatement) : ISKey → Option JSNum
  | ISKey.revenue => b.revenue
  | ISKey.netProfit => b.netProfit
  | ISKey.totalProfit => b.totalProfit
  | ISKey.operatingProfit => b.operatingProfit
  | ISKey.operatingCost => b.operatingCost
  | ISKey.sellingExpenses => b.sellingExpenses
  | ISKey.adminExpenses => b.adminExpenses
  | ISKey.financialExpenses => b.financialExpenses

/-- Write `result.incomeStatement[key] = v`. -/
def setIS (b : IncomeStatement) : ISKey → JSNum → IncomeStatement
  | ISKey.revenue, v => { b with revenue := some v }
  | ISKey.netProfit, v => { b with netProfit := some v }
  | ISKey.totalProfit, v => { b with totalProfit := some v }
  | ISKey.operatingProfit, v => { b with operatingProfit := some v }
  | ISKey.operatingCost, v => { b with operatingCost := some v }
  | ISKey.sellingExpenses, v => { b with sellingExpenses := some v }
  | ISKey.adminExpenses, v => { b with adminExpenses := some v }
  | ISKey.financialExpenses, v => { b with financialExpenses := some v }

/-- `balanceSheetTerms`, in object-literal insertion order. -/
def balanceSheetTerms : List (List Char × BSKey) :=
  [("资产总计".data, BSKey.totalAssets),
   ("资产总额".data, BSKey.totalAssets),
   ("资产合计".data, BSKey.totalAssets),
   ("资产总数".data, BSKey.totalAssets),
   ("总资产".data, BSKey.totalAssets),
   ("负债总计".data, BSKey.totalLiabilities),
   ("负债总额".data, BSKey.totalLiabilities),
   ("负债合计".data, BSKey.totalLiabilities),
   ("总负债".data, BSKey.totalLiabilities),
   ("所有者权益合计".data, BSKey.ownerEquity),
   ("所有者权益".data, BSKey.ownerEquity),
   ("股东权益合计".data, BSKey.ownerEquity),
   ("股东权益".data, BSKey.ownerEquity),
   ("净资产".data, BSKey.ownerEquity),
   ("实收资本".data, BSKey.paidInCapital),
   ("流动资产合计".data, BSKey.currentAssets),
   ("流动资产".data, BSKey.currentAssets),
   ("流动负债合计".data, BSKey.currentLiabilities),
   ("流动负债".data, BSKey.currentLiabilities),
   ("存货".data, BSKey.inventory),
   ("应收账款".data, BSKey.accountsReceivable),
   ("货币资金".data, BSKey.cashAndEquivalents)]

/-- `incomeTerms`, in object-literal insertion order. -/
def incomeTerms : List (List Char × ISKey) :=
  [("营业收入".data, ISKey.revenue),
   ("主营业务收入".data, ISKey.revenue),
   ("营业总收入".data, ISKey.revenue),
   ("销售收入".data, ISKey.revenue),
   ("净利润".data, ISKey.netProfit),
   ("利润总额".data, ISKey.totalProfit),
   ("营业利润".data, ISKey.operatingProfit),
   ("营业成本".data, ISKey.operatingCost),
   ("主营业务成本".data, ISKey.operatingCost),
   ("销售费用".data, ISKey.sellingExpenses),
   ("管理费用".data, ISKey.adminExpenses),
   ("财务费用".data, ISKey.financialExpenses)]

/-- The inner value-search loop: the first cell, scanned left to right, whose
`parseNumber` is non-`null` and non-zero. -/
def findNonZero : List JSVal → Option JSNum
  | [] => none
  | c :: rest =>
    match parseNumber c with
    | some v => if v ≠ JSNum.fin 0 then some v else findNonZero rest
    | none => findNonZero rest

/-- One balance-sheet dictionary entry processed at one cell: if the trimmed
cell text contains the term and the key is not already (truthily) set, search
the rest of the row, then — if the key is still not set — the immediately
following row. -/
def processTermBS (restCells : List JSVal) (nextRow : Option (List JSVal))
    (cellText : List Char) (st : FinResult) (tk : List Char × BSKey) : FinResult :=
  if containsSub cellText tk.1 && !truthyN (getBS st.balanceSheet tk.2) then
    let st1 :=
      match findNonZero restCells with
      | some v => { st with balanceSheet := setBS st.balanceSheet tk.2 v }
      | none => st
    if !truthyN (getBS st1.balanceSheet tk.2) then
      match nextRow with
      | some nr =>
        match findNonZero nr with
        | some v => { st1 with balanceSheet := setBS st1.balanceSheet tk.2 v }
        | none => st1
      | none => st1
    else st1
  else st

/-- One income-statement dictionary entry processed at one cell. -/
def processTermIS (restCells : List JSVal) (nextRow : Option (List JSVal))
    (cellText : List Char) (st : FinResult) (tk : List Char × ISKey) : FinResult :=
  if containsSub cellText tk.1 && !truthyN (getIS st.incomeStatement tk.2) then
    let st1 :=
      match findNonZero restCells with
      | some v => { st with incomeStatement := setIS st.incomeStatement tk.2 v }
      | none => st
    if !truthyN (getIS st1.incomeStatement tk.2) then
      match nextRow with
      | some nr =>
        match findNonZero nr with
        | some v => { st1 with incomeStatement := setIS st1.incomeStatement tk.2 v }
        | none => st1
      | none => st1
    else st1
  else st

/-- Process one cell: skip blank cells, otherwise run both dictionaries over
the trimmed cell text. -/
def processCell (cell : JSVal) (restCells : List JSVal)
    (nextRow : Option (List JSVal)) (st : FinResult) : FinResult :=
  let cellText := trimJS (cellRawStr cell)
  if cellText = [] then st
  else
    let st1 := balanceSheetTerms.foldl (processTermBS restCells nextRow cellText) st
    incomeTerms.foldl (processTermIS restCells nextRow cellText) st1

/-- Scan the cells of one row left to right; each cell's rightward search sees
exactly the remaining cells of the row. -/
def scanCells (nextRow : Option (List JSVal)) : List JSVal → FinResult → FinResult
  | [], st => st
  | c :: rest, st => scanCells nextRow rest (processCell c rest nextRow st)

/-- Scan all rows; each row sees the immediately following row (when any) for
the fallback search, and empty rows are skipped. -/
def scanRows : List (List JSVal) → FinResult → FinResult
  | [], st => st
  | row :: rest, st =>
    if row.isEmpty then scanRows rest st
    else scanRows rest (scanCells rest.head? row st)

/-- `o.getD 0`-style read used after a truthiness guard. -/
def getN (o : Option JSNum) : JSNum := o.getD (JSNum.fin 0)

/-- The derived-metric block run after the full scan: debt ratio, current
ratio, quick ratio (inventory defaulting to `0`), return on equity, and the
final owner-equity inference. -/
def computeDerived (r : FinResult) : FinResult :=
  let bs0 := r.balanceSheet
  let is0 := r.incomeStatement
  let bs1 :=
    if truthyN bs0.totalAssets && truthyN bs0.totalLiabilities then
      let v := toFixed2 (jmul (jdiv (getN bs0.totalLiabilities) (getN bs0.totalAssets)) (JSNum.fin 100))
      { bs0 with debtRatio := some v }
    else bs0
  let bs2 :=
    if truthyN bs1.currentAssets && truthyN bs1.currentLiabilities then
      let quickAssets :=
        jsub (getN bs1.currentAssets)
          (if truthyN bs1.inventory then getN bs1.inventory else JSNum.fin 0)
      { bs1 with
          currentRatio := some (toFixed2 (jdiv (getN bs1.currentAssets) (getN bs1.currentLiabilities)))
          quickRatio := some (toFixed2 (jdiv quickAssets (getN bs1.currentLiabilities))) }
    else bs1
  let bs3 :=
    if truthyN is0.netProfit && truthyN bs2.ownerEquity then
      let v := toFixed2 (jmul (jdiv (getN is0.netProfit) (getN bs2.ownerEquity)) (JSNum.fin 100))
      { bs2 with roe := some v }
    else bs2
  let bs4 :=
    if truthyN bs3.totalAssets && truthyN bs3.totalLiabilities && !truthyN bs3.ownerEquity then
      { bs3 with ownerEquity := some (jsub (getN bs3.totalAssets) (getN bs3.totalLiabilities)) }
    else bs3
  { r with balanceSheet := bs4 }

/-- `FileParser.extractFinancialData`: the full cell scan followed by the
derived-metric block, updating the accumulated result record in place. -/
def extractFinancialData (sheetData : List (List JSVal)) (r : FinResult) : FinResult :=
  computeDerived (scanRows sheetData r)

/-! ## A small backtracking regular-expression engine

Exactly the constructs used by the source's dynamically built patterns are
supported: literal runs (with the `i` flag's case folding), alternations of
literals, character-class repetitions `{min,max}` in greedy or lazy form, an
alternation of repetitions, and sequential capture groups.  Matching is
leftmost-first with full backtracking, as in ECMAScript.  The matcher is
fuelled so that it evaluates by kernel reduction; insufficient fuel only ever
produces "no match". -/

/-- One element of a compiled pattern. -/
inductive RAtom where
  | lit (cs : List Char)
  | litChoices (alts : List (List Char))
  | rep (p : Char → Bool) (mn : Nat) (mx : Option Nat) (lz : Bool)
  | repChoices (p : Char → Bool) (ns : List Nat)
  | altRep (branches : List ((Char → Bool) × Nat × Option Nat))
  | openG
  | closeG

/-- Case folding used by the `i` flag (the patterns only contain ASCII
letters and CJK characters, for which ASCII folding is exact). -/
def foldCase (ci : Bool) (c : Char) : Char := if ci then c.toLower else c

/-- Does `hay` start with `pre`, under optional case folding? -/
def startsWithCI (ci : Bool) : List Char → List Char → Bool
  | _, [] => true
  | [], _ :: _ => false
  | h :: hs, p :: ps => foldCase ci h = foldCase ci p && startsWithCI ci hs ps

/-- Length of the maximal prefix of characters satisfying `p`. -/
def countWhile (p : Char → Bool) : List Char → Nat
  | [] => 0
  | c :: r => if p c then countWhile p r + 1 else 0

/-- The backtracking matcher.  `cur` is the accumulated text of the currently
open capture group, `done` the finished captures in order.  On success it
returns the captures and the unconsumed suffix. -/
def matchA (ci : Bool) : Nat → List RAtom → List Char → Option (List Char) →
    List (List Char) → Option (List (List Char) × List Char)
  | 0, _, _, _, _ => none
  | _ + 1, [], rem, _, done => some (done, rem)
  | fuel + 1, a :: rest, rem, cur, done =>
    match a with
    | RAtom.openG => matchA ci fuel rest rem (some []) done
    | RAtom.closeG => matchA ci fuel rest rem none (done ++ [cur.getD []])
    | RAtom.lit cs =>
      if startsWithCI ci rem cs then
        matchA ci fuel rest (rem.drop cs.length) (cur.map (· ++ rem.take cs.length)) done
      else none
    | RAtom.litChoices alts =>
      match alts with
      | [] => none
      | l :: ls =>
        match (if startsWithCI ci rem l then
                matchA ci fuel rest (rem.drop l.length) (cur.map (· ++ rem.take l.length)) done
              else none) with
        | some r => some r
        | none => matchA ci fuel (RAtom.litChoices ls :: rest) rem cur done
    | RAtom.rep p mn mx lz =>
      let run := countWhile p rem
      let hi := match mx with | some m => min m run | none => run
      if mn > hi then none
      else
        let ns := if lz then List.range' mn (hi - mn + 1) else (List.range' mn (hi - mn + 1)).reverse
        matchA ci fuel (RAtom.repChoices p ns :: rest) rem cur done
    | RAtom.repChoices p ns =>
      match ns with
      | [] => none
      | n :: ns2 =>
        match matchA ci fuel rest (rem.drop n) (cur.map (· ++ rem.take n)) done with
        | some r => some r
        | none => matchA ci fuel (RAtom.repChoices p ns2 :: rest) rem cur done
    | RAtom.altRep branches =>
      match branches with
      | [] => none
      | b :: bs =>
        match matchA ci fuel (RAtom.rep b.1 b.2.1 b.2.2 false :: rest) rem cur done with
        | some r => some r
        | none => matchA ci fuel (RAtom.altRep bs :: rest) rem cur done

/-- A generous fuel bound for one anchored match attempt. -/
def fuelFor (atoms : List RAtom) (s : List Char) : Nat :=
  (atoms.length + 2) * (s.length + 2) + 16

/-- Leftmost match search: returns the skipped prefix, the captures and the
suffix after the match. -/
def findM (ci : Bool) (atoms : List RAtom) : List Char →
    Option (List Char × List (List Char) × List Char)
  | [] =>
    match matchA ci (fuelFor atoms []) atoms [] none [] with
    | some (gs, rest) => some ([], gs, rest)
    | none => none
  | c :: t =>
    match matchA ci (fuelFor atoms (c :: t)) atoms (c :: t) none [] with
    | some (gs, rest) => some ([], gs, rest)
    | none => (findM ci atoms t).map (fun r => (c :: r.1, r.2.1, r.2.2))

/-- Global replacement (`g` flag) with a replacer.  The replacer receives the
captures, the matched text, the original text before the match, and the text
after it. -/
def replaceG (ci : Bool) (atoms : List RAtom)
    (cb : List (List Char) → List Char → List Char → List Char → List Char) :
    Nat → List Char → List Char → List Char
  | 0, _, s => s
  | fuel + 1, pre, s =>
    match findM ci atoms s with
    | none => s
    | some (sk, gs, rest) =>
      let mlen := s.length - sk.length - rest.length
      let m := (s.drop sk.length).take mlen
      let before := pre ++ sk
      if mlen = 0 then
        match rest with
        | [] => sk ++ cb gs m before rest
        | c :: rest2 =>
          sk ++ cb gs m before rest ++ c :: replaceG ci atoms cb fuel (before ++ [c]) rest2
      else sk ++ cb gs m before rest ++ replaceG ci atoms cb fuel (before ++ m) rest

/-- ECMAScript `GetSubstitution` (fuelled): expansion of `$$`, `$&`, `` $` ``,
`$'` and `$n`/`$nn` inside a string replacement template. -/
def substTemplateF (gs : List (List Char)) (m before after : List Char) :
    Nat → List Char → List Char
  | 0, t => t
  | _ + 1, [] => []
  | fuel + 1, c :: t =>
    if c = '$' then
      match t with
      | [] => ['$']
      | c2 :: t2 =>
        if c2 = '$' then '$' :: substTemplateF gs m before after fuel t2
        else if c2 = '&' then m ++ substTemplateF gs m before after fuel t2
        else if c2.val = 96 then before ++ substTemplateF gs m before after fuel t2
        else if c2.val = 39 then after ++ substTemplateF gs m before after fuel t2
        else if c2.isDigit then
          let d1 := c2.toNat - 48
          match t2 with
          | c3 :: t3 =>
            let nn := 10 * d1 + (c3.toNat - 48)
            if c3.isDigit && 1 ≤ nn && nn ≤ gs.length then
              gs.getD (nn - 1) [] ++ substTemplateF gs m before after fuel t3
            else if 1 ≤ d1 && d1 ≤ gs.length then
              gs.getD (d1 - 1) [] ++ substTemplateF gs m before after fuel t2
            else '$' :: c2 :: substTemplateF gs m before after fuel t2
          | [] =>
            if 1 ≤ d1 && d1 ≤ gs.length then gs.getD (d1 - 1) []
            else ['$', c2]
        else '$' :: substTemplateF gs m before after fuel (c2 :: t2)
    else c :: substTemplateF gs m before after fuel t

/-- `GetSubstitution` applied to a whole template. -/
def substTemplate (gs : List (List Char)) (m before after tpl : List Char) : List Char :=
  substTemplateF gs m before after (tpl.length + 1) tpl

/-! ## `TemplateEngine`: escaping -/

/-- One global single-character replacement (`str.replace(/c/g, r)`). -/
def replChar (c : Char) (r : List Char) (s : List Char) : List Char :=
  s.flatMap (fun x => if x = c then r else [x])

/-- `TemplateEngine.escapeXml`: a falsy string gives `''`; otherwise `&`, `<`,
`>`, `"` and the apostrophe are each globally replaced by their XML entity,
in that order. -/
def escapeXml (s : List Char) : List Char :=
  if s.isEmpty then []
  else
    replChar (Char.ofNat 39) "&apos;".data
      (replChar '"' "&quot;".data
        (replChar '>' "&gt;".data
          (replChar '<' "&lt;".data
            (replChar '&' "&amp;".data s))))

/-- The character class of `escapeRegex`:
`[.*+?^${}()|[\]\\]`. -/
def regexMeta (c : Char) : Bool :=
  c = '.' || c = '*' || c = '+' || c = '?' || c = '^' || c = '$' ||
  c.val = 123 || c.val = 125 || c = '(' || c = ')' || c = '|' ||
  c = '[' || c = ']' || c = '\\'

/-- `TemplateEngine.escapeRegex`: prefix every regex metacharacter with a
backslash. -/
def escapeRegex (s : List Char) : List Char :=
  s.flatMap (fun c => if regexMeta c then ['\\', c] else [c])

/-! ## `TemplateEngine`: the document context and the heuristic passes -/

/-- The flat Document Context assembled before generation (each field is a raw
JS value; absent fields are `undefined`). -/
structure Ctx where
  companyName : JSVal := JSVal.undef
  creditCode : JSVal := JSVal.undef
  legalRep : JSVal := JSVal.undef
  registeredCapital : JSVal := JSVal.undef
  establishDate : JSVal := JSVal.undef
  industry : JSVal := JSVal.undef
  registeredAddress : JSVal := JSVal.undef
  businessScope : JSVal := JSVal.undef
  employeeCount : JSVal := JSVal.undef
  companySize : JSVal := JSVal.undef
  totalAssetsEnd : JSVal := JSVal.undef
  totalLiabilitiesEnd : JSVal := JSVal.undef
  ownerEquityEnd : JSVal := JSVal.undef
  revenueCurrent : JSVal := JSVal.undef
  netProfitCurrent : JSVal := JSVal.undef
  debtRatioEnd : JSVal := JSVal.undef
  creditAmount : JSVal := JSVal.undef
  creditPeriod : JSVal := JSVal.undef
  creditType : JSVal := JSVal.undef
  creditPurpose : JSVal := JSVal.undef
  basicSituation : JSVal := JSVal.undef
  controllerSituation : JSVal := JSVal.undef
  businessStatus : JSVal := JSVal.undef
  marketAnalysis : JSVal := JSVal.undef
  financialOverview : JSVal := JSVal.undef
  financialIndicators : JSVal := JSVal.undef
  creditRisk : JSVal := JSVal.undef
  marketRisk : JSVal := JSVal.undef
  overallEvaluation : JSVal := JSVal.undef
  creditSuggestion : JSVal := JSVal.undef
deriving DecidableEq, Repr

/-- Character classes used by the heuristic patterns. -/
def anyC (_ : Char) : Bool := true

def notGt (c : Char) : Bool := c ≠ '>'

def notLt (c : Char) : Bool := c ≠ '<'

def colonCls (c : Char) : Bool := c = '：' || c = ':'

def blankCls (c : Char) : Bool := c = '_' || jsWs c

/-- The compiled `tablePattern` for one label (flags `gis`):
`(<w:tc[^>]*>.*?<w:t[^>]*>)([^<]*LABEL[^<]*)(</w:t>.*?</w:tc>\s*<w:tc[^>]*>.*?<w:t[^>]*>)([_\s]*)(</w:t>)`. -/
def tablePattern (label : List Char) : List RAtom :=
  [RAtom.openG, RAtom.lit "<w:tc".data, RAtom.rep notGt 0 none false,
   RAtom.lit ">".data, RAtom.rep anyC 0 none true, RAtom.lit "<w:t".data,
   RAtom.rep notGt 0 none false, RAtom.lit ">".data, RAtom.closeG,
   RAtom.openG, RAtom.rep notLt 0 none false, RAtom.lit label,
   RAtom.rep notLt 0 none false, RAtom.closeG,
   RAtom.openG, RAtom.lit "</w:t>".data, RAtom.rep anyC 0 none true,
   RAtom.lit "</w:tc>".data, RAtom.rep jsWs 0 none false, RAtom.lit "<w:tc".data,
   RAtom.rep notGt 0 none false, RAtom.lit ">".data,
   RAtom.rep anyC 0 none true, RAtom.lit "<w:t".data,
   RAtom.rep notGt 0 none false, RAtom.lit ">".data, RAtom.closeG,
   RAtom.openG, RAtom.rep blankCls 0 none false, RAtom.closeG,
   RAtom.openG, RAtom.lit "</w:t>".data, RAtom.closeG]

/-- `replaceTableCells`' label→field map, in object-literal insertion order. -/
def labelMapTable (d : Ctx) : List (List Char × JSVal) :=
  [("企业名称".data, d.companyName), ("客户名称".data, d.companyName),
   ("借款人名称".data, d.companyName), ("借款人".data, d.companyName),
   ("统一社会信用代码".data, d.creditCode), ("社会信用代码".data, d.creditCode),
   ("组织机构代码".data, d.creditCode),
   ("法定代表人".data, d.legalRep), ("法人代表".data, d.legalRep),
   ("负责人".data, d.legalRep),
   ("注册资本".data, d.registeredCapital), ("注册资金".data, d.registeredCapital),
   ("成立日期".data, d.establishDate), ("成立时间".data, d.establishDate),
   ("注册日期".data, d.establishDate),
   ("所属行业".data, d.industry), ("行业分类".data, d.industry),
   ("主营行业".data, d.industry),
   ("注册地址".data, d.registeredAddress), ("住所".data, d.registeredAddress),
   ("公司地址".data, d.registeredAddress),
   ("经营范围".data, d.businessScope),
   ("员工人数".data, d.employeeCount), ("职工人数".data, d.employeeCount),
   ("企业规模".data, d.companySize),
   ("资产总额".data, d.totalAssetsEnd), ("资产总计".data, d.totalAssetsEnd),
   ("负债总额".data, d.totalLiabilitiesEnd), ("负债总计".data, d.totalLiabilitiesEnd),
   ("所有者权益".data, d.ownerEquityEnd), ("净资产".data, d.ownerEquityEnd),
   ("营业收入".data, d.revenueCurrent),
   ("净利润".data, d.netProfitCurrent), ("利润总额".data, d.netProfitCurrent),
   ("资产负债率".data, d.debtRatioEnd),
   ("授信金额".data, d.creditAmount), ("贷款金额".data, d.creditAmount),
   ("申请金额".data, d.creditAmount),
   ("授信期限".data, d.creditPeriod), ("贷款期限".data, d.creditPeriod),
   ("授信类型".data, d.creditType), ("贷款类型".data, d.creditType),
   ("贷款品种".data, d.creditType),
   ("授信用途".data, d.creditPurpose), ("贷款用途".data, d.creditPurpose),
   ("资金用途".data, d.creditPurpose)]

/-- The replacement callback of `replaceTableCells`: fill the sibling cell only
when its captured text is blank (empty after trim, or underscores and
whitespace only); otherwise return the match unchanged. -/
def tableCb (value : JSVal) (gs : List (List Char)) (m : List Char)
    (_ _ : List Char) : List Char :=
  let p4 := gs.getD 3 []
  if trimJS p4 = [] || (!p4.isEmpty && p4.all blankCls) then
    gs.getD 0 [] ++ gs.getD 1 [] ++ gs.getD 2 [] ++ escapeXml (strJS value) ++ gs.getD 4 []
  else m

/-- One label of `replaceTableCells`: skip falsy values, otherwise a global
replace with `tablePattern`. -/
def replaceTableOne (xml : List Char) (label : List Char) (value : JSVal) : List Char :=
  if truthyV value then
    replaceG true (tablePattern label) (tableCb value) (xml.length + 1) [] xml
  else xml

/-- `TemplateEngine.replaceTableCells`. -/
def replaceTableCells (xml : List Char) (d : Ctx) : List Char :=
  (labelMapTable d).foldl (fun x lv => replaceTableOne x lv.1 lv.2) xml

/-- The compiled `colonPattern` for one label (flags `gi`):
`(<w:t[^>]*>)(LABEL[：:][\s]*)(_+|[\s]{2,}|　+)(</w:t>)`. -/
def colonPattern (label : List Char) : List RAtom :=
  [RAtom.openG, RAtom.lit "<w:t".data, RAtom.rep notGt 0 none false,
   RAtom.lit ">".data, RAtom.closeG,
   RAtom.openG, RAtom.lit label, RAtom.rep colonCls 1 (some 1) false,
   RAtom.rep jsWs 0 none false, RAtom.closeG,
   RAtom.openG,
   RAtom.altRep [(fun c => c = '_', 1, none), (jsWs, 2, none), (fun c => c = '　', 1, none)],
   RAtom.closeG,
   RAtom.openG, RAtom.lit "</w:t>".data, RAtom.closeG]

/-- `replaceLabeledContent`'s label→field map. -/
def labelMapColon (d : Ctx) : List (List Char × JSVal) :=
  [("企业名称".data, d.companyName), ("客户名称".data, d.companyName),
   ("统一社会信用代码".data, d.creditCode), ("法定代表人".data, d.legalRep),
   ("注册资本".data, d.registeredCapital), ("成立日期".data, d.establishDate),
   ("所属行业".data, d.industry), ("注册地址".data, d.registeredAddress),
   ("授信金额".data, d.creditAmount), ("授信期限".data, d.creditPeriod)]

/-- One label of `replaceLabeledContent`: a global replace with the string
replacement template `$1$2<escaped value>$4` (so `$`-sequences inside the
escaped value are themselves expanded, as in `String.prototype.replace`). -/
def replaceLabeledOne (xml : List Char) (label : List Char) (value : JSVal) : List Char :=
  if truthyV value then
    let tpl := "$1$2".data ++ escapeXml (strJS value) ++ "$4".data
    replaceG true (colonPattern label)
      (fun gs m before after => substTemplate gs m before after tpl)
      (xml.length + 1) [] xml
  else xml

/-- `TemplateEngine.replaceLabeledContent`. -/
def replaceLabeledContent (xml : List Char) (d : Ctx) : List Char :=
  (labelMapColon d).foldl (fun x lv => replaceLabeledOne x lv.1 lv.2) xml

/-- The compiled `replaceBlankFields` pattern for one label (flags `g`):
`(LABEL[：:]\s*)(_+)`. -/
def blankPattern (label : List Char) : List RAtom :=
  [RAtom.openG, RAtom.lit label, RAtom.rep colonCls 1 (some 1) false,
   RAtom.rep jsWs 0 none false, RAtom.closeG,
   RAtom.openG, RAtom.rep (fun c => c = '_') 1 none false, RAtom.closeG]

/-- `replaceBlankFields`' label→field list. -/
def labelMapBlank (d : Ctx) : List (List Char × JSVal) :=
  [("企业名称".data, d.companyName), ("客户名称".data, d.companyName),
   ("法定代表人".data, d.legalRep), ("注册资本".data, d.registeredCapital),
   ("成立日期".data, d.establishDate), ("授信金额".data, d.creditAmount),
   ("授信期限".data, d.creditPeriod)]

/-- One label of `replaceBlankFields`: template `$1<escaped value>`. -/
def replaceBlankOne (xml : List Char) (label : List Char) (value : JSVal) : List Char :=
  if truthyV value then
    let tpl := "$1".data ++ escapeXml (strJS value)
    replaceG false (blankPattern label)
      (fun gs m before after => substTemplate gs m before after tpl)
      (xml.length + 1) [] xml
  else xml

/-- `TemplateEngine.replaceBlankFields`. -/
def replaceBlankFields (xml : List Char) (d : Ctx) : List Char :=
  (labelMapBlank d).foldl (fun x lv => replaceBlankOne x lv.1 lv.2) xml

/-! ## `TemplateEngine`: the structured appendix -/

/-- `TemplateEngine.createParagraph`, reproducing the exact template literal of
the source (including its newlines and indentation). -/
def createParagraph (text : List Char) (bold : Bool) (align : List Char) : List Char :=
  let alignment :=
    if align = "left".data || align = "center".data || align = "right".data then align
    else "left".data
  let boldXml := if bold then "<w:b/><w:bCs/>".data else []
  let sizeXml :=
    if bold then "<w:sz w:val=\"28\"/><w:szCs w:val=\"28\"/>".data
    else "<w:sz w:val=\"24\"/><w:szCs w:val=\"24\"/>".data
  "\n            <w:p>\n                <w:pPr>\n                    <w:jc w:val=\"".data
  ++ alignment
  ++ "\"/>\n                </w:pPr>\n                <w:r>\n                    <w:rPr>\n                        <w:rFonts w:ascii=\"宋体\" w:hAnsi=\"宋体\" w:eastAsia=\"宋体\"/>\n                        ".data
  ++ boldXml
  ++ "\n                        ".data
  ++ sizeXml
  ++ "\n                    </w:rPr>\n                    <w:t>".data
  ++ escapeXml text
  ++ "</w:t>\n                </w:r>\n            </w:p>\n        ".data

/-- The page-break paragraph pushed first by `createFilledContentSection`. -/
def pageBreakXml : List Char :=
  "\n            <w:p>\n                <w:r>\n                    <w:br w:type=\"page\"/>\n                </w:r>\n            </w:p>\n        ".data

/-- Split a string at newline characters (JS `split('\n')`). -/
def splitNl : List Char → List (List Char)
  | [] => [[]]
  | c :: t =>
    match splitNl t with
    | h :: rt => if c = '\n' then [] :: h :: rt else (c :: h) :: rt
    | [] => [[c]]

/-- The `companyInfo` item list. -/
def companyInfoItems (d : Ctx) : List (List Char × JSVal) :=
  [("企业名称".data, d.companyName), ("统一社会信用代码".data, d.creditCode),
   ("法定代表人".data, d.legalRep), ("注册资本".data, d.registeredCapital),
   ("成立日期".data, d.establishDate), ("所属行业".data, d.industry),
   ("企业规模".data, d.companySize), ("员工人数".data, d.employeeCount),
   ("注册地址".data, d.registeredAddress)]

/-- The `financialInfo` item list (label, value, unit). -/
def financialInfoItems (d : Ctx) : List (List Char × JSVal × List Char) :=
  [("资产总额".data, d.totalAssetsEnd, "万元".data),
   ("负债总额".data, d.totalLiabilitiesEnd, "万元".data),
   ("所有者权益".data, d.ownerEquityEnd, "万元".data),
   ("营业收入".data, d.revenueCurrent, "万元".data),
   ("净利润".data, d.netProfitCurrent, "万元".data),
   ("资产负债率".data, d.debtRatioEnd, "%".data)]

/-- The `creditInfo` item list (label, value, unit — `creditType` and
`creditPurpose` have no unit). -/
def creditInfoItems (d : Ctx) : List (List Char × JSVal × List Char) :=
  [("授信类型".data, d.creditType, []),
   ("授信金额".data, d.creditAmount, "万元".data),
   ("授信期限".data, d.creditPeriod, "个月".data),
   ("授信用途".data, d.creditPurpose, [])]

/-- The ten free-text narrative sections (heading, field accessor). -/
def textSections : List (List Char × (Ctx → JSVal)) :=
  [("四、企业基本情况".data, Ctx.basicSituation),
   ("五、实际控制人情况".data, Ctx.controllerSituation),
   ("六、经营状况分析".data, Ctx.businessStatus),
   ("七、市场分析".data, Ctx.marketAnalysis),
   ("八、财务状况概述".data, Ctx.financialOverview),
   ("九、财务指标分析".data, Ctx.financialIndicators),
   ("十、信用风险分析".data, Ctx.creditRisk),
   ("十一、市场风险分析".data, Ctx.marketRisk),
   ("十二、总体评价".data, Ctx.overallEvaluation),
   ("十三、授信建议".data, Ctx.creditSuggestion)]

/-- The paragraph block generated for one narrative section: heading, blank
line, the non-blank lines of the content (indented), and a closing blank
line; nothing when the field is falsy. -/
def textSectionBlock (d : Ctx) (ts : List Char × (Ctx → JSVal)) : List (List Char) :=
  if truthyV (ts.2 d) then
    [createParagraph ts.1 true "left".data, createParagraph [] false "left".data]
    ++ ((splitNl (strJS (ts.2 d))).filter (fun l => !(trimJS l).isEmpty)).map
        (fun l => createParagraph ("    ".data ++ l) false "left".data)
    ++ [createParagraph [] false "left".data]
  else []

/-- `TemplateEngine.createFilledContentSection`: the full ordered list of
appendix paragraphs.  The report date (JS `formatDate(new Date())`) is passed
in as `now`. -/
def sectionsList (d : Ctx) (now : List Char) : List (List Char) :=
  [pageBreakXml,
   createParagraph "授信报告填写数据汇总".data true "center".data,
   createParagraph [] false "left".data]
  ++ (if truthyV d.companyName || truthyV d.creditCode || truthyV d.legalRep then
        [createParagraph "一、企业基本信息".data true "left".data,
         createParagraph [] false "left".data]
        ++ (companyInfoItems d).filterMap (fun it =>
             if truthyV it.2 then
               some (createParagraph (it.1 ++ "：".data ++ strJS it.2) false "left".data)
             else none)
        ++ (if truthyV d.businessScope then
              [createParagraph ("经营范围：".data ++ strJS d.businessScope) false "left".data]
            else [])
        ++ [createParagraph [] false "left".data]
      else [])
  ++ (if truthyV d.totalAssetsEnd || truthyV d.revenueCurrent then
        [createParagraph "二、财务信息".data true "left".data,
         createParagraph [] false "left".data]
        ++ (financialInfoItems d).filterMap (fun it =>
             if truthyV it.2.1 then
               some (createParagraph (it.1 ++ "：".data ++ strJS it.2.1 ++ it.2.2) false "left".data)
             else none)
        ++ [createParagraph [] false "left".data]
      else [])
  ++ (if truthyV d.creditType || truthyV d.creditAmount then
        [createParagraph "三、授信信息".data true "left".data,
         createParagraph [] false "left".data]
        ++ (creditInfoItems d).filterMap (fun it =>
             if truthyV it.2.1 then
               some (createParagraph (it.1 ++ "：".data ++ strJS it.2.1 ++ it.2.2) false "left".data)
             else none)
        ++ [createParagraph [] false "left".data]
      else [])
  ++ textSections.flatMap (textSectionBlock d)
  ++ [createParagraph [] false "left".data,
      createParagraph ("报告日期：".data ++ now) false "right".data]

/-- JS `Array.prototype.join('\n')`. -/
def joinNl : List (List Char) → List Char
  | [] => []
  | [x] => x
  | x :: y :: rest => x ++ '\n' :: joinNl (y :: rest)

/-- `createFilledContentSection` returns `sections.join('\n')`. -/
def createFilledContentSection (d : Ctx) (now : List Char) : List Char :=
  joinNl (sectionsList d now)

/-- The document body's closing tag. -/
def bodyClose : List Char := "</w:body>".data

/-- Index of the last occurrence of `needle` in `hay`
(JS `lastIndexOf`; `none` for `-1`). -/
def lastIdxOf (needle : List Char) : List Char → Option Nat
  | [] => if startsWithL [] needle then some 0 else none
  | c :: t =>
    match lastIdxOf needle t with
    | some k => some (k + 1)
    | none => if startsWithL (c :: t) needle then some 0 else none

/-- `TemplateEngine.appendFilledContent`: splice the appendix immediately
before the last `</w:body>`; if the tag is missing, return the body
unchanged. -/
def appendFilledContent (xml : List Char) (d : Ctx) (now : List Char) : List Char :=
  match lastIdxOf bodyClose xml with
  | none => xml
  | some k => xml.take k ++ createFilledContentSection d now ++ xml.drop k

/-- The three inline heuristic passes, in pipeline order. -/
def inlinePasses (xml : List Char) (d : Ctx) : List Char :=
  replaceBlankFields (replaceLabeledContent (replaceTableCells xml d) d) d

/-- `TemplateEngine.generateWithSmartReplacement`, restricted to its body
transformation: the three inline passes followed by the appendix insertion. -/
def generateWithSmartReplacement (xml : List Char) (d : Ctx) (now : List Char) : List Char :=
  appendFilledContent (inlinePasses xml d) d now

/-! ## `TemplateEngine.analyzeTemplate` / `findExistingPlaceholders` -/

/-- The scan of `/\{([^}]+)\}/g`: at each `{`, a nonempty run of
non-`}` characters followed by `}` yields the trimmed inner text; scanning
resumes after the match, or at the next character on failure. -/
def scanPH : Nat → List Char → List (List Char)
  | 0, _ => []
  | _ + 1, [] => []
  | fuel + 1, c :: rest =>
    if c.val = 123 then
      let inner := rest.takeWhile (fun x => x.val ≠ 125)
      if !inner.isEmpty && startsWithL (rest.drop inner.length) [Char.ofNat 125] then
        trimJS inner :: scanPH fuel (rest.drop (inner.length + 1))
      else scanPH fuel rest
    else scanPH fuel rest

/-- Deduplication preserving first occurrence (`if (!placeholders.includes(p))
placeholders.push(p)`). -/
def dedupKeepFirst (l : List (List Char)) : List (List Char) :=
  l.foldl (fun acc p => if acc.contains p then acc else acc ++ [p]) []

/-- `TemplateEngine.findExistingPlaceholders`. -/
def findExistingPlaceholders (content : List Char) : List (List Char) :=
  dedupKeepFirst (scanPH (content.length + 1) content)

/-- The result of `TemplateEngine.analyzeTemplate` (the `content` echo is
omitted). -/
structure TemplateAnalysis where
  hasExistingPlaceholders : Bool
  placeholders : List (List Char)
deriving DecidableEq, Repr

/-- `TemplateEngine.analyzeTemplate`. -/
def analyzeTemplate (content : List Char) : TemplateAnalysis :=
  let existing := findExistingPlaceholders content
  { hasExistingPlaceholders := existing.length > 0, placeholders := existing }

/-! ## JSON (`JSON.parse`) -/

/-- A JSON value. -/
inductive Json where
  | null
  | bool (b : Bool)
  | num (q : ℚ)
  | str (s : List Char)
  | arr (xs : List Json)
  | obj (fields : List (List Char × Json))

/-- JSON insignificant whitespace. -/
def jsonWs (c : Char) : Bool :=
  c = ' ' || c = '\t' || c = '\n' || c = '\r'

/-- Hex digit value. -/
def hexVal (c : Char) : Option Nat :=
  if '0' ≤ c && c ≤ '9' then some (c.toNat - 48)
  else if 'a' ≤ c && c ≤ 'f' then some (c.toNat - 87)
  else if 'A' ≤ c && c ≤ 'F' then some (c.toNat - 55)
  else none

/-- JSON string body after the opening quote: content and the suffix after the
closing quote. -/
def parseJStrBody : Nat → List Char → Option (List Char × List Char)
  | 0, _ => none
  | _ + 1, [] => none
  | fuel + 1, c :: t =>
    if c = '"' then some ([], t)
    else if c = '\\' then
      match t with
      | [] => none
      | e :: t2 =>
        if e = '"' || e = '\\' || e = '/' then
          (parseJStrBody fuel t2).map (fun r => (e :: r.1, r.2))
        else if e = 'b' then (parseJStrBody fuel t2).map (fun r => (Char.ofNat 8 :: r.1, r.2))
        else if e = 'f' then (parseJStrBody fuel t2).map (fun r => (Char.ofNat 12 :: r.1, r.2))
        else if e = 'n' then (parseJStrBody fuel t2).map (fun r => ('\n' :: r.1, r.2))
        else if e = 'r' then (parseJStrBody fuel t2).map (fun r => ('\r' :: r.1, r.2))
        else if e = 't' then (parseJStrBody fuel t2).map (fun r => ('\t' :: r.1, r.2))
        else if e = 'u' then
          match t2 with
          | h1 :: h2 :: h3 :: h4 :: t3 =>
            match hexVal h1, hexVal h2, hexVal h3, hexVal h4 with
            | some a, some b, some cc, some dd =>
              (parseJStrBody fuel t3).map
                (fun r => (Char.ofNat (4096 * a + 256 * b + 16 * cc + dd) :: r.1, r.2))
            | _, _, _, _ => none
          | _ => none
        else none
    else if c.val < 32 then none
    else (parseJStrBody fuel t).map (fun r => (c :: r.1, r.2))

/-- JSON number grammar. -/
def parseJNum (s : List Char) : Option (ℚ × List Char) :=
  let (neg, s1) : Bool × List Char :=
    match s with
    | '-' :: t => (true, t)
    | t => (false, t)
  match s1 with
  | [] => none
  | c :: _ =>
    if !c.isDigit then none
    else
      let (ip, s2) : ℕ × List Char :=
        if c = '0' then (0, s1.drop 1)
        else (digitsVal (s1.takeWhile Char.isDigit), s1.drop (s1.takeWhile Char.isDigit).length)
      let fr : Option (ℕ × ℕ × List Char) :=
        match s2 with
        | '.' :: r =>
          let ds := r.takeWhile Char.isDigit
          if ds = [] then none else some (digitsVal ds, ds.length, r.drop ds.length)
        | _ => some (0, 0, s2)
      match fr with
      | none => none
      | some (fv, fl, s3) =>
        let ex : Option (ℤ × List Char) :=
          match s3 with
          | e :: r =>
            if e = 'e' || e = 'E' then
              let (en, r1) : Bool × List Char :=
                match r with
                | '-' :: t => (true, t)
                | '+' :: t => (false, t)
                | t => (false, t)
              let ds := r1.takeWhile Char.isDigit
              if ds = [] then none
              else some ((if en then -(digitsVal ds : ℤ) else (digitsVal ds : ℤ)), r1.drop ds.length)
            else some (0, s3)
          | [] => some (0, s3)
        match ex with
        | none => none
        | some (e, s4) =>
          let mant : ℚ := (ip : ℚ) + (fv : ℚ) / ((10 : ℚ) ^ fl)
          let v : ℚ := if e ≥ 0 then mant * 10 ^ e.toNat else mant / 10 ^ (-e).toNat
          some ((if neg then -v else v), s4)

/-- Parsing mode: a value, the members of an object, or the items of an
array. -/
inductive JMode where
  | val
  | members (acc : List (List Char × Json))
  | items (acc : List Json)

/-- The fuelled JSON parser. -/
def parseJ : Nat → JMode → List Char → Option (Json × List Char)
  | 0, _, _ => none
  | fuel + 1, JMode.val, s0 =>
    let s := s0.dropWhile jsonWs
    match s with
    | [] => none
    | c :: t =>
      if c = '"' then (parseJStrBody (t.length + 1) t).map (fun r => (Json.str r.1, r.2))
      else if c.val = 123 then
        let t1 := t.dropWhile jsonWs
        match t1 with
        | c2 :: t2 => if c2.val = 125 then some (Json.obj [], t2) else parseJ fuel (JMode.members []) t1
        | [] => none
      else if c = '[' then
        let t1 := t.dropWhile jsonWs
        match t1 with
        | ']' :: t2 => some (Json.arr [], t2)
        | _ :: _ => parseJ fuel (JMode.items []) t1
        | [] => none
      else if startsWithL s ("true".data) then some (Json.bool true, s.drop 4)
      else if startsWithL s ("false".data) then some (Json.bool false, s.drop 5)
      else if startsWithL s ("null".data) then some (Json.null, s.drop 4)
      else (parseJNum s).map (fun r => (Json.num r.1, r.2))
  | fuel + 1, JMode.members acc, s0 =>
    let s := s0.dropWhile jsonWs
    match s with
    | '"' :: t =>
      match parseJStrBody (t.length + 1) t with
      | none => none
      | some (key, r1) =>
        match r1.dropWhile jsonWs with
        | ':' :: r3 =>
          match parseJ fuel JMode.val r3 with
          | none => none
          | some (v, r4) =>
            match r4.dropWhile jsonWs with
            | ',' :: r6 => parseJ fuel (JMode.members (acc ++ [(key, v)])) r6
            | c :: r6 => if c.val = 125 then some (Json.obj (acc ++ [(key, v)]), r6) else none
            | [] => none
        | _ => none
    | _ => none
  | fuel + 1, JMode.items acc, s =>
    match parseJ fuel JMode.val s with
    | none => none
    | some (v, r1) =>
      match r1.dropWhile jsonWs with
      | ',' :: r3 => parseJ fuel (JMode.items (acc ++ [v])) r3
      | ']' :: r3 => some (Json.arr (acc ++ [v]), r3)
      | _ => none

/-- `JSON.parse`: a single value with only whitespace around it. -/
def jsonParseTop (s : List Char) : Option Json :=
  match parseJ (2 * s.length + 8) JMode.val s with
  | some (v, r) => if r.dropWhile jsonWs = [] then some v else none
  | none => none

/-! ## `FileParser.parseBusinessInfo` -/

/-- `ocrResult.match(/\{[\s\S]*\}/)`: from the first `{` to the last `}`. -/
def braceSpan (s : List Char) : Option (List Char) :=
  let pre := s.takeWhile (fun c => c.val ≠ 123)
  let rest := s.drop pre.length
  match rest with
  | [] => none
  | _ :: _ =>
    match lastIdxOf [Char.ofNat 125] rest with
    | some k => some (rest.take (k + 1))
    | none => none

/-- The nine business-profile field keys. -/
inductive BizKey where
  | companyName | creditCode | legalRep | registeredCapital | establishDate
  | registeredAddress | businessScope | industry | companyType
deriving DecidableEq, Repr

def notNl (c : Char) : Bool := c.val ≠ 10

def alnumCI (c : Char) : Bool :=
  c.isDigit || ('A' ≤ c && c ≤ 'Z') || ('a' ≤ c && c ≤ 'z')

def dateSep1 (c : Char) : Bool := c = '-' || c = '/' || c = '年'

def dateSep2 (c : Char) : Bool := c = '-' || c = '/' || c = '月'

/-- Shared shape of the line-oriented field patterns: a label alternation, a
colon, optional whitespace, then the capture. -/
def linePattern (labels : List (List Char)) (capture : List RAtom) : List RAtom :=
  [RAtom.litChoices labels, RAtom.rep colonCls 1 (some 1) false,
   RAtom.rep jsWs 0 none false, RAtom.openG] ++ capture ++ [RAtom.closeG]

/-- The nine field patterns of `parseBusinessInfoFromText`, with their
case-insensitivity flags, in source order. -/
def bizPatterns : List (BizKey × Bool × List RAtom) :=
  [(BizKey.companyName, false,
    linePattern ["企业名称".data, "公司名称".data, "名称".data]
      [RAtom.rep notNl 1 none false]),
   (BizKey.creditCode, true,
    linePattern ["统一社会信用代码".data, "信用代码".data]
      [RAtom.rep alnumCI 1 none false]),
   (BizKey.legalRep, false,
    linePattern ["法定代表人".data, "法人代表".data, "负责人".data]
      [RAtom.rep notNl 1 none false]),
   (BizKey.registeredCapital, false,
    linePattern ["注册资本".data, "注册资金".data]
      [RAtom.rep notNl 1 none false]),
   (BizKey.establishDate, false,
    linePattern ["成立日期".data, "注册日期".data, "成立时间".data]
      [RAtom.rep Char.isDigit 4 (some 4) false, RAtom.rep dateSep1 1 (some 1) false,
       RAtom.rep Char.isDigit 1 (some 2) false, RAtom.rep dateSep2 1 (some 1) false,
       RAtom.rep Char.isDigit 1 (some 2) false]),
   (BizKey.registeredAddress, false,
    linePattern ["注册地址".data, "住所".data, "经营场所".data]
      [RAtom.rep notNl 1 none false]),
   (BizKey.businessScope, false,
    linePattern ["经营范围".data]
      [RAtom.rep notNl 1 none false]),
   (BizKey.industry, false,
    linePattern ["行业".data, "所属行业".data]
      [RAtom.rep notNl 1 none false]),
   (BizKey.companyType, false,
    linePattern ["企业类型".data, "公司类型".data]
      [RAtom.rep notNl 1 none false])]

/-- `text.match(pattern)` followed by `match[1]`: the first capture of the
leftmost match. -/
def bizExtractOne (text : List Char) (p : Bool × List RAtom) : Option (List Char) :=
  (findM p.1 p.2 text).map (fun r => r.2.1.getD 0 [])

/-- The field list built by `parseBusinessInfoFromText`: one `(key, trimmed
capture)` entry per pattern that matched; unmatched patterns contribute
nothing. -/
def parseBizFields (text : List Char) : List (BizKey × List Char) :=
  bizPatterns.filterMap (fun kp => (bizExtractOne text kp.2).map (fun cap => (kp.1, trimJS cap)))

/-- The result of `parseBusinessInfo`: either the parsed JSON object returned
directly, or the regex-extracted field record. -/
inductive BizInfo where
  | fromJson (j : Json)
  | fromText (fields : List (BizKey × List Char))

/-- `FileParser.parseBusinessInfo`: locate the brace span and `JSON.parse` it;
on success return the object, otherwise (no span, or a parse error caught by
the `try`) fall back to `parseBusinessInfoFromText` on the full transcript. -/
def parseBusinessInfo (ocr : List Char) : BizInfo :=
  match braceSpan ocr with
  | some span =>
    match jsonParseTop span with
    | some j => BizInfo.fromJson j
    | none => BizInfo.fromText (parseBizFields ocr)
  | none => BizInfo.fromText (parseBizFields ocr)

/-! # Verification -/

/-! ## The Numeric Normalizer (claims C5, C10) -/

theorem cleanNumeric_idem (s : List Char) :
    cleanNumeric (cleanNumeric s) = cleanNumeric s := by
  simp [cleanNumeric, List.filter_filter]

theorem parseFloatJS_nil : parseFloatJS [] = JSNum.nan := rfl

theorem parseNumber_str_clean (s : List Char) :
    parseNumber (JSVal.str s) = parseNumber (JSVal.str (cleanNumeric s)) := by
  cases s with
  | nil => rfl
  | cons c t =>
    cases h : cleanNumeric (c :: t) with
    | nil => simp [parseNumber, h, parseFloatJS_nil]
    | cons c2 t2 =>
      have h2 : cleanNumeric (c2 :: t2) = c2 :: t2 := by
        rw [← h, cleanNumeric_idem]
      simp [parseNumber, h, h2]

/-- C5: the Numeric Normalizer returns finite numeric inputs unchanged; for
strings it strips separators (ASCII and full-width commas), whitespace and the
unit glyphs before parsing, so a formatted numeric string parses like its
cleaned form and `"1,234,567元"` yields `1234567`; empty, `null` and
`undefined` inputs yield `null`, never zero. -/
theorem parse_number_normalizer :
    (∀ q : ℚ, parseNumber (JSVal.num (JSNum.fin q)) = some (JSNum.fin q))
    ∧ (∀ s : List Char, parseNumber (JSVal.str s) = parseNumber (JSVal.str (cleanNumeric s)))
    ∧ parseNumber (JSVal.str ("1,234,567元".data)) = some (JSNum.fin 1234567)
    ∧ parseNumber JSVal.nullv = none
    ∧ parseNumber JSVal.undef = none
    ∧ parseNumber (JSVal.str []) = none := by
  refine ⟨fun q => ?_, parseNumber_str_clean, by with_unfolding_all rfl, rfl, rfl, rfl⟩
  simp [parseNumber]

/-- C10: among non-finite numeric inputs, only `NaN` is rejected by
`parseNumber`; `Infinity` and `-Infinity` are returned unchanged. -/
theorem parse_number_nonfinite :
    parseNumber (JSVal.num JSNum.nan) = none
    ∧ parseNumber (JSVal.num JSNum.posInf) = some JSNum.posInf
    ∧ parseNumber (JSVal.num JSNum.negInf) = some JSNum.negInf := by
  exact ⟨rfl, rfl, rfl⟩

/-! ## The Template Analyzer (claim C6) -/

theorem dedupKeepFirst_aux_nodup (l : List (List Char)) :
    ∀ acc : List (List Char), acc.Nodup →
      (l.foldl (fun acc p => if acc.contains p then acc else acc ++ [p]) acc).Nodup := by
  induction l with
  | nil => intro acc h; simpa using h
  | cons p t ih =>
    intro acc h
    simp only [List.foldl_cons]
    by_cases hm : p ∈ acc
    · have he : (if acc.contains p then acc else acc ++ [p]) = acc := by simp [hm]
      rw [he]; exact ih acc h
    · have he : (if acc.contains p then acc else acc ++ [p]) = acc ++ [p] := by simp [hm]
      rw [he]
      exact ih _ (by simp [List.nodup_append, h, hm])

theorem dedupKeepFirst_nodup (l : List (List Char)) : (dedupKeepFirst l).Nodup :=
  dedupKeepFirst_aux_nodup l [] List.nodup_nil

/-- C6: the Template Analyzer returns the distinct placeholder inner names in
first-occurrence order, with the boolean true exactly when at least one
placeholder was found; `{companyName}` then `{creditAmount}` yields that
ordered pair with `true`, and brace-free content yields the empty list with
`false`. -/
theorem template_analyzer_placeholders :
    (∀ content : List Char,
      ((analyzeTemplate content).hasExistingPlaceholders = true ↔
        (analyzeTemplate content).placeholders ≠ []))
    ∧ (∀ content : List Char, (analyzeTemplate content).placeholders.Nodup)
    ∧ (∀ content : List Char,
        (analyzeTemplate content).placeholders =
          dedupKeepFirst (scanPH (content.length + 1) content))
    ∧ analyzeTemplate ("授信报告{companyName}与{creditAmount}完".data) =
        { hasExistingPlaceholders := true
          placeholders := ["companyName".data, "creditAmount".data] }
    ∧ analyzeTemplate ("无占位符内容".data) =
        { hasExistingPlaceholders := false, placeholders := [] } := by
  refine ⟨fun content => ?_, fun content => dedupKeepFirst_nodup _, fun content => rfl,
    by decide, by decide⟩
  simp [analyzeTemplate, gt_iff_lt, List.length_pos]

/-! ## The Spreadsheet Fact Extractor: search characterization (claim C1) -/

theorem getBS_setBS_same (b : BalanceSheet) (k : BSKey) (v : JSNum) :
    getBS (setBS b k v) k = some v := by
  cases k <;> rfl

theorem getBS_setBS_ne (b : BalanceSheet) (k k2 : BSKey) (v : JSNum) (h : k ≠ k2) :
    getBS (setBS b k v) k2 = getBS b k2 := by
  cases k <;> cases k2 <;> simp_all [getBS, setBS]

theorem getIS_setIS_same (b : IncomeStatement) (k : ISKey) (v : JSNum) :
    getIS (setIS b k v) k = some v := by
  cases k <;> rfl

theorem getIS_setIS_ne (b : IncomeStatement) (k k2 : ISKey) (v : JSNum) (h : k ≠ k2) :
    getIS (setIS b k v) k2 = getIS b k2 := by
  cases k <;> cases k2 <;> simp_all [getIS, setIS]

theorem parseNumber_ne_nan {c : JSVal} {v : JSNum} (h : parseNumber c = some v) :
    v ≠ JSNum.nan := by
  cases c with
  | nullv => simp [parseNumber] at h
  | undef => simp [parseNumber] at h
  | num n =>
    by_cases hn : n = JSNum.nan
    · simp [parseNumber, hn] at h
    · simp [parseNumber, hn] at h
      rw [← h]; exact hn
  | str s =>
    cases s with
    | nil => simp [parseNumber] at h
    | cons a t =>
      by_cases hm : parseFloatJS (cleanNumeric (a :: t)) = JSNum.nan
      · simp [parseNumber, hm] at h
      · simp [parseNumber, hm] at h
        rw [← h]; exact hm

theorem findNonZero_good {cells : List JSVal} {v : JSNum}
    (h : findNonZero cells = some v) : v ≠ JSNum.fin 0 ∧ v ≠ JSNum.nan := by
  induction cells with
  | nil => simp [findNonZero] at h
  | cons c rest ih =>
    rw [findNonZero] at h
    cases hp : parseNumber c with
    | none => rw [hp] at h; exact ih h
    | some w =>
      rw [hp] at h
      by_cases hw : w = JSNum.fin 0
      · simp [hw] at h; exact ih h
      · simp [hw] at h
        subst h
        exact ⟨hw, parseNumber_ne_nan hp⟩

theorem truthyN_good {v : JSNum} (h0 : v ≠ JSNum.fin 0) (hn : v ≠ JSNum.nan) :
    truthyN (some v) = true := by
  simp [truthyN, h0, hn]

theorem findNonZero_spec (cells : List JSVal) (v : JSNum) :
    findNonZero cells = some v ↔
      ∃ pre c post, cells = pre ++ c :: post ∧ parseNumber c = some v ∧
        v ≠ JSNum.fin 0 ∧
        ∀ c2 ∈ pre, ∀ w, parseNumber c2 = some w → w = JSNum.fin 0 := by
  induction cells with
  | nil =>
    simp only [findNonZero]
    constructor
    · intro h; cases h
    · rintro ⟨pre, c, post, h, -⟩
      exact absurd h (by simp)
  | cons a rest ih =>
    rw [findNonZero]
    cases hp : parseNumber a with
    | some w =>
      by_cases hw : w = JSNum.fin 0
      · simp only [hw, ne_eq, not_true_eq_false, if_false]
        rw [ih]
        constructor
        · rintro ⟨pre, c, post, hsplit, hc, hv, hpre⟩
          refine ⟨a :: pre, c, post, by rw [hsplit]; rfl, hc, hv, ?_⟩
          intro c2 hc2 w2 hw2
          rcases List.mem_cons.mp hc2 with hc2 | hc2
          · subst hc2
            rw [hp] at hw2
            cases hw2
            exact hw
          · exact hpre c2 hc2 w2 hw2
        · rintro ⟨pre, c, post, hsplit, hc, hv, hpre⟩
          cases pre with
          | nil =>
            simp only [List.nil_append, List.cons.injEq] at hsplit
            rcases hsplit with ⟨ha, -⟩
            rw [← ha, hp] at hc
            cases hc
            exact absurd hw hv
          | cons p pre2 =>
            simp only [List.cons_append, List.cons.injEq] at hsplit
            rcases hsplit with ⟨hap, hrest⟩
            refine ⟨pre2, c, post, hrest, hc, hv, ?_⟩
            intro c2 hc2 w2 hw2
            exact hpre c2 (List.mem_cons_of_mem p hc2) w2 hw2
      · simp only [hw, ne_eq, not_false_eq_true, if_true]
        constructor
        · intro h
          cases h
          exact ⟨[], a, rest, rfl, hp, hw, by simp⟩
        · rintro ⟨pre, c, post, hsplit, hc, hv, hpre⟩
          cases pre with
          | nil =>
            simp only [List.nil_append, List.cons.injEq] at hsplit
            rcases hsplit with ⟨ha, -⟩
            rw [← ha, hp] at hc
            cases hc
            rfl
          | cons p pre2 =>
            simp only [List.cons_append, List.cons.injEq] at hsplit
            rcases hsplit with ⟨hap, -⟩
            have := hpre p (List.mem_cons_self p pre2) w (by rw [← hap]; exact hp)
            exact absurd this hw
    | none =>
      rw [ih]
      constructor
      · rintro ⟨pre, c, post, hsplit, hc, hv, hpre⟩
        refine ⟨a :: pre, c, post, by rw [hsplit]; rfl, hc, hv, ?_⟩
        intro c2 hc2 w2 hw2
        rcases List.mem_cons.mp hc2 with hc2 | hc2
        · subst hc2
          rw [hp] at hw2
          cases hw2
        · exact hpre c2 hc2 w2 hw2
      · rintro ⟨pre, c, post, hsplit, hc, hv, hpre⟩
        cases pre with
        | nil =>
          simp only [List.nil_append, List.cons.injEq] at hsplit
          rcases hsplit with ⟨ha, -⟩
          rw [← ha, hp] at hc
          cases hc
        | cons p pre2 =>
          simp only [List.cons_append, List.cons.injEq] at hsplit
          rcases hsplit with ⟨hap, hrest⟩
          refine ⟨pre2, c, post, hrest, hc, hv, ?_⟩
          intro c2 hc2 w2 hw2
          exact hpre c2 (List.mem_cons_of_mem p hc2) w2 hw2

/-- C1: at a cell whose trimmed text contains a dictionary label with its key
unset, the extractor stores the first rightward non-zero parse, falling back
to the first such value of the immediately following row, and leaves the key
absent when both searches fail; `findNonZero` is exactly the "first cell whose
parse is a non-zero number, zero and non-numeric cells skipped" search. -/
theorem extraction_search_characterization :
    (∀ (st : FinResult) (restCells : List JSVal) (nextRow : Option (List JSVal))
       (cellText term : List Char) (key : BSKey),
      containsSub cellText term = true →
      getBS st.balanceSheet key = none →
      getBS (processTermBS restCells nextRow cellText st (term, key)).balanceSheet key =
        (match findNonZero restCells with
         | some v => some v
         | none =>
           match nextRow with
           | some nr => findNonZero nr
           | none => none))
    ∧ (∀ (cells : List JSVal) (v : JSNum),
        findNonZero cells = some v ↔
          ∃ pre c post, cells = pre ++ c :: post ∧ parseNumber c = some v ∧
            v ≠ JSNum.fin 0 ∧
            ∀ c2 ∈ pre, ∀ w, parseNumber c2 = some w → w = JSNum.fin 0) := by
  refine ⟨?_, findNonZero_spec⟩
  intro st restCells nextRow cellText term key h1 h2
  have hguard : (containsSub cellText term && !truthyN (getBS st.balanceSheet key)) = true := by
    rw [h1, h2]; rfl
  rw [processTermBS]
  simp only [hguard, if_true]
  cases hf : findNonZero restCells with
  | some v =>
    rcases findNonZero_good hf with ⟨h0, hn⟩
    simp [hf, truthyN_good h0 hn, getBS_setBS_same]
  | none =>
    cases nextRow with
    | none => simp [hf, truthyN, h2]
    | some nr =>
      cases hg : findNonZero nr with
      | some v => simp [hf, hg, truthyN, h2, getBS_setBS_same]
      | none => simp [hf, hg, truthyN, h2]

/-- The spec's example grid: the label in cell `(2,1)` and `1500` in `(2,3)`. -/
def specGridSameRow : List (List JSVal) :=
  [[JSVal.str ("其他".data)],
   [],
   [JSVal.nullv, JSVal.str ("资产总计".data), JSVal.str [], JSVal.num (JSNum.fin 1500)]]

/-- The spec's fallback example grid: `(2,3)` blank, `1500` in the first cell
of the following row. -/
def specGridNextRow : List (List JSVal) :=
  [[JSVal.str ("其他".data)],
   [],
   [JSVal.nullv, JSVal.str ("资产总计".data), JSVal.str [], JSVal.str []],
   [JSVal.num (JSNum.fin 1500)]]

theorem extraction_search_characterization_witness :
    getBS (processTermBS [JSVal.str [], JSVal.num (JSNum.fin 1500)] none ("资产总计".data)
        emptyFinResult (("资产总计".data), BSKey.totalAssets)).balanceSheet BSKey.totalAssets =
      some (JSNum.fin 1500)
    ∧ (extractFinancialData specGridSameRow emptyFinResult).balanceSheet.totalAssets =
        some (JSNum.fin 1500)
    ∧ (extractFinancialData specGridNextRow emptyFinResult).balanceSheet.totalAssets =
        some (JSNum.fin 1500) := by
  refine ⟨?_, by with_unfolding_all rfl, by with_unfolding_all rfl⟩
  have h := extraction_search_characterization.1 emptyFinResult
    [JSVal.str [], JSVal.num (JSNum.fin 1500)] none ("资产总计".data) ("资产总计".data)
    BSKey.totalAssets (by decide) rfl
  exact h.trans (by with_unfolding_all rfl)

/-! ## The scan as independent per-key threads (toward claims C2 and C7) -/

/-- The combined per-cell value search (rightward, then the following row). -/
def searchHit (restCells : List JSVal) (nextRow : Option (List JSVal)) : Option JSNum :=
  match findNonZero restCells with
  | some v => some v
  | none =>
    match nextRow with
    | some nr => findNonZero nr
    | none => none

/-- Does the trimmed cell text contain some synonym of key `k`? -/
def cellHasKeyBS (cellText : List Char) (k : BSKey) : Bool :=
  balanceSheetTerms.any (fun tk => tk.2 = k && containsSub cellText tk.1)

def cellHasKeyIS (cellText : List Char) (k : ISKey) : Bool :=
  incomeTerms.any (fun tk => tk.2 = k && containsSub cellText tk.1)

/-- The first successful search outcome for key `k` along one row. -/
def hitBSCells (k : BSKey) (nextRow : Option (List JSVal)) : List JSVal → Option JSNum
  | [] => none
  | c :: rest =>
    let t := trimJS (cellRawStr c)
    if !t.isEmpty && cellHasKeyBS t k && (searchHit rest nextRow).isSome then
      searchHit rest nextRow
    else hitBSCells k nextRow rest

def hitISCells (k : ISKey) (nextRow : Option (List JSVal)) : List JSVal → Option JSNum
  | [] => none
  | c :: rest =>
    let t := trimJS (cellRawStr c)
    if !t.isEmpty && cellHasKeyIS t k && (searchHit rest nextRow).isSome then
      searchHit rest nextRow
    else hitISCells k nextRow rest

/-- The first successful search outcome for key `k` over the whole grid. -/
def hitBSRows (k : BSKey) : List (List JSVal) → Option JSNum
  | [] => none
  | row :: rest =>
    if row.isEmpty then hitBSRows k rest
    else
      match hitBSCells k rest.head? row with
      | some v => some v
      | none => hitBSRows k rest

def hitISRows (k : ISKey) : List (List JSVal) → Option JSNum
  | [] => none
  | row :: rest =>
    if row.isEmpty then hitISRows k rest
    else
      match hitISCells k rest.head? row with
      | some v => some v
      | none => hitISRows k rest

theorem searchHit_good {rc : List JSVal} {nr : Option (List JSVal)} {v : JSNum}
    (h : searchHit rc nr = some v) : v ≠ JSNum.fin 0 ∧ v ≠ JSNum.nan := by
  rw [searchHit.eq_def] at h
  cases hf : findNonZero rc with
  | some w => rw [hf] at h; cases h; exact findNonZero_good hf
  | none =>
    rw [hf] at h
    cases nr with
    | none => cases h
    | some nrow => exact findNonZero_good h

theorem hitBSCells_good {k : BSKey} {nr : Option (List JSVal)} {cells : List JSVal}
    {v : JSNum} (h : hitBSCells k nr cells = some v) :
    v ≠ JSNum.fin 0 ∧ v ≠ JSNum.nan := by
  induction cells with
  | nil => simp [hitBSCells] at h
  | cons c rest ih =>
    rw [hitBSCells] at h
    by_cases hc : (!(trimJS (cellRawStr c)).isEmpty && cellHasKeyBS (trimJS (cellRawStr c)) k
        && (searchHit rest nr).isSome) = true
    · rw [if_pos hc] at h; exact searchHit_good h
    · rw [if_neg hc] at h; exact ih h

theorem hitISCells_good {k : ISKey} {nr : Option (List JSVal)} {cells : List JSVal}
    {v : JSNum} (h : hitISCells k nr cells = some v) :
    v ≠ JSNum.fin 0 ∧ v ≠ JSNum.nan := by
  induction cells with
  | nil => simp [hitISCells] at h
  | cons c rest ih =>
    rw [hitISCells] at h
    by_cases hc : (!(trimJS (cellRawStr c)).isEmpty && cellHasKeyIS (trimJS (cellRawStr c)) k
        && (searchHit rest nr).isSome) = true
    · rw [if_pos hc] at h; exact searchHit_good h
    · rw [if_neg hc] at h; exact ih h

theorem hitBSRows_good {k : BSKey} {rows : List (List JSVal)} {v : JSNum}
    (h : hitBSRows k rows = some v) : v ≠ JSNum.fin 0 ∧ v ≠ JSNum.nan := by
  induction rows with
  | nil => simp [hitBSRows] at h
  | cons row rest ih =>
    rw [hitBSRows] at h
    by_cases he : row.isEmpty
    · rw [if_pos he] at h; exact ih h
    · rw [if_neg he] at h
      cases hc : hitBSCells k rest.head? row with
      | some w => rw [hc] at h; cases h; exact hitBSCells_good hc
      | none => rw [hc] at h; exact ih h

theorem hitISRows_good {k : ISKey} {rows : List (List JSVal)} {v : JSNum}
    (h : hitISRows k rows = some v) : v ≠ JSNum.fin 0 ∧ v ≠ JSNum.nan := by
  induction rows with
  | nil => simp [hitISRows] at h
  | cons row rest ih =>
    rw [hitISRows] at h
    by_cases he : row.isEmpty
    · rw [if_pos he] at h; exact ih h
    · rw [if_neg he] at h
      cases hc : hitISCells k rest.head? row with
      | some w => rw [hc] at h; cases h; exact hitISCells_good hc
      | none => rw [hc] at h; exact ih h

theorem truthyN_false_of_not {o : Option JSNum} (h : ¬ truthyN o = true) :
    truthyN o = false := by
  revert h; cases truthyN o <;> simp

/-- One dictionary entry changes the `k` entry exactly when the entry is for
`k`, the text contains the synonym, the entry is not truthily set, and the
combined search succeeds — and then it stores the search outcome. -/
theorem processTermBS_get (rc : List JSVal) (nr : Option (List JSVal)) (txt : List Char)
    (st : FinResult) (term : List Char) (key k : BSKey) :
    getBS (processTermBS rc nr txt st (term, key)).balanceSheet k =
      if k = key ∧ containsSub txt term = true ∧
          truthyN (getBS st.balanceSheet key) = false ∧ (searchHit rc nr).isSome = true
      then searchHit rc nr
      else getBS st.balanceSheet k := by
  by_cases hcon : containsSub txt term = true
  · by_cases htr : truthyN (getBS st.balanceSheet key) = true
    · have hg : (containsSub txt term && !truthyN (getBS st.balanceSheet key)) = false := by
        rw [hcon, htr]; rfl
      rw [if_neg (by rintro ⟨-, -, h3, -⟩; rw [htr] at h3; cases h3)]
      rw [processTermBS]
      simp only [hg, Bool.false_eq_true, if_false]
    · have htr2 := truthyN_false_of_not htr
      have hg : (containsSub txt term && !truthyN (getBS st.balanceSheet key)) = true := by
        rw [hcon, htr2]; rfl
      cases hf : findNonZero rc with
      | some v =>
        rcases findNonZero_good hf with ⟨h0, hn⟩
        have hsh : searchHit rc nr = some v := by
          rw [searchHit.eq_def, hf]
        by_cases hk : k = key
        · subst hk
          rw [if_pos ⟨rfl, hcon, htr2, by rw [hsh]; rfl⟩, hsh]
          rw [processTermBS]
          simp only [hg, if_true, hf, getBS_setBS_same, truthyN_good h0 hn,
            Bool.not_true, Bool.false_eq_true, if_false]
        · rw [if_neg (by rintro ⟨h1, -⟩; exact hk h1)]
          rw [processTermBS]
          simp only [hg, if_true, hf, getBS_setBS_same, truthyN_good h0 hn,
            Bool.not_true, Bool.false_eq_true, if_false]
          exact getBS_setBS_ne _ _ _ _ (fun he => hk he.symm)
      | none =>
        cases nr with
        | none =>
          have hsh : searchHit rc (none : Option (List JSVal)) = none := by
            rw [searchHit.eq_def, hf]
          rw [if_neg (by rintro ⟨-, -, -, h4⟩; rw [hsh] at h4; cases h4)]
          rw [processTermBS]
          simp only [hg, if_true, hf, htr2, Bool.not_false, if_true, hcon, Bool.and_true, ite_self]
        | some nrow =>
          cases hg2 : findNonZero nrow with
          | some v =>
            rcases findNonZero_good hg2 with ⟨h0, hn⟩
            have hsh : searchHit rc (some nrow) = some v := by
              simp only [searchHit.eq_def, hf, hg2]
            by_cases hk : k = key
            · subst hk
              rw [if_pos ⟨rfl, hcon, htr2, by rw [hsh]; rfl⟩, hsh]
              rw [processTermBS]
              simp only [hg, if_true, hf, hg2, htr2, Bool.not_false, if_true, hcon,
                Bool.and_true, ite_self, getBS_setBS_same]
            · rw [if_neg (by rintro ⟨h1, -⟩; exact hk h1)]
              rw [processTermBS]
              simp only [hg, if_true, hf, hg2, htr2, Bool.not_false, if_true, hcon, Bool.and_true, ite_self]
              exact getBS_setBS_ne _ _ _ _ (fun he => hk he.symm)
          | none =>
            have hsh : searchHit rc (some nrow) = none := by
              simp only [searchHit.eq_def, hf, hg2]
            rw [if_neg (by rintro ⟨-, -, -, h4⟩; rw [hsh] at h4; cases h4)]
            rw [processTermBS]
            simp only [hg, if_true, hf, hg2, htr2, Bool.not_false, if_true, hcon, Bool.and_true, ite_self]
  · have hcon2 : containsSub txt term = false := by
      revert hcon; cases containsSub txt term <;> simp
    have hg : (containsSub txt term && !truthyN (getBS st.balanceSheet key)) = false := by
      rw [hcon2]; rfl
    rw [if_neg (by rintro ⟨-, h2, -⟩; exact hcon h2)]
    rw [processTermBS]
    simp only [hg, Bool.false_eq_true, if_false]

/-- The income-statement analogue of `processTermBS_get`. -/
theorem processTermIS_get (rc : List JSVal) (nr : Option (List JSVal)) (txt : List Char)
    (st : FinResult) (term : List Char) (key k : ISKey) :
    getIS (processTermIS rc nr txt st (term, key)).incomeStatement k =
      if k = key ∧ containsSub txt term = true ∧
          truthyN (getIS st.incomeStatement key) = false ∧ (searchHit rc nr).isSome = true
      then searchHit rc nr
      else getIS st.incomeStatement k := by
  by_cases hcon : containsSub txt term = true
  · by_cases htr : truthyN (getIS st.incomeStatement key) = true
    · have hg : (containsSub txt term && !truthyN (getIS st.incomeStatement key)) = false := by
        rw [hcon, htr]; rfl
      rw [if_neg (by rintro ⟨-, -, h3, -⟩; rw [htr] at h3; cases h3)]
      rw [processTermIS]
      simp only [hg, Bool.false_eq_true, if_false]
    · have htr2 := truthyN_false_of_not htr
      have hg : (containsSub txt term && !truthyN (getIS st.incomeStatement key)) = true := by
        rw [hcon, htr2]; rfl
      cases hf : findNonZero rc with
      | some v =>
        rcases findNonZero_good hf with ⟨h0, hn⟩
        have hsh : searchHit rc nr = some v := by
          rw [searchHit.eq_def, hf]
        by_cases hk : k = key
        · subst hk
          rw [if_pos ⟨rfl, hcon, htr2, by rw [hsh]; rfl⟩, hsh]
          rw [processTermIS]
          simp only [hg, if_true, hf, getIS_setIS_same, truthyN_good h0 hn,
            Bool.not_true, Bool.false_eq_true, if_false]
        · rw [if_neg (by rintro ⟨h1, -⟩; exact hk h1)]
          rw [processTermIS]
          simp only [hg, if_true, hf, getIS_setIS_same, truthyN_good h0 hn,
            Bool.not_true, Bool.false_eq_true, if_false]
          exact getIS_setIS_ne _ _ _ _ (fun he => hk he.symm)
      | none =>
        cases nr with
        | none =>
          have hsh : searchHit rc (none : Option (List JSVal)) = none := by
            rw [searchHit.eq_def, hf]
          rw [if_neg (by rintro ⟨-, -, -, h4⟩; rw [hsh] at h4; cases h4)]
          rw [processTermIS]
          simp only [hg, if_true, hf, htr2, Bool.not_false, if_true, hcon, Bool.and_true, ite_self]
        | some nrow =>
          cases hg2 : findNonZero nrow with
          | some v =>
            rcases findNonZero_good hg2 with ⟨h0, hn⟩
            have hsh : searchHit rc (some nrow) = some v := by
              simp only [searchHit.eq_def, hf, hg2]
            by_cases hk : k = key
            · subst hk
              rw [if_pos ⟨rfl, hcon, htr2, by rw [hsh]; rfl⟩, hsh]
              rw [processTermIS]
              simp only [hg, if_true, hf, hg2, htr2, Bool.not_false, if_true, hcon,
                Bool.and_true, ite_self, getIS_setIS_same]
            · rw [if_neg (by rintro ⟨h1, -⟩; exact hk h1)]
              rw [processTermIS]
              simp only [hg, if_true, hf, hg2, htr2, Bool.not_false, if_true, hcon, Bool.and_true, ite_self]
              exact getIS_setIS_ne _ _ _ _ (fun he => hk he.symm)
          | none =>
            have hsh : searchHit rc (some nrow) = none := by
              simp only [searchHit.eq_def, hf, hg2]
            rw [if_neg (by rintro ⟨-, -, -, h4⟩; rw [hsh] at h4; cases h4)]
            rw [processTermIS]
            simp only [hg, if_true, hf, hg2, htr2, Bool.not_false, if_true, hcon, Bool.and_true, ite_self]
  · have hcon2 : containsSub txt term = false := by
      revert hcon; cases containsSub txt term <;> simp
    have hg : (containsSub txt term && !truthyN (getIS st.incomeStatement key)) = false := by
      rw [hcon2]; rfl
    rw [if_neg (by rintro ⟨-, h2, -⟩; exact hcon h2)]
    rw [processTermIS]
    simp only [hg, Bool.false_eq_true, if_false]

/-- `processTermBS` never touches the income statement. -/
theorem processTermBS_is (rc : List JSVal) (nr : Option (List JSVal)) (txt : List Char)
    (st : FinResult) (tk : List Char × BSKey) :
    (processTermBS rc nr txt st tk).incomeStatement = st.incomeStatement := by
  rw [processTermBS]
  by_cases hg : (containsSub txt tk.1 && !truthyN (getBS st.balanceSheet tk.2)) = true
  · simp only [hg, if_true]
    cases hf : findNonZero rc with
    | some v =>
      split
      · cases nr with
        | none => rfl
        | some nrow => cases hg2 : findNonZero nrow <;> simp [hg2]
      · rfl
    | none =>
      split
      · cases nr with
        | none => rfl
        | some nrow => cases hg2 : findNonZero nrow <;> simp [hg2]
      · rfl
  · simp only [hg, Bool.false_eq_true, if_false]

theorem truthyN_true_of_not {o : Option JSNum} (h : ¬ truthyN o = false) :
    truthyN o = true := by
  revert h; cases truthyN o <;> simp

/-- The whole balance-sheet dictionary fold, seen from key `k`: it stores the
search outcome exactly when some synonym of `k` occurs in the text, `k` is not
truthily set, and the search succeeds. -/
theorem foldTermsBS_get (rc : List JSVal) (nr : Option (List JSVal)) (txt : List Char)
    (terms : List (List Char × BSKey)) :
    ∀ (st : FinResult) (k : BSKey),
    getBS (terms.foldl (processTermBS rc nr txt) st).balanceSheet k =
      if (terms.any fun tk => tk.2 = k && containsSub txt tk.1) = true ∧
          truthyN (getBS st.balanceSheet k) = false ∧ (searchHit rc nr).isSome = true
      then searchHit rc nr
      else getBS st.balanceSheet k := by
  induction terms with
  | nil =>
    intro st k
    rw [if_neg]
    · rfl
    · rintro ⟨h1, -⟩
      simp at h1
  | cons tk rest ih =>
    intro st k
    obtain ⟨term, key⟩ := tk
    rw [List.foldl_cons]
    have h1 := processTermBS_get rc nr txt st term key k
    by_cases hs : (searchHit rc nr).isSome = true
    · by_cases htr : truthyN (getBS st.balanceSheet k) = false
      · by_cases hhead : key = k ∧ containsSub txt term = true
        · rcases hhead with ⟨hk, hcon⟩
          subst hk
          have h1t : getBS (processTermBS rc nr txt st (term, key)).balanceSheet key =
              searchHit rc nr := by
            rw [h1, if_pos ⟨rfl, hcon, htr, hs⟩]
          obtain ⟨v, hv⟩ := Option.isSome_iff_exists.mp hs
          rcases searchHit_good hv with ⟨h0, hn⟩
          rw [ih, if_neg, h1t, if_pos]
          · exact ⟨by simp [hcon], htr, hs⟩
          · rintro ⟨-, h3, -⟩
            rw [h1t, hv, truthyN_good h0 hn] at h3
            cases h3
        · have hheadF : (decide (key = k) && containsSub txt term) = false := by
            by_cases hk : key = k
            · have hc2 : containsSub txt term = false := by
                by_cases hc : containsSub txt term = true
                · exact absurd ⟨hk, hc⟩ hhead
                · revert hc; cases containsSub txt term <;> simp
              simp [hc2]
            · simp [hk]
          have h1e : getBS (processTermBS rc nr txt st (term, key)).balanceSheet k =
              getBS st.balanceSheet k := by
            rw [h1, if_neg]
            rintro ⟨hk2, hcon2, -, -⟩
            subst hk2
            simp [hcon2] at hheadF
          rw [ih, h1e]
          have hany : ((term, key) :: rest).any (fun tk => tk.2 = k && containsSub txt tk.1) =
              rest.any (fun tk => tk.2 = k && containsSub txt tk.1) := by
            simp only [List.any_cons]
            rw [show ((term, key).2 = k && containsSub txt (term, key).1) = false from hheadF]
            simp
          rw [hany]
      · have htrT := truthyN_true_of_not htr
        have h1e : getBS (processTermBS rc nr txt st (term, key)).balanceSheet k =
            getBS st.balanceSheet k := by
          rw [h1, if_neg]
          rintro ⟨hk2, -, h3, -⟩
          subst hk2
          rw [htrT] at h3
          cases h3
        rw [ih, h1e, if_neg, if_neg]
        · rintro ⟨-, h3, -⟩
          rw [htrT] at h3
          cases h3
        · rintro ⟨-, h3, -⟩
          rw [htrT] at h3
          cases h3
    · have h1e : getBS (processTermBS rc nr txt st (term, key)).balanceSheet k =
          getBS st.balanceSheet k := by
        rw [h1, if_neg]
        rintro ⟨-, -, -, h4⟩
        exact hs h4
      rw [ih, h1e, if_neg, if_neg]
      · rintro ⟨-, -, h4⟩
        exact hs h4
      · rintro ⟨-, -, h4⟩
        exact hs h4

/-- The income-statement analogue of `foldTermsBS_get`. -/
theorem foldTermsIS_get (rc : List JSVal) (nr : Option (List JSVal)) (txt : List Char)
    (terms : List (List Char × ISKey)) :
    ∀ (st : FinResult) (k : ISKey),
    getIS (terms.foldl (processTermIS rc nr txt) st).incomeStatement k =
      if (terms.any fun tk => tk.2 = k && containsSub txt tk.1) = true ∧
          truthyN (getIS st.incomeStatement k) = false ∧ (searchHit rc nr).isSome = true
      then searchHit rc nr
      else getIS st.incomeStatement k := by
  induction terms with
  | nil =>
    intro st k
    rw [if_neg]
    · rfl
    · rintro ⟨h1, -⟩
      simp at h1
  | cons tk rest ih =>
    intro st k
    obtain ⟨term, key⟩ := tk
    rw [List.foldl_cons]
    have h1 := processTermIS_get rc nr txt st term key k
    by_cases hs : (searchHit rc nr).isSome = true
    · by_cases htr : truthyN (getIS st.incomeStatement k) = false
      · by_cases hhead : key = k ∧ containsSub txt term = true
        · rcases hhead with ⟨hk, hcon⟩
          subst hk
          have h1t : getIS (processTermIS rc nr txt st (term, key)).incomeStatement key =
              searchHit rc nr := by
            rw [h1, if_pos ⟨rfl, hcon, htr, hs⟩]
          obtain ⟨v, hv⟩ := Option.isSome_iff_exists.mp hs
          rcases searchHit_good hv with ⟨h0, hn⟩
          rw [ih, if_neg, h1t, if_pos]
          · exact ⟨by simp [hcon], htr, hs⟩
          · rintro ⟨-, h3, -⟩
            rw [h1t, hv, truthyN_good h0 hn] at h3
            cases h3
        · have hheadF : (decide (key = k) && containsSub txt term) = false := by
            by_cases hk : key = k
            · have hc2 : containsSub txt term = false := by
                by_cases hc : containsSub txt term = true
                · exact absurd ⟨hk, hc⟩ hhead
                · revert hc; cases containsSub txt term <;> simp
              simp [hc2]
            · simp [hk]
          have h1e : getIS (processTermIS rc nr txt st (term, key)).incomeStatement k =
              getIS st.incomeStatement k := by
            rw [h1, if_neg]
            rintro ⟨hk2, hcon2, -, -⟩
            subst hk2
            simp [hcon2] at hheadF
          rw [ih, h1e]
          have hany : ((term, key) :: rest).any (fun tk => tk.2 = k && containsSub txt tk.1) =
              rest.any (fun tk => tk.2 = k && containsSub txt tk.1) := by
            simp only [List.any_cons]
            rw [show ((term, key).2 = k && containsSub txt (term, key).1) = false from hheadF]
            simp
          rw [hany]
      · have htrT := truthyN_true_of_not htr
        have h1e : getIS (processTermIS rc nr txt st (term, key)).incomeStatement k =
            getIS st.incomeStatement k := by
          rw [h1, if_neg]
          rintro ⟨hk2, -, h3, -⟩
          subst hk2
          rw [htrT] at h3
          cases h3
        rw [ih, h1e, if_neg, if_neg]
        · rintro ⟨-, h3, -⟩
          rw [htrT] at h3
          cases h3
        · rintro ⟨-, h3, -⟩
          rw [htrT] at h3
          cases h3
    · have h1e : getIS (processTermIS rc nr txt st (term, key)).incomeStatement k =
          getIS st.incomeStatement k := by
        rw [h1, if_neg]
        rintro ⟨-, -, -, h4⟩
        exact hs h4
      rw [ih, h1e, if_neg, if_neg]
      · rintro ⟨-, -, h4⟩
        exact hs h4
      · rintro ⟨-, -, h4⟩
        exact hs h4

/-- `processTermIS` never touches the balance sheet. -/
theorem processTermIS_bs (rc : List JSVal) (nr : Option (List JSVal)) (txt : List Char)
    (st : FinResult) (tk : List Char × ISKey) :
    (processTermIS rc nr txt st tk).balanceSheet = st.balanceSheet := by
  rw [processTermIS]
  by_cases hg : (containsSub txt tk.1 && !truthyN (getIS st.incomeStatement tk.2)) = true
  · simp only [hg, if_true]
    cases hf : findNonZero rc with
    | some v =>
      split
      · cases nr with
        | none => rfl
        | some nrow => cases hg2 : findNonZero nrow <;> simp [hg2]
      · rfl
    | none =>
      split
      · cases nr with
        | none => rfl
        | some nrow => cases hg2 : findNonZero nrow <;> simp [hg2]
      · rfl
  · simp only [hg, Bool.false_eq_true, if_false]

theorem foldTermsIS_bs (rc : List JSVal) (nr : Option (List JSVal)) (txt : List Char)
    (terms : List (List Char × ISKey)) :
    ∀ st : FinResult,
      (terms.foldl (processTermIS rc nr txt) st).balanceSheet = st.balanceSheet := by
  induction terms with
  | nil => intro st; rfl
  | cons tk rest ih =>
    intro st
    rw [List.foldl_cons, ih, processTermIS_bs]

theorem foldTermsBS_is (rc : List JSVal) (nr : Option (List JSVal)) (txt : List Char)
    (terms : List (List Char × BSKey)) :
    ∀ st : FinResult,
      (terms.foldl (processTermBS rc nr txt) st).incomeStatement = st.incomeStatement := by
  induction terms with
  | nil => intro st; rfl
  | cons tk rest ih =>
    intro st
    rw [List.foldl_cons, ih, processTermBS_is]

/-- One processed cell, seen from balance-sheet key `k`. -/
theorem processCell_getBS (c : JSVal) (rc : List JSVal) (nr : Option (List JSVal))
    (st : FinResult) (k : BSKey) :
    getBS (processCell c rc nr st).balanceSheet k =
      if (!(trimJS (cellRawStr c)).isEmpty && cellHasKeyBS (trimJS (cellRawStr c)) k
            && (searchHit rc nr).isSome) = true ∧
          truthyN (getBS st.balanceSheet k) = false
      then searchHit rc nr
      else getBS st.balanceSheet k := by
  rw [processCell]
  by_cases ht : trimJS (cellRawStr c) = []
  · have hte : (trimJS (cellRawStr c)).isEmpty = true := by
      rw [ht]; rfl
    rw [if_pos ht, if_neg]
    rintro ⟨h1, -⟩
    rw [hte] at h1
    simp at h1
  · have hte : (trimJS (cellRawStr c)).isEmpty = false := by
      revert ht; cases trimJS (cellRawStr c) <;> simp
    rw [if_neg ht]
    have hbs := foldTermsIS_bs rc nr (trimJS (cellRawStr c)) incomeTerms
      (balanceSheetTerms.foldl (processTermBS rc nr (trimJS (cellRawStr c))) st)
    simp only at hbs ⊢
    rw [hbs]
    rw [foldTermsBS_get]
    have hiff : ((balanceSheetTerms.any fun tk =>
          tk.2 = k && containsSub (trimJS (cellRawStr c)) tk.1) = true ∧
          truthyN (getBS st.balanceSheet k) = false ∧ (searchHit rc nr).isSome = true) ↔
        ((!(trimJS (cellRawStr c)).isEmpty && cellHasKeyBS (trimJS (cellRawStr c)) k
            && (searchHit rc nr).isSome) = true ∧
          truthyN (getBS st.balanceSheet k) = false) := by
      rw [cellHasKeyBS, hte]
      constructor
      · rintro ⟨h1, h2, h3⟩
        exact ⟨by rw [h1, h3]; rfl, h2⟩
      · rintro ⟨h1, h2⟩
        simp only [Bool.not_false, Bool.true_and, Bool.and_eq_true] at h1
        exact ⟨h1.1, h2, h1.2⟩
    rw [if_congr hiff rfl rfl]

/-- One processed cell, seen from income-statement key `k`. -/
theorem processCell_getIS (c : JSVal) (rc : List JSVal) (nr : Option (List JSVal))
    (st : FinResult) (k : ISKey) :
    getIS (processCell c rc nr st).incomeStatement k =
      if (!(trimJS (cellRawStr c)).isEmpty && cellHasKeyIS (trimJS (cellRawStr c)) k
            && (searchHit rc nr).isSome) = true ∧
          truthyN (getIS st.incomeStatement k) = false
      then searchHit rc nr
      else getIS st.incomeStatement k := by
  rw [processCell]
  by_cases ht : trimJS (cellRawStr c) = []
  · have hte : (trimJS (cellRawStr c)).isEmpty = true := by
      rw [ht]; rfl
    rw [if_pos ht, if_neg]
    rintro ⟨h1, -⟩
    rw [hte] at h1
    simp at h1
  · have hte : (trimJS (cellRawStr c)).isEmpty = false := by
      revert ht; cases trimJS (cellRawStr c) <;> simp
    rw [if_neg ht]
    have his := foldTermsBS_is rc nr (trimJS (cellRawStr c)) balanceSheetTerms st
    simp only at his ⊢
    rw [foldTermsIS_get]
    rw [his]
    have hiff : ((incomeTerms.any fun tk =>
          tk.2 = k && containsSub (trimJS (cellRawStr c)) tk.1) = true ∧
          truthyN (getIS st.incomeStatement k) = false ∧ (searchHit rc nr).isSome = true) ↔
        ((!(trimJS (cellRawStr c)).isEmpty && cellHasKeyIS (trimJS (cellRawStr c)) k
            && (searchHit rc nr).isSome) = true ∧
          truthyN (getIS st.incomeStatement k) = false) := by
      rw [cellHasKeyIS, hte]
      constructor
      · rintro ⟨h1, h2, h3⟩
        exact ⟨by rw [h1, h3]; rfl, h2⟩
      · rintro ⟨h1, h2⟩
        simp only [Bool.not_false, Bool.true_and, Bool.and_eq_true] at h1
        exact ⟨h1.1, h2, h1.2⟩
    rw [if_congr hiff rfl rfl]

/-- One scanned row, seen from balance-sheet key `k`. -/
theorem scanCells_getBS (nr : Option (List JSVal)) (cells : List JSVal) :
    ∀ (st : FinResult) (k : BSKey),
    getBS (scanCells nr cells st).balanceSheet k =
      if truthyN (getBS st.balanceSheet k) = false ∧ (hitBSCells k nr cells).isSome = true
      then hitBSCells k nr cells
      else getBS st.balanceSheet k := by
  induction cells with
  | nil =>
    intro st k
    rw [if_neg]
    · rfl
    · rintro ⟨-, h2⟩
      simp [hitBSCells] at h2
  | cons c rest ih =>
    intro st k
    rw [scanCells, ih]
    have hp := processCell_getBS c rest nr st k
    rw [hitBSCells]
    by_cases hcond : (!(trimJS (cellRawStr c)).isEmpty && cellHasKeyBS (trimJS (cellRawStr c)) k
        && (searchHit rest nr).isSome) = true
    · have hsome : (searchHit rest nr).isSome = true := by
        simp only [Bool.and_eq_true] at hcond
        exact hcond.2
      obtain ⟨v, hv⟩ := Option.isSome_iff_exists.mp hsome
      rcases searchHit_good hv with ⟨h0, hn⟩
      rw [if_pos hcond]
      by_cases htr : truthyN (getBS st.balanceSheet k) = false
      · have hpt : getBS (processCell c rest nr st).balanceSheet k = searchHit rest nr := by
          rw [hp, if_pos ⟨hcond, htr⟩]
        rw [if_neg, hpt, if_pos ⟨htr, hsome⟩]
        rintro ⟨h3, -⟩
        rw [hpt, hv, truthyN_good h0 hn] at h3
        cases h3
      · have htrT := truthyN_true_of_not htr
        have hpe : getBS (processCell c rest nr st).balanceSheet k =
            getBS st.balanceSheet k := by
          rw [hp, if_neg]
          rintro ⟨-, h2⟩
          rw [htrT] at h2
          cases h2
        rw [hpe, if_neg, if_neg]
        · rintro ⟨h2, -⟩
          rw [htrT] at h2
          cases h2
        · rintro ⟨h2, -⟩
          rw [htrT] at h2
          cases h2
    · have hcondF : (!(trimJS (cellRawStr c)).isEmpty && cellHasKeyBS (trimJS (cellRawStr c)) k
          && (searchHit rest nr).isSome) = false := by
        revert hcond
        cases (!(trimJS (cellRawStr c)).isEmpty && cellHasKeyBS (trimJS (cellRawStr c)) k
          && (searchHit rest nr).isSome) <;> simp
      have hpe : getBS (processCell c rest nr st).balanceSheet k =
          getBS st.balanceSheet k := by
        rw [hp, if_neg]
        rintro ⟨h1, -⟩
        rw [hcondF] at h1
        cases h1
      have hred : (if (!(trimJS (cellRawStr c)).isEmpty && cellHasKeyBS (trimJS (cellRawStr c)) k
            && (searchHit rest nr).isSome) = true
          then searchHit rest nr else hitBSCells k nr rest) = hitBSCells k nr rest := by
        rw [hcondF]; simp
      rw [hred, hpe]

/-- One scanned row, seen from income-statement key `k`. -/
theorem scanCells_getIS (nr : Option (List JSVal)) (cells : List JSVal) :
    ∀ (st : FinResult) (k : ISKey),
    getIS (scanCells nr cells st).incomeStatement k =
      if truthyN (getIS st.incomeStatement k) = false ∧ (hitISCells k nr cells).isSome = true
      then hitISCells k nr cells
      else getIS st.incomeStatement k := by
  induction cells with
  | nil =>
    intro st k
    rw [if_neg]
    · rfl
    · rintro ⟨-, h2⟩
      simp [hitISCells] at h2
  | cons c rest ih =>
    intro st k
    rw [scanCells, ih]
    have hp := processCell_getIS c rest nr st k
    rw [hitISCells]
    by_cases hcond : (!(trimJS (cellRawStr c)).isEmpty && cellHasKeyIS (trimJS (cellRawStr c)) k
        && (searchHit rest nr).isSome) = true
    · have hsome : (searchHit rest nr).isSome = true := by
        simp only [Bool.and_eq_true] at hcond
        exact hcond.2
      obtain ⟨v, hv⟩ := Option.isSome_iff_exists.mp hsome
      rcases searchHit_good hv with ⟨h0, hn⟩
      rw [if_pos hcond]
      by_cases htr : truthyN (getIS st.incomeStatement k) = false
      · have hpt : getIS (processCell c rest nr st).incomeStatement k = searchHit rest nr := by
          rw [hp, if_pos ⟨hcond, htr⟩]
        rw [if_neg, hpt, if_pos ⟨htr, hsome⟩]
        rintro ⟨h3, -⟩
        rw [hpt, hv, truthyN_good h0 hn] at h3
        cases h3
      · have htrT := truthyN_true_of_not htr
        have hpe : getIS (processCell c rest nr st).incomeStatement k =
            getIS st.incomeStatement k := by
          rw [hp, if_neg]
          rintro ⟨-, h2⟩
          rw [htrT] at h2
          cases h2
        rw [hpe, if_neg, if_neg]
        · rintro ⟨h2, -⟩
          rw [htrT] at h2
          cases h2
        · rintro ⟨h2, -⟩
          rw [htrT] at h2
          cases h2
    · have hcondF : (!(trimJS (cellRawStr c)).isEmpty && cellHasKeyIS (trimJS (cellRawStr c)) k
          && (searchHit rest nr).isSome) = false := by
        revert hcond
        cases (!(trimJS (cellRawStr c)).isEmpty && cellHasKeyIS (trimJS (cellRawStr c)) k
          && (searchHit rest nr).isSome) <;> simp
      have hpe : getIS (processCell c rest nr st).incomeStatement k =
          getIS st.incomeStatement k := by
        rw [hp, if_neg]
        rintro ⟨h1, -⟩
        rw [hcondF] at h1
        cases h1
      have hred : (if (!(trimJS (cellRawStr c)).isEmpty && cellHasKeyIS (trimJS (cellRawStr c)) k
            && (searchHit rest nr).isSome) = true
          then searchHit rest nr else hitISCells k nr rest) = hitISCells k nr rest := by
        rw [hcondF]; simp
      rw [hred, hpe]

/-- The whole scan, seen from balance-sheet key `k`: a truthily set entry is
never touched, and an unset (or non-truthy) entry receives exactly the first
successful search outcome of the grid, if any. -/
theorem scanRows_getBS (rows : List (List JSVal)) :
    ∀ (st : FinResult) (k : BSKey),
    getBS (scanRows rows st).balanceSheet k =
      if truthyN (getBS st.balanceSheet k) = false ∧ (hitBSRows k rows).isSome = true
      then hitBSRows k rows
      else getBS st.balanceSheet k := by
  induction rows with
  | nil =>
    intro st k
    rw [if_neg]
    · rfl
    · rintro ⟨-, h2⟩
      simp [hitBSRows] at h2
  | cons row rest ih =>
    intro st k
    rw [scanRows, hitBSRows]
    by_cases he : row.isEmpty
    · rw [if_pos he, if_pos he, ih]
    · rw [if_neg he, if_neg he, ih]
      have hsc := scanCells_getBS rest.head? row st k
      cases hc : hitBSCells k rest.head? row with
      | none =>
        have hsce : getBS (scanCells rest.head? row st).balanceSheet k =
            getBS st.balanceSheet k := by
          rw [hsc, if_neg]
          rintro ⟨-, h2⟩
          rw [hc] at h2
          cases h2
        rw [hsce]
      | some v =>
        rcases hitBSCells_good hc with ⟨h0, hn⟩
        by_cases htr : truthyN (getBS st.balanceSheet k) = false
        · have hsct : getBS (scanCells rest.head? row st).balanceSheet k = some v := by
            rw [hsc, if_pos ⟨htr, by rw [hc]; rfl⟩, hc]
          rw [if_neg, hsct, if_pos ⟨htr, rfl⟩]
          rintro ⟨h3, -⟩
          rw [hsct, truthyN_good h0 hn] at h3
          cases h3
        · have htrT := truthyN_true_of_not htr
          have hsce : getBS (scanCells rest.head? row st).balanceSheet k =
              getBS st.balanceSheet k := by
            rw [hsc, if_neg]
            rintro ⟨h2, -⟩
            rw [htrT] at h2
            cases h2
          rw [hsce, if_neg, if_neg]
          · rintro ⟨h2, -⟩
            rw [htrT] at h2
            cases h2
          · rintro ⟨h2, -⟩
            rw [htrT] at h2
            cases h2

/-- The income-statement analogue of `scanRows_getBS`. -/
theorem scanRows_getIS (rows : List (List JSVal)) :
    ∀ (st : FinResult) (k : ISKey),
    getIS (scanRows rows st).incomeStatement k =
      if truthyN (getIS st.incomeStatement k) = false ∧ (hitISRows k rows).isSome = true
      then hitISRows k rows
      else getIS st.incomeStatement k := by
  induction rows with
  | nil =>
    intro st k
    rw [if_neg]
    · rfl
    · rintro ⟨-, h2⟩
      simp [hitISRows] at h2
  | cons row rest ih =>
    intro st k
    rw [scanRows, hitISRows]
    by_cases he : row.isEmpty
    · rw [if_pos he, if_pos he, ih]
    · rw [if_neg he, if_neg he, ih]
      have hsc := scanCells_getIS rest.head? row st k
      cases hc : hitISCells k rest.head? row with
      | none =>
        have hsce : getIS (scanCells rest.head? row st).incomeStatement k =
            getIS st.incomeStatement k := by
          rw [hsc, if_neg]
          rintro ⟨-, h2⟩
          rw [hc] at h2
          cases h2
        rw [hsce]
      | some v =>
        rcases hitISCells_good hc with ⟨h0, hn⟩
        by_cases htr : truthyN (getIS st.incomeStatement k) = false
        · have hsct : getIS (scanCells rest.head? row st).incomeStatement k = some v := by
            rw [hsc, if_pos ⟨htr, by rw [hc]; rfl⟩, hc]
          rw [if_neg, hsct, if_pos ⟨htr, rfl⟩]
          rintro ⟨h3, -⟩
          rw [hsct, truthyN_good h0 hn] at h3
          cases h3
        · have htrT := truthyN_true_of_not htr
          have hsce : getIS (scanCells rest.head? row st).incomeStatement k =
              getIS st.incomeStatement k := by
            rw [hsc, if_neg]
            rintro ⟨h2, -⟩
            rw [htrT] at h2
            cases h2
          rw [hsce, if_neg, if_neg]
          · rintro ⟨h2, -⟩
            rw [htrT] at h2
            cases h2
          · rintro ⟨h2, -⟩
            rw [htrT] at h2
            cases h2

/-! ## Invariants of a scan from the empty record -/

theorem scan_empty_getBS (grid : List (List JSVal)) (k : BSKey) :
    getBS (scanRows grid emptyFinResult).balanceSheet k =
      if (hitBSRows k grid).isSome = true then hitBSRows k grid else none := by
  have he : getBS emptyFinResult.balanceSheet k = none := by cases k <;> rfl
  rw [scanRows_getBS grid emptyFinResult k, he]
  by_cases hs : (hitBSRows k grid).isSome = true
  · rw [if_pos ⟨rfl, hs⟩, if_pos hs]
  · rw [if_neg (by rintro ⟨-, h2⟩; exact hs h2), if_neg hs]

theorem scan_empty_getIS (grid : List (List JSVal)) (k : ISKey) :
    getIS (scanRows grid emptyFinResult).incomeStatement k =
      if (hitISRows k grid).isSome = true then hitISRows k grid else none := by
  have he : getIS emptyFinResult.incomeStatement k = none := by cases k <;> rfl
  rw [scanRows_getIS grid emptyFinResult k, he]
  by_cases hs : (hitISRows k grid).isSome = true
  · rw [if_pos ⟨rfl, hs⟩, if_pos hs]
  · rw [if_neg (by rintro ⟨-, h2⟩; exact hs h2), if_neg hs]

/-- Every value stored by a scan from the empty record is non-zero and
non-`NaN`. -/
theorem scan_empty_goodBS {grid : List (List JSVal)} {k : BSKey} {v : JSNum}
    (h : getBS (scanRows grid emptyFinResult).balanceSheet k = some v) :
    v ≠ JSNum.fin 0 ∧ v ≠ JSNum.nan := by
  rw [scan_empty_getBS] at h
  by_cases hs : (hitBSRows k grid).isSome = true
  · rw [if_pos hs] at h
    exact hitBSRows_good h
  · rw [if_neg hs] at h
    cases h

theorem scan_empty_goodIS {grid : List (List JSVal)} {k : ISKey} {v : JSNum}
    (h : getIS (scanRows grid emptyFinResult).incomeStatement k = some v) :
    v ≠ JSNum.fin 0 ∧ v ≠ JSNum.nan := by
  rw [scan_empty_getIS] at h
  by_cases hs : (hitISRows k grid).isSome = true
  · rw [if_pos hs] at h
    exact hitISRows_good h
  · rw [if_neg hs] at h
    cases h

/-- On a scan from the empty record, JS truthiness of a metric slot coincides
with presence. -/
theorem scan_empty_truthyBS (grid : List (List JSVal)) (k : BSKey) :
    truthyN (getBS (scanRows grid emptyFinResult).balanceSheet k) =
      (getBS (scanRows grid emptyFinResult).balanceSheet k).isSome := by
  cases h : getBS (scanRows grid emptyFinResult).balanceSheet k with
  | none => rfl
  | some v =>
    rcases scan_empty_goodBS h with ⟨h0, hn⟩
    rw [truthyN_good h0 hn]
    rfl

theorem scan_empty_truthyIS (grid : List (List JSVal)) (k : ISKey) :
    truthyN (getIS (scanRows grid emptyFinResult).incomeStatement k) =
      (getIS (scanRows grid emptyFinResult).incomeStatement k).isSome := by
  cases h : getIS (scanRows grid emptyFinResult).incomeStatement k with
  | none => rfl
  | some v =>
    rcases scan_empty_goodIS h with ⟨h0, hn⟩
    rw [truthyN_good h0 hn]
    rfl

/-! ## The derived-metric block, field by field -/

theorem computeDerived_spec (r : FinResult) :
    ((computeDerived r).balanceSheet.totalAssets = r.balanceSheet.totalAssets)
    ∧ ((computeDerived r).balanceSheet.totalLiabilities = r.balanceSheet.totalLiabilities)
    ∧ ((computeDerived r).balanceSheet.currentAssets = r.balanceSheet.currentAssets)
    ∧ ((computeDerived r).balanceSheet.currentLiabilities = r.balanceSheet.currentLiabilities)
    ∧ ((computeDerived r).balanceSheet.inventory = r.balanceSheet.inventory)
    ∧ ((computeDerived r).balanceSheet.paidInCapital = r.balanceSheet.paidInCapital)
    ∧ ((computeDerived r).balanceSheet.accountsReceivable = r.balanceSheet.accountsReceivable)
    ∧ ((computeDerived r).balanceSheet.cashAndEquivalents = r.balanceSheet.cashAndEquivalents)
    ∧ ((computeDerived r).incomeStatement = r.incomeStatement)
    ∧ ((computeDerived r).balanceSheet.debtRatio =
        if (truthyN r.balanceSheet.totalAssets && truthyN r.balanceSheet.totalLiabilities) = true
        then some (toFixed2 (jmul (jdiv (getN r.balanceSheet.totalLiabilities)
            (getN r.balanceSheet.totalAssets)) (JSNum.fin 100)))
        else r.balanceSheet.debtRatio)
    ∧ ((computeDerived r).balanceSheet.currentRatio =
        if (truthyN r.balanceSheet.currentAssets && truthyN r.balanceSheet.currentLiabilities) = true
        then some (toFixed2 (jdiv (getN r.balanceSheet.currentAssets)
            (getN r.balanceSheet.currentLiabilities)))
        else r.balanceSheet.currentRatio)
    ∧ ((computeDerived r).balanceSheet.quickRatio =
        if (truthyN r.balanceSheet.currentAssets && truthyN r.balanceSheet.currentLiabilities) = true
        then some (toFixed2 (jdiv (jsub (getN r.balanceSheet.currentAssets)
            (if truthyN r.balanceSheet.inventory = true then getN r.balanceSheet.inventory
             else JSNum.fin 0))
          (getN r.balanceSheet.currentLiabilities)))
        else r.balanceSheet.quickRatio)
    ∧ ((computeDerived r).balanceSheet.roe =
        if (truthyN r.incomeStatement.netProfit && truthyN r.balanceSheet.ownerEquity) = true
        then some (toFixed2 (jmul (jdiv (getN r.incomeStatement.netProfit)
            (getN r.balanceSheet.ownerEquity)) (JSNum.fin 100)))
        else r.balanceSheet.roe)
    ∧ ((computeDerived r).balanceSheet.ownerEquity =
        if (truthyN r.balanceSheet.totalAssets && truthyN r.balanceSheet.totalLiabilities
            && !truthyN r.balanceSheet.ownerEquity) = true
        then some (jsub (getN r.balanceSheet.totalAssets) (getN r.balanceSheet.totalLiabilities))
        else r.balanceSheet.ownerEquity) := by
  by_cases ha : truthyN r.balanceSheet.totalAssets = true <;>
  by_cases hb : truthyN r.balanceSheet.totalLiabilities = true <;>
  by_cases hc : truthyN r.balanceSheet.currentAssets = true <;>
  by_cases hd : truthyN r.balanceSheet.currentLiabilities = true <;>
  by_cases hn : truthyN r.incomeStatement.netProfit = true <;>
  by_cases ho : truthyN r.balanceSheet.ownerEquity = true <;>
    simp [computeDerived, ha, hb, hc, hd, hn, ho]

/-! ## The scan never touches the derived ratio strings -/

theorem setBS_debtRatio (b : BalanceSheet) (k : BSKey) (v : JSNum) :
    (setBS b k v).debtRatio = b.debtRatio := by cases k <;> rfl

theorem setBS_currentRatio (b : BalanceSheet) (k : BSKey) (v : JSNum) :
    (setBS b k v).currentRatio = b.currentRatio := by cases k <;> rfl

theorem setBS_quickRatio (b : BalanceSheet) (k : BSKey) (v : JSNum) :
    (setBS b k v).quickRatio = b.quickRatio := by cases k <;> rfl

theorem setBS_roe (b : BalanceSheet) (k : BSKey) (v : JSNum) :
    (setBS b k v).roe = b.roe := by cases k <;> rfl

/-- The ratio-string fields of a record. -/
def ratioFields (st : FinResult) :
    Option (List Char) × Option (List Char) × Option (List Char) × Option (List Char) :=
  (st.balanceSheet.debtRatio, st.balanceSheet.currentRatio,
   st.balanceSheet.quickRatio, st.balanceSheet.roe)

theorem processTermBS_ratios (rc : List JSVal) (nr : Option (List JSVal)) (txt : List Char)
    (st : FinResult) (tk : List Char × BSKey) :
    ratioFields (processTermBS rc nr txt st tk) = ratioFields st := by
  rw [processTermBS]
  by_cases hg : (containsSub txt tk.1 && !truthyN (getBS st.balanceSheet tk.2)) = true
  · simp only [hg, if_true]
    cases hf : findNonZero rc with
    | some v =>
      split
      · cases nr with
        | none =>
          simp [ratioFields, setBS_debtRatio, setBS_currentRatio, setBS_quickRatio, setBS_roe]
        | some nrow =>
          cases hg2 : findNonZero nrow <;>
            simp [hg2, ratioFields, setBS_debtRatio, setBS_currentRatio, setBS_quickRatio,
              setBS_roe]
      · simp [ratioFields, setBS_debtRatio, setBS_currentRatio, setBS_quickRatio, setBS_roe]
    | none =>
      split
      · cases nr with
        | none => rfl
        | some nrow =>
          cases hg2 : findNonZero nrow <;>
            simp [hg2, ratioFields, setBS_debtRatio, setBS_currentRatio, setBS_quickRatio,
              setBS_roe]
      · rfl
  · simp only [hg, Bool.false_eq_true, if_false]

theorem processTermIS_ratios (rc : List JSVal) (nr : Option (List JSVal)) (txt : List Char)
    (st : FinResult) (tk : List Char × ISKey) :
    ratioFields (processTermIS rc nr txt st tk) = ratioFields st := by
  rw [ratioFields, ratioFields, processTermIS_bs]

theorem processCell_ratios (c : JSVal) (rc : List JSVal) (nr : Option (List JSVal))
    (st : FinResult) :
    ratioFields (processCell c rc nr st) = ratioFields st := by
  rw [processCell]
  by_cases ht : trimJS (cellRawStr c) = []
  · rw [if_pos ht]
  · rw [if_neg ht]
    have h1 : ∀ (terms : List (List Char × BSKey)) (st2 : FinResult),
        ratioFields (terms.foldl (processTermBS rc nr (trimJS (cellRawStr c))) st2) =
          ratioFields st2 := by
      intro terms
      induction terms with
      | nil => intro st2; rfl
      | cons tk rest ih =>
        intro st2
        rw [List.foldl_cons, ih, processTermBS_ratios]
    have h2 : ∀ (terms : List (List Char × ISKey)) (st2 : FinResult),
        ratioFields (terms.foldl (processTermIS rc nr (trimJS (cellRawStr c))) st2) =
          ratioFields st2 := by
      intro terms
      induction terms with
      | nil => intro st2; rfl
      | cons tk rest ih =>
        intro st2
        rw [List.foldl_cons, ih, processTermIS_ratios]
    rw [h2, h1]

theorem scanCells_ratios (nr : Option (List JSVal)) (cells : List JSVal) :
    ∀ st : FinResult, ratioFields (scanCells nr cells st) = ratioFields st := by
  induction cells with
  | nil => intro st; rfl
  | cons c rest ih =>
    intro st
    rw [scanCells, ih, processCell_ratios]

theorem scanRows_ratios (rows : List (List JSVal)) :
    ∀ st : FinResult, ratioFields (scanRows rows st) = ratioFields st := by
  induction rows with
  | nil => intro st; rfl
  | cons row rest ih =>
    intro st
    rw [scanRows]
    by_cases he : row.isEmpty
    · rw [if_pos he, ih]
    · rw [if_neg he, ih, scanCells_ratios]

theorem scan_empty_ratios (grid : List (List JSVal)) :
    ((scanRows grid emptyFinResult).balanceSheet.debtRatio = none)
    ∧ ((scanRows grid emptyFinResult).balanceSheet.currentRatio = none)
    ∧ ((scanRows grid emptyFinResult).balanceSheet.quickRatio = none)
    ∧ ((scanRows grid emptyFinResult).balanceSheet.roe = none) := by
  have h := scanRows_ratios grid emptyFinResult
  rw [ratioFields, ratioFields] at h
  rcases Prod.mk.injEq .. ▸ h with ⟨h1, h2⟩
  rcases Prod.mk.injEq .. ▸ h2 with ⟨h3, h4⟩
  rcases Prod.mk.injEq .. ▸ h4 with ⟨h5, h6⟩
  exact ⟨h1, h3, h5, h6⟩

/-! ## Derived-metric presence (claim C2) -/

/-- A grid on which `netProfit` is extracted, `ownerEquity` is only inferred
from assets − liabilities, and hence `roe` is never computed. -/
def roeGapGrid : List (List JSVal) :=
  [[JSVal.str ("净利润".data), JSVal.num (JSNum.fin 50)],
   [JSVal.str ("资产总计".data), JSVal.num (JSNum.fin 1000)],
   [JSVal.str ("负债总计".data), JSVal.num (JSNum.fin 600)]]

/-- The counterexample to C2 as stated: in the final record of this
extraction, `netProfit` and `ownerEquity` are both present yet `roe` is
absent — because return on equity is computed before the owner-equity
inference, "roe present iff netProfit and ownerEquity present" fails. -/
theorem derived_metrics_presence_counterexample :
    ((extractFinancialData roeGapGrid emptyFinResult).incomeStatement.netProfit.isSome = true)
    ∧ ((extractFinancialData roeGapGrid emptyFinResult).balanceSheet.ownerEquity.isSome = true)
    ∧ ((extractFinancialData roeGapGrid emptyFinResult).balanceSheet.roe = none)
    ∧ ¬(((extractFinancialData roeGapGrid emptyFinResult).balanceSheet.roe.isSome = true) ↔
        ((extractFinancialData roeGapGrid emptyFinResult).incomeStatement.netProfit.isSome = true ∧
         (extractFinancialData roeGapGrid emptyFinResult).balanceSheet.ownerEquity.isSome = true)) := by
  have hnp : (extractFinancialData roeGapGrid emptyFinResult).incomeStatement.netProfit.isSome
      = true := by with_unfolding_all rfl
  have hoe : (extractFinancialData roeGapGrid emptyFinResult).balanceSheet.ownerEquity.isSome
      = true := by with_unfolding_all rfl
  have hroe : (extractFinancialData roeGapGrid emptyFinResult).balanceSheet.roe = none := by
    with_unfolding_all rfl
  refine ⟨hnp, hoe, hroe, fun hiff => ?_⟩
  have h := hiff.mpr ⟨hnp, hoe⟩
  rw [hroe] at h
  cases h

/-- The spec's worked example: assets 1000 and liabilities 600. -/
def debtRatioGrid : List (List JSVal) :=
  [[JSVal.str ("资产总计".data), JSVal.num (JSNum.fin 1000)],
   [JSVal.str ("负债总计".data), JSVal.num (JSNum.fin 600)]]

/-- C2 (amended): in the record of a single extraction, `debtRatio` is present
iff assets and liabilities were extracted (extracted values are never zero, so
denominators are automatically non-zero), with the stated value;
`currentRatio`/`quickRatio` likewise for current assets/liabilities with
inventory defaulting to `0`; `roe` is present iff `netProfit` and a
label-extracted (pre-inference) `ownerEquity` are present; and `ownerEquity`
is inferred as assets − liabilities exactly when it was not extracted while
assets and liabilities were. -/
theorem derived_metrics_presence_amended (grid : List (List JSVal)) :
    ((extractFinancialData grid emptyFinResult).balanceSheet.debtRatio.isSome = true ↔
      ((scanRows grid emptyFinResult).balanceSheet.totalAssets.isSome = true ∧
       (scanRows grid emptyFinResult).balanceSheet.totalLiabilities.isSome = true))
    ∧ (∀ a l, (scanRows grid emptyFinResult).balanceSheet.totalAssets = some a →
        (scanRows grid emptyFinResult).balanceSheet.totalLiabilities = some l →
        a ≠ JSNum.fin 0 ∧
        (extractFinancialData grid emptyFinResult).balanceSheet.debtRatio =
          some (toFixed2 (jmul (jdiv l a) (JSNum.fin 100))))
    ∧ ((extractFinancialData grid emptyFinResult).balanceSheet.currentRatio.isSome = true ↔
      ((scanRows grid emptyFinResult).balanceSheet.currentAssets.isSome = true ∧
       (scanRows grid emptyFinResult).balanceSheet.currentLiabilities.isSome = true))
    ∧ ((extractFinancialData grid emptyFinResult).balanceSheet.quickRatio.isSome = true ↔
      ((scanRows grid emptyFinResult).balanceSheet.currentAssets.isSome = true ∧
       (scanRows grid emptyFinResult).balanceSheet.currentLiabilities.isSome = true))
    ∧ (∀ ca cl, (scanRows grid emptyFinResult).balanceSheet.currentAssets = some ca →
        (scanRows grid emptyFinResult).balanceSheet.currentLiabilities = some cl →
        cl ≠ JSNum.fin 0 ∧
        (extractFinancialData grid emptyFinResult).balanceSheet.currentRatio =
          some (toFixed2 (jdiv ca cl)) ∧
        (extractFinancialData grid emptyFinResult).balanceSheet.quickRatio =
          some (toFixed2 (jdiv (jsub ca
            (if truthyN (scanRows grid emptyFinResult).balanceSheet.inventory = true
             then getN (scanRows grid emptyFinResult).balanceSheet.inventory
             else JSNum.fin 0)) cl)))
    ∧ ((extractFinancialData grid emptyFinResult).balanceSheet.roe.isSome = true ↔
      ((scanRows grid emptyFinResult).incomeStatement.netProfit.isSome = true ∧
       (scanRows grid emptyFinResult).balanceSheet.ownerEquity.isSome = true))
    ∧ (∀ np oe, (scanRows grid emptyFinResult).incomeStatement.netProfit = some np →
        (scanRows grid emptyFinResult).balanceSheet.ownerEquity = some oe →
        oe ≠ JSNum.fin 0 ∧
        (extractFinancialData grid emptyFinResult).balanceSheet.roe =
          some (toFixed2 (jmul (jdiv np oe) (JSNum.fin 100))))
    ∧ ((extractFinancialData grid emptyFinResult).balanceSheet.ownerEquity.isSome = true ↔
      ((scanRows grid emptyFinResult).balanceSheet.ownerEquity.isSome = true ∨
       ((scanRows grid emptyFinResult).balanceSheet.totalAssets.isSome = true ∧
        (scanRows grid emptyFinResult).balanceSheet.totalLiabilities.isSome = true)))
    ∧ (∀ a l, (scanRows grid emptyFinResult).balanceSheet.ownerEquity = none →
        (scanRows grid emptyFinResult).balanceSheet.totalAssets = some a →
        (scanRows grid emptyFinResult).balanceSheet.totalLiabilities = some l →
        (extractFinancialData grid emptyFinResult).balanceSheet.ownerEquity =
          some (jsub a l))
    ∧ ((scanRows grid emptyFinResult).balanceSheet.ownerEquity.isSome = true →
        (extractFinancialData grid emptyFinResult).balanceSheet.ownerEquity =
          (scanRows grid emptyFinResult).balanceSheet.ownerEquity)
    ∧ (extractFinancialData debtRatioGrid emptyFinResult).balanceSheet.debtRatio =
        some ("60.00".data)
    ∧ (extractFinancialData debtRatioGrid emptyFinResult).balanceSheet.ownerEquity =
        some (JSNum.fin 400) := by
  have hx : extractFinancialData grid emptyFinResult =
      computeDerived (scanRows grid emptyFinResult) := rfl
  obtain ⟨-, -, -, -, -, -, -, -, -, hdr, hcr, hqr, hroe, hoe⟩ :=
    computeDerived_spec (scanRows grid emptyFinResult)
  have hta : truthyN (scanRows grid emptyFinResult).balanceSheet.totalAssets =
      ((scanRows grid emptyFinResult).balanceSheet.totalAssets).isSome :=
    scan_empty_truthyBS grid BSKey.totalAssets
  have htl : truthyN (scanRows grid emptyFinResult).balanceSheet.totalLiabilities =
      ((scanRows grid emptyFinResult).balanceSheet.totalLiabilities).isSome :=
    scan_empty_truthyBS grid BSKey.totalLiabilities
  have hca : truthyN (scanRows grid emptyFinResult).balanceSheet.currentAssets =
      ((scanRows grid emptyFinResult).balanceSheet.currentAssets).isSome :=
    scan_empty_truthyBS grid BSKey.currentAssets
  have hcl : truthyN (scanRows grid emptyFinResult).balanceSheet.currentLiabilities =
      ((scanRows grid emptyFinResult).balanceSheet.currentLiabilities).isSome :=
    scan_empty_truthyBS grid BSKey.currentLiabilities
  have hto : truthyN (scanRows grid emptyFinResult).balanceSheet.ownerEquity =
      ((scanRows grid emptyFinResult).balanceSheet.ownerEquity).isSome :=
    scan_empty_truthyBS grid BSKey.ownerEquity
  have htn : truthyN (scanRows grid emptyFinResult).incomeStatement.netProfit =
      ((scanRows grid emptyFinResult).incomeStatement.netProfit).isSome :=
    scan_empty_truthyIS grid ISKey.netProfit
  obtain ⟨hz1, hz2, hz3, hz4⟩ := scan_empty_ratios grid
  rw [hta, htl] at hdr
  rw [hca, hcl] at hcr
  rw [hca, hcl] at hqr
  rw [htn, hto] at hroe
  rw [hta, htl, hto] at hoe
  refine ⟨?_, ?_, ?_, ?_, ?_, ?_, ?_, ?_, ?_, ?_, by with_unfolding_all rfl,
    by with_unfolding_all rfl⟩
  · rw [hx, hdr]
    by_cases h1 : ((scanRows grid emptyFinResult).balanceSheet.totalAssets).isSome = true <;>
      by_cases h2 : ((scanRows grid emptyFinResult).balanceSheet.totalLiabilities).isSome
        = true <;>
      simp [h1, h2, hz1]
  · intro a l h1 h2
    rcases scan_empty_goodBS (k := BSKey.totalAssets) h1 with ⟨ha0, -⟩
    refine ⟨ha0, ?_⟩
    rw [hx, hdr, h1, h2]
    simp [getN]
  · rw [hx, hcr]
    by_cases h1 : ((scanRows grid emptyFinResult).balanceSheet.currentAssets).isSome = true <;>
      by_cases h2 : ((scanRows grid emptyFinResult).balanceSheet.currentLiabilities).isSome
        = true <;>
      simp [h1, h2, hz2]
  · rw [hx, hqr]
    by_cases h1 : ((scanRows grid emptyFinResult).balanceSheet.currentAssets).isSome = true <;>
      by_cases h2 : ((scanRows grid emptyFinResult).balanceSheet.currentLiabilities).isSome
        = true <;>
      simp [h1, h2, hz3]
  · intro ca cl h1 h2
    rcases scan_empty_goodBS (k := BSKey.currentLiabilities) h2 with ⟨hc0, -⟩
    refine ⟨hc0, ?_, ?_⟩
    · rw [hx, hcr, h1, h2]
      simp [getN]
    · rw [hx, hqr, h1, h2]
      simp [getN]
  · rw [hx, hroe]
    by_cases h1 : ((scanRows grid emptyFinResult).incomeStatement.netProfit).isSome = true <;>
      by_cases h2 : ((scanRows grid emptyFinResult).balanceSheet.ownerEquity).isSome = true <;>
      simp [h1, h2, hz4]
  · intro np oe h1 h2
    rcases scan_empty_goodBS (k := BSKey.ownerEquity) h2 with ⟨ho0, -⟩
    refine ⟨ho0, ?_⟩
    rw [hx, hroe, h1, h2]
    simp [getN]
  · rw [hx, hoe]
    by_cases h1 : ((scanRows grid emptyFinResult).balanceSheet.totalAssets).isSome = true <;>
      by_cases h2 : ((scanRows grid emptyFinResult).balanceSheet.totalLiabilities).isSome
        = true <;>
      by_cases h3 : ((scanRows grid emptyFinResult).balanceSheet.ownerEquity).isSome = true <;>
      simp [h1, h2, h3]
  · intro a l h0 h1 h2
    rw [hx, hoe, h0, h1, h2]
    simp [getN]
  · intro h0
    rw [hx, hoe]
    rw [h0]
    simp

theorem derived_metrics_presence_amended_witness :
    (extractFinancialData debtRatioGrid emptyFinResult).balanceSheet.debtRatio =
      some (toFixed2 (jmul (jdiv (JSNum.fin 600) (JSNum.fin 1000)) (JSNum.fin 100))) := by
  have h := (derived_metrics_presence_amended debtRatioGrid).2.1 (JSNum.fin 1000)
    (JSNum.fin 600) (by with_unfolding_all rfl) (by with_unfolding_all rfl)
  exact h.2

/-! ## Re-running extraction (claim C7) -/

theorem computeDerived_getBS_ne_oe (r : FinResult) (k : BSKey)
    (hk : k ≠ BSKey.ownerEquity) :
    getBS (computeDerived r).balanceSheet k = getBS r.balanceSheet k := by
  obtain ⟨h1, h2, h3, h4, h5, h6, h7, h8, -, -, -, -, -, -⟩ := computeDerived_spec r
  cases k with
  | totalAssets => exact h1
  | totalLiabilities => exact h2
  | currentAssets => exact h3
  | currentLiabilities => exact h4
  | inventory => exact h5
  | paidInCapital => exact h6
  | accountsReceivable => exact h7
  | cashAndEquivalents => exact h8
  | ownerEquity => exact absurd rfl hk

theorem hitBS_none_of_scan_none {grid : List (List JSVal)} {k : BSKey}
    (h : getBS (scanRows grid emptyFinResult).balanceSheet k = none) :
    (hitBSRows k grid).isSome = false := by
  by_cases hs : (hitBSRows k grid).isSome = true
  · have h2 := scan_empty_getBS grid k
    rw [if_pos hs, h] at h2
    obtain ⟨w, hw⟩ := Option.isSome_iff_exists.mp hs
    rw [hw] at h2
    cases h2
  · revert hs
    cases (hitBSRows k grid).isSome <;> simp

theorem hitIS_none_of_scan_none {grid : List (List JSVal)} {k : ISKey}
    (h : getIS (scanRows grid emptyFinResult).incomeStatement k = none) :
    (hitISRows k grid).isSome = false := by
  by_cases hs : (hitISRows k grid).isSome = true
  · have h2 := scan_empty_getIS grid k
    rw [if_pos hs, h] at h2
    obtain ⟨w, hw⟩ := Option.isSome_iff_exists.mp hs
    rw [hw] at h2
    cases h2
  · revert hs
    cases (hitISRows k grid).isSome <;> simp

/-- Re-scanning over the first extraction's record leaves every balance-sheet
base key other than `ownerEquity` at its first-scan value. -/
theorem rescan_base (grid : List (List JSVal)) (k : BSKey) (hk : k ≠ BSKey.ownerEquity) :
    getBS (scanRows grid (extractFinancialData grid emptyFinResult)).balanceSheet k =
      getBS (scanRows grid emptyFinResult).balanceSheet k := by
  have hE0 : getBS (extractFinancialData grid emptyFinResult).balanceSheet k =
      getBS (scanRows grid emptyFinResult).balanceSheet k :=
    computeDerived_getBS_ne_oe (scanRows grid emptyFinResult) k hk
  cases hs0 : getBS (scanRows grid emptyFinResult).balanceSheet k with
  | some v =>
    rcases scan_empty_goodBS hs0 with ⟨h0, hn⟩
    rw [scanRows_getBS grid (extractFinancialData grid emptyFinResult) k, hE0, hs0, if_neg]
    rintro ⟨h2, -⟩
    rw [truthyN_good h0 hn] at h2
    cases h2
  | none =>
    have hhit := hitBS_none_of_scan_none hs0
    rw [scanRows_getBS grid (extractFinancialData grid emptyFinResult) k, hE0, hs0, if_neg]
    rintro ⟨-, h2⟩
    rw [hhit] at h2
    cases h2

/-- Re-scanning preserves the `ownerEquity` entry of the first extraction's
record verbatim, including a non-truthy inferred value. -/
theorem rescan_oe (grid : List (List JSVal)) :
    getBS (scanRows grid (extractFinancialData grid emptyFinResult)).balanceSheet
        BSKey.ownerEquity =
      getBS (extractFinancialData grid emptyFinResult).balanceSheet BSKey.ownerEquity := by
  obtain ⟨-, -, -, -, -, -, -, -, -, -, -, -, -, hoe⟩ :=
    computeDerived_spec (scanRows grid emptyFinResult)
  cases hr0 : getBS (extractFinancialData grid emptyFinResult).balanceSheet
      BSKey.ownerEquity with
  | some w =>
    by_cases htw : truthyN (some w) = true
    · rw [scanRows_getBS grid (extractFinancialData grid emptyFinResult) BSKey.ownerEquity,
        hr0, if_neg]
      rintro ⟨h2, -⟩
      rw [htw] at h2
      cases h2
    · have hs0oe : getBS (scanRows grid emptyFinResult).balanceSheet BSKey.ownerEquity
          = none := by
        cases hs : getBS (scanRows grid emptyFinResult).balanceSheet BSKey.ownerEquity with
        | none => rfl
        | some u =>
          rcases scan_empty_goodBS hs with ⟨h0, hn⟩
          have hs2 : (scanRows grid emptyFinResult).balanceSheet.ownerEquity = some u := hs
          have hE0u : (extractFinancialData grid emptyFinResult).balanceSheet.ownerEquity
              = some u := by
            rw [show (extractFinancialData grid emptyFinResult).balanceSheet.ownerEquity =
              (computeDerived (scanRows grid emptyFinResult)).balanceSheet.ownerEquity
              from rfl, hoe, hs2, truthyN_good h0 hn]
            simp
          have hr0w : (extractFinancialData grid emptyFinResult).balanceSheet.ownerEquity
              = some w := hr0
          rw [hE0u] at hr0w
          cases hr0w
          rw [truthyN_good h0 hn] at htw
          exact absurd rfl htw
      have hhit := hitBS_none_of_scan_none hs0oe
      rw [scanRows_getBS grid (extractFinancialData grid emptyFinResult) BSKey.ownerEquity,
        hr0, if_neg]
      rintro ⟨-, h2⟩
      rw [hhit] at h2
      cases h2
  | none =>
    have hs0oe : getBS (scanRows grid emptyFinResult).balanceSheet BSKey.ownerEquity
        = none := by
      have hr0f : (computeDerived (scanRows grid emptyFinResult)).balanceSheet.ownerEquity
          = none := hr0
      rw [hoe] at hr0f
      by_cases hg : (truthyN (scanRows grid emptyFinResult).balanceSheet.totalAssets &&
          truthyN (scanRows grid emptyFinResult).balanceSheet.totalLiabilities &&
          !truthyN (scanRows grid emptyFinResult).balanceSheet.ownerEquity) = true
      · rw [if_pos hg] at hr0f
        cases hr0f
      · rw [if_neg hg] at hr0f
        exact hr0f
    have hhit := hitBS_none_of_scan_none hs0oe
    rw [scanRows_getBS grid (extractFinancialData grid emptyFinResult) BSKey.ownerEquity,
      hr0, if_neg]
    rintro ⟨-, h2⟩
    rw [hhit] at h2
    cases h2

/-- Re-scanning leaves every income-statement key at its first-scan value. -/
theorem rescan_is (grid : List (List JSVal)) (k : ISKey) :
    getIS (scanRows grid (extractFinancialData grid emptyFinResult)).incomeStatement k =
      getIS (scanRows grid emptyFinResult).incomeStatement k := by
  obtain ⟨-, -, -, -, -, -, -, -, his, -, -, -, -, -⟩ :=
    computeDerived_spec (scanRows grid emptyFinResult)
  have hE0 : getIS (extractFinancialData grid emptyFinResult).incomeStatement k =
      getIS (scanRows grid emptyFinResult).incomeStatement k := by
    rw [show (extractFinancialData grid emptyFinResult).incomeStatement =
      (computeDerived (scanRows grid emptyFinResult)).incomeStatement from rfl, his]
  cases hs0 : getIS (scanRows grid emptyFinResult).incomeStatement k with
  | some v =>
    rcases scan_empty_goodIS hs0 with ⟨h0, hn⟩
    rw [scanRows_getIS grid (extractFinancialData grid emptyFinResult) k, hE0, hs0, if_neg]
    rintro ⟨h2, -⟩
    rw [truthyN_good h0 hn] at h2
    cases h2
  | none =>
    have hhit := hitIS_none_of_scan_none hs0
    rw [scanRows_getIS grid (extractFinancialData grid emptyFinResult) k, hE0, hs0, if_neg]
    rintro ⟨-, h2⟩
    rw [hhit] at h2
    cases h2

/-- C7: first match wins and re-extraction never overwrites — every metric key
(base, income and derived) that is set by one extraction keeps exactly its
value when extraction is re-run over the same grid on the resulting record. -/
theorem extraction_no_overwrite (grid : List (List JSVal)) :
    (∀ (k : BSKey) (v : JSNum),
      getBS (extractFinancialData grid emptyFinResult).balanceSheet k = some v →
      getBS (extractFinancialData grid
        (extractFinancialData grid emptyFinResult)).balanceSheet k = some v)
    ∧ (∀ (k : ISKey) (v : JSNum),
      getIS (extractFinancialData grid emptyFinResult).incomeStatement k = some v →
      getIS (extractFinancialData grid
        (extractFinancialData grid emptyFinResult)).incomeStatement k = some v)
    ∧ (∀ d, (extractFinancialData grid emptyFinResult).balanceSheet.debtRatio = some d →
      (extractFinancialData grid
        (extractFinancialData grid emptyFinResult)).balanceSheet.debtRatio = some d)
    ∧ (∀ d, (extractFinancialData grid emptyFinResult).balanceSheet.currentRatio = some d →
      (extractFinancialData grid
        (extractFinancialData grid emptyFinResult)).balanceSheet.currentRatio = some d)
    ∧ (∀ d, (extractFinancialData grid emptyFinResult).balanceSheet.quickRatio = some d →
      (extractFinancialData grid
        (extractFinancialData grid emptyFinResult)).balanceSheet.quickRatio = some d)
    ∧ (∀ d, (extractFinancialData grid emptyFinResult).balanceSheet.roe = some d →
      (extractFinancialData grid
        (extractFinancialData grid emptyFinResult)).balanceSheet.roe = some d) := by
  obtain ⟨s0ta, s0tl, s0ca, s0cl, s0inv, -, -, -, s0is, s0dr, s0cr, s0qr, s0roe, s0oe⟩ :=
    computeDerived_spec (scanRows grid emptyFinResult)
  obtain ⟨-, -, -, -, -, -, -, -, s1is, s1dr, s1cr, s1qr, s1roe, s1oe⟩ :=
    computeDerived_spec (scanRows grid (extractFinancialData grid emptyFinResult))
  have rta : (scanRows grid (extractFinancialData grid emptyFinResult)).balanceSheet.totalAssets
      = (scanRows grid emptyFinResult).balanceSheet.totalAssets :=
    rescan_base grid BSKey.totalAssets (by decide)
  have rtl : (scanRows grid
      (extractFinancialData grid emptyFinResult)).balanceSheet.totalLiabilities
      = (scanRows grid emptyFinResult).balanceSheet.totalLiabilities :=
    rescan_base grid BSKey.totalLiabilities (by decide)
  have rca : (scanRows grid
      (extractFinancialData grid emptyFinResult)).balanceSheet.currentAssets
      = (scanRows grid emptyFinResult).balanceSheet.currentAssets :=
    rescan_base grid BSKey.currentAssets (by decide)
  have rcl : (scanRows grid
      (extractFinancialData grid emptyFinResult)).balanceSheet.currentLiabilities
      = (scanRows grid emptyFinResult).balanceSheet.currentLiabilities :=
    rescan_base grid BSKey.currentLiabilities (by decide)
  have rinv : (scanRows grid (extractFinancialData grid emptyFinResult)).balanceSheet.inventory
      = (scanRows grid emptyFinResult).balanceSheet.inventory :=
    rescan_base grid BSKey.inventory (by decide)
  have rnp : (scanRows grid
      (extractFinancialData grid emptyFinResult)).incomeStatement.netProfit
      = (scanRows grid emptyFinResult).incomeStatement.netProfit :=
    rescan_is grid ISKey.netProfit
  refine ⟨?_, ?_, ?_, ?_, ?_, ?_⟩
  · intro k v h
    by_cases hk : k = BSKey.ownerEquity
    · subst hk
      have hS1oe : (scanRows grid
          (extractFinancialData grid emptyFinResult)).balanceSheet.ownerEquity = some v := by
        have h2 : getBS (scanRows grid
            (extractFinancialData grid emptyFinResult)).balanceSheet BSKey.ownerEquity
            = some v := by
          rw [rescan_oe]; exact h
        exact h2
      show (computeDerived (scanRows grid
        (extractFinancialData grid emptyFinResult))).balanceSheet.ownerEquity = some v
      rw [s1oe]
      by_cases htv : truthyN (some v) = true
      · rw [if_neg, hS1oe]
        rw [hS1oe, htv]
        simp
      · have htv2 := truthyN_false_of_not htv
        have hE0f : (computeDerived (scanRows grid emptyFinResult)).balanceSheet.ownerEquity
            = some v := h
        rw [s0oe] at hE0f
        by_cases hg0 : (truthyN (scanRows grid emptyFinResult).balanceSheet.totalAssets &&
            truthyN (scanRows grid emptyFinResult).balanceSheet.totalLiabilities &&
            !truthyN (scanRows grid emptyFinResult).balanceSheet.ownerEquity) = true
        · rw [if_pos hg0] at hE0f
          simp only [Bool.and_eq_true] at hg0
          rw [if_pos, rta, rtl]
          · exact hE0f
          · rw [rta, rtl, hS1oe, htv2, hg0.1.1, hg0.1.2]
            rfl
        · rw [if_neg hg0] at hE0f
          rcases scan_empty_goodBS (k := BSKey.ownerEquity) hE0f with ⟨h0, hn⟩
          rw [truthyN_good h0 hn] at htv2
          cases htv2
    · have h1 : getBS (scanRows grid emptyFinResult).balanceSheet k = some v := by
        rw [← computeDerived_getBS_ne_oe (scanRows grid emptyFinResult) k hk]
        exact h
      have h2 : getBS (scanRows grid
          (extractFinancialData grid emptyFinResult)).balanceSheet k = some v := by
        rw [rescan_base grid k hk]
        exact h1
      exact (computeDerived_getBS_ne_oe
        (scanRows grid (extractFinancialData grid emptyFinResult)) k hk).trans h2
  · intro k v h
    have h1 : getIS (scanRows grid emptyFinResult).incomeStatement k = some v := by
      have h2 : getIS (computeDerived (scanRows grid emptyFinResult)).incomeStatement k
          = some v := h
      rw [s0is] at h2
      exact h2
    have h2 : getIS (scanRows grid
        (extractFinancialData grid emptyFinResult)).incomeStatement k = some v := by
      rw [rescan_is]
      exact h1
    show getIS (computeDerived (scanRows grid
      (extractFinancialData grid emptyFinResult))).incomeStatement k = some v
    rw [s1is]
    exact h2
  · intro d hd
    have hd0 : (computeDerived (scanRows grid emptyFinResult)).balanceSheet.debtRatio
        = some d := hd
    rw [s0dr] at hd0
    by_cases hg0 : (truthyN (scanRows grid emptyFinResult).balanceSheet.totalAssets &&
        truthyN (scanRows grid emptyFinResult).balanceSheet.totalLiabilities) = true
    · rw [if_pos hg0] at hd0
      show (computeDerived (scanRows grid
        (extractFinancialData grid emptyFinResult))).balanceSheet.debtRatio = some d
      rw [s1dr, rta, rtl, if_pos hg0]
      exact hd0
    · rw [if_neg hg0, (scan_empty_ratios grid).1] at hd0
      cases hd0
  · intro d hd
    have hd0 : (computeDerived (scanRows grid emptyFinResult)).balanceSheet.currentRatio
        = some d := hd
    rw [s0cr] at hd0
    by_cases hg0 : (truthyN (scanRows grid emptyFinResult).balanceSheet.currentAssets &&
        truthyN (scanRows grid emptyFinResult).balanceSheet.currentLiabilities) = true
    · rw [if_pos hg0] at hd0
      show (computeDerived (scanRows grid
        (extractFinancialData grid emptyFinResult))).balanceSheet.currentRatio = some d
      rw [s1cr, rca, rcl, if_pos hg0]
      exact hd0
    · rw [if_neg hg0, (scan_empty_ratios grid).2.1] at hd0
      cases hd0
  · intro d hd
    have hd0 : (computeDerived (scanRows grid emptyFinResult)).balanceSheet.quickRatio
        = some d := hd
    rw [s0qr] at hd0
    by_cases hg0 : (truthyN (scanRows grid emptyFinResult).balanceSheet.currentAssets &&
        truthyN (scanRows grid emptyFinResult).balanceSheet.currentLiabilities) = true
    · rw [if_pos hg0] at hd0
      show (computeDerived (scanRows grid
        (extractFinancialData grid emptyFinResult))).balanceSheet.quickRatio = some d
      rw [s1qr, rca, rcl, rinv, if_pos hg0]
      exact hd0
    · rw [if_neg hg0, (scan_empty_ratios grid).2.2.1] at hd0
      cases hd0
  · intro d hd
    have hd0 : (computeDerived (scanRows grid emptyFinResult)).balanceSheet.roe
        = some d := hd
    rw [s0roe] at hd0
    by_cases hg0 : (truthyN (scanRows grid emptyFinResult).incomeStatement.netProfit &&
        truthyN (scanRows grid emptyFinResult).balanceSheet.ownerEquity) = true
    · rw [if_pos hg0] at hd0
      have hg0c := hg0
      simp only [Bool.and_eq_true] at hg0c
      cases hS0oe : (scanRows grid emptyFinResult).balanceSheet.ownerEquity with
      | none =>
        rw [hS0oe] at hg0c
        cases hg0c.2
      | some u =>
        rcases scan_empty_goodBS (k := BSKey.ownerEquity)
          (show getBS (scanRows grid emptyFinResult).balanceSheet BSKey.ownerEquity = some u
            from hS0oe) with ⟨h0, hn⟩
        have hE0oe : (computeDerived (scanRows grid emptyFinResult)).balanceSheet.ownerEquity
            = some u := by
          rw [s0oe, hS0oe, truthyN_good h0 hn]
          simp
        have hS1oe : (scanRows grid
            (extractFinancialData grid emptyFinResult)).balanceSheet.ownerEquity = some u := by
          have h2 : getBS (scanRows grid
              (extractFinancialData grid emptyFinResult)).balanceSheet BSKey.ownerEquity
              = some u := by
            rw [rescan_oe]
            exact hE0oe
          exact h2
        show (computeDerived (scanRows grid
          (extractFinancialData grid emptyFinResult))).balanceSheet.roe = some d
        rw [s1roe, rnp, hS1oe, ← hS0oe, if_pos hg0]
        rw [hS0oe] at hd0 ⊢
        exact hd0
    · rw [if_neg hg0, (scan_empty_ratios grid).2.2.2] at hd0
      cases hd0

theorem extraction_no_overwrite_witness :
    getBS (extractFinancialData roeGapGrid
        (extractFinancialData roeGapGrid emptyFinResult)).balanceSheet BSKey.totalAssets =
      some (JSNum.fin 1000) :=
  (extraction_no_overwrite roeGapGrid).1 BSKey.totalAssets (JSNum.fin 1000)
    (by with_unfolding_all rfl)

/-! ## The structured appendix (claim C3) -/

theorem startsWithL_iff {h p : List Char} :
    startsWithL h p = true ↔ ∃ t, h = p ++ t := by
  induction p generalizing h with
  | nil =>
    simp [startsWithL]
  | cons pc pt ih =>
    cases h with
    | nil =>
      simp [startsWithL]
    | cons hc ht =>
      simp only [startsWithL, Bool.and_eq_true, decide_eq_true_eq, ih]
      constructor
      · rintro ⟨h1, t, h2⟩
        refine ⟨t, ?_⟩
        rw [h1, h2]
        rfl
      · rintro ⟨t, ht2⟩
        rw [List.cons_append] at ht2
        cases ht2
        exact ⟨rfl, t, rfl⟩

theorem lastIdxOf_none {needle : List Char} :
    ∀ {hay : List Char}, lastIdxOf needle hay = none →
      ∀ j, startsWithL (hay.drop j) needle = false := by
  intro hay
  induction hay with
  | nil =>
    intro h j
    rw [lastIdxOf] at h
    by_cases hs : startsWithL [] needle = true
    · rw [if_pos hs] at h; cases h
    · have : (List.drop j ([] : List Char)) = [] := by simp
      rw [this]
      revert hs
      cases startsWithL [] needle <;> simp
  | cons c t ih =>
    intro h j
    rw [lastIdxOf] at h
    cases hrec : lastIdxOf needle t with
    | some k => rw [hrec] at h; cases h
    | none =>
      rw [hrec] at h
      by_cases hs : startsWithL (c :: t) needle = true
      · rw [if_pos hs] at h; cases h
      · cases j with
        | zero =>
          simp only [List.drop_zero]
          revert hs
          cases startsWithL (c :: t) needle <;> simp
        | succ j2 =>
          simp only [List.drop_succ_cons]
          exact ih hrec j2

theorem lastIdxOf_spec {needle : List Char} (hne : needle ≠ []) :
    ∀ {hay : List Char} {k : Nat}, lastIdxOf needle hay = some k →
      startsWithL (hay.drop k) needle = true ∧
        ∀ j, startsWithL (hay.drop j) needle = true → j ≤ k := by
  intro hay
  induction hay with
  | nil =>
    intro k h
    rw [lastIdxOf] at h
    have hs : startsWithL [] needle = false := by
      cases needle with
      | nil => exact absurd rfl hne
      | cons a b => rfl
    rw [hs] at h
    simp at h
  | cons c t ih =>
    intro k h
    rw [lastIdxOf] at h
    cases hrec : lastIdxOf needle t with
    | some k2 =>
      rw [hrec] at h
      cases h
      obtain ⟨h1, h2⟩ := ih hrec
      refine ⟨h1, ?_⟩
      intro j hj
      cases j with
      | zero => exact Nat.zero_le _
      | succ j2 =>
        simp only [List.drop_succ_cons] at hj
        exact Nat.succ_le_succ (h2 j2 hj)
    | none =>
      rw [hrec] at h
      by_cases hs : startsWithL (c :: t) needle = true
      · rw [if_pos hs] at h
        cases h
        refine ⟨hs, ?_⟩
        intro j hj
        cases j with
        | zero => exact Nat.le_refl 0
        | succ j2 =>
          simp only [List.drop_succ_cons] at hj
          have := lastIdxOf_none hrec j2
          rw [this] at hj
          cases hj
      · rw [if_neg hs] at h
        cases h

theorem mem_joinNl_infix {x : List Char} :
    ∀ {parts : List (List Char)}, x ∈ parts →
      ∃ a b, joinNl parts = a ++ x ++ b := by
  intro parts
  induction parts with
  | nil => intro h; cases h
  | cons p rest ih =>
    intro h
    rcases List.mem_cons.mp h with h | h
    · subst h
      cases rest with
      | nil => exact ⟨[], [], by simp [joinNl]⟩
      | cons y rest2 =>
        exact ⟨[], '\n' :: joinNl (y :: rest2), by simp [joinNl]⟩
    · have hr : rest ≠ [] := by
        intro he
        rw [he] at h
        cases h
      obtain ⟨a, b, hab⟩ := ih h
      cases rest with
      | nil => exact absurd rfl hr
      | cons y rest2 =>
        refine ⟨p ++ '\n' :: a, b, ?_⟩
        rw [joinNl, hab]
        simp

/-- C3: the heuristic generation path runs the appendix insertion after the
three inline passes; when the body-close tag exists in the inline-pass output
the appendix is spliced in exactly once, immediately before the last
`</w:body>` (no later occurrence exists); and the appendix contains a
right-aligned report-date paragraph and one heading paragraph per narrative
field with truthy content. -/
theorem appendix_insertion (xml : List Char) (d : Ctx) (now : List Char) :
    (generateWithSmartReplacement xml d now =
      appendFilledContent (inlinePasses xml d) d now)
    ∧ (∀ k, lastIdxOf bodyClose (inlinePasses xml d) = some k →
        ∃ a b, inlinePasses xml d = a ++ bodyClose ++ b
          ∧ generateWithSmartReplacement xml d now =
              a ++ createFilledContentSection d now ++ (bodyClose ++ b)
          ∧ ¬∃ a2 b2, b = a2 ++ bodyClose ++ b2)
    ∧ (∃ a b, createFilledContentSection d now =
        a ++ createParagraph ("报告日期：".data ++ now) false ("right".data) ++ b)
    ∧ (∀ ts ∈ textSections, truthyV (ts.2 d) = true →
        ∃ a b, createFilledContentSection d now =
          a ++ createParagraph ts.1 true ("left".data) ++ b) := by
  have hne : bodyClose ≠ [] := by decide
  refine ⟨rfl, ?_, ?_, ?_⟩
  · intro k hk
    obtain ⟨h1, h2⟩ := lastIdxOf_spec hne hk
    obtain ⟨t, hts⟩ := startsWithL_iff.mp h1
    have hklen : k ≤ (inlinePasses xml d).length := by
      by_cases hkl : k ≤ (inlinePasses xml d).length
      · exact hkl
      · exfalso
        have hdn : (inlinePasses xml d).drop k = [] := by
          apply List.drop_eq_nil_of_le
          omega
        rw [hdn] at hts
        exact hne (List.append_eq_nil.mp hts.symm).1
    refine ⟨(inlinePasses xml d).take k, t, ?_, ?_, ?_⟩
    · conv_lhs => rw [← List.take_append_drop k (inlinePasses xml d)]
      rw [hts]
      simp
    · have happ : appendFilledContent (inlinePasses xml d) d now =
          (inlinePasses xml d).take k ++ createFilledContentSection d now ++
            (inlinePasses xml d).drop k := by
        rw [appendFilledContent, hk]
      rw [show generateWithSmartReplacement xml d now =
        appendFilledContent (inlinePasses xml d) d now from rfl, happ, hts]
    · rintro ⟨a2, b2, hb⟩
      have hlen : ((inlinePasses xml d).take k).length = k := by
        rw [List.length_take]
        omega
      have hfull : inlinePasses xml d =
          (((inlinePasses xml d).take k ++ bodyClose) ++ a2) ++ (bodyClose ++ b2) := by
        conv_lhs => rw [← List.take_append_drop k (inlinePasses xml d)]
        rw [hts, hb]
        simp
      have hlen2 : (((inlinePasses xml d).take k ++ bodyClose) ++ a2).length =
          k + bodyClose.length + a2.length := by
        simp only [List.length_append, hlen]
      have hj : startsWithL ((inlinePasses xml d).drop
          (k + bodyClose.length + a2.length)) bodyClose = true := by
        rw [startsWithL_iff]
        refine ⟨b2, ?_⟩
        conv_lhs => rw [hfull, ← hlen2]
        rw [List.drop_left]
      have hle := h2 _ hj
      have hbc : 0 < bodyClose.length := by decide
      omega
  · have hmem : createParagraph ("报告日期：".data ++ now) false ("right".data) ∈
        sectionsList d now := by
      rw [sectionsList]
      apply List.mem_append_right
      exact List.mem_cons_of_mem _ (List.mem_cons_self _ _)
    exact mem_joinNl_infix hmem
  · intro ts hts htruthy
    have hmem : createParagraph ts.1 true ("left".data) ∈ sectionsList d now := by
      rw [sectionsList]
      have hin : createParagraph ts.1 true ("left".data) ∈
          textSections.flatMap (textSectionBlock d) := by
        rw [List.mem_flatMap]
        refine ⟨ts, hts, ?_⟩
        rw [textSectionBlock, if_pos htruthy]
        simp
      exact List.mem_append_left _ (List.mem_append_right _ hin)
    exact mem_joinNl_infix hmem

theorem appendix_insertion_witness :
    ∃ a b, inlinePasses ("<w:body><w:p/></w:body>".data) {} = a ++ bodyClose ++ b
      ∧ generateWithSmartReplacement ("<w:body><w:p/></w:body>".data) {}
          ("2026年10月11日".data) =
          a ++ createFilledContentSection {} ("2026年10月11日".data) ++ (bodyClose ++ b)
      ∧ ¬∃ a2 b2, b = a2 ++ bodyClose ++ b2 :=
  (appendix_insertion ("<w:body><w:p/></w:body>".data) {} ("2026年10月11日".data)).2.1 14
    (by with_unfolding_all rfl)

/-! ## The table-cell pass as a frame property (claim C4) -/

/-- The number of `closeG` atoms in a pattern: the number of capture groups a
successful match produces. -/
def countClose : List RAtom → Nat
  | [] => 0
  | RAtom.closeG :: r => countClose r + 1
  | _ :: r => countClose r

/-- A pattern is fully grouped when it is a sequence of `openG … closeG`
blocks whose interiors are consuming atoms only; the flag records whether a
group is currently open.  All three heuristic patterns are fully grouped, so
for them the matched text is exactly the concatenation of the captures. -/
def grouped : Bool → List RAtom → Bool
  | false, [] => true
  | false, RAtom.openG :: r => grouped true r
  | false, _ => false
  | true, [] => false
  | true, RAtom.closeG :: r => grouped false r
  | true, RAtom.openG :: _ => false
  | true, _ :: r => grouped true r

/-- `s` rewrites to `t` by repeatedly replacing a span `g3` — blank in exactly
the sense tested by the table-cell callback — that sits between captured
context `g0 g1 g2` and `g4`, with the XML-escaped string of the value `v`. -/
inductive BlankFill (v : JSVal) : List Char → List Char → Prop
  | refl (s : List Char) : BlankFill v s s
  | step (a g0 g1 g2 g3 g4 b out : List Char)
      (hg : (trimJS g3 = [] || (!g3.isEmpty && g3.all blankCls)) = true)
      (hrest : BlankFill v (a ++ (g0 ++ g1 ++ g2 ++ escapeXml (strJS v) ++ g4) ++ b) out) :
      BlankFill v (a ++ (g0 ++ g1 ++ g2 ++ g3 ++ g4) ++ b) out

/-- `s` rewrites to `t` by a sequence of blank fills, each using a truthy
value drawn from the table-pass label map of the context `d`. -/
inductive TableFills (d : Ctx) : List Char → List Char → Prop
  | refl (s : List Char) : TableFills d s s
  | step {s t u : List Char} (label : List Char) (v : JSVal)
      (hmem : (label, v) ∈ labelMapTable d) (hv : truthyV v = true)
      (hbf : BlankFill v s t) (hrest : TableFills d t u) : TableFills d s u

theorem matchA_spec (ci : Bool) :
    ∀ fuel atoms rem cur done gs rest,
      matchA ci fuel atoms rem cur done = some (gs, rest) →
      ∃ cons, rem = cons ++ rest
        ∧ (grouped cur.isSome atoms = true →
            gs.join = done.join ++ cur.getD [] ++ cons)
        ∧ gs.length = done.length + countClose atoms := by
  intro fuel
  induction fuel with
  | zero =>
    intro atoms rem cur done gs rest h
    rw [matchA] at h
    cases h
  | succ n ih =>
    intro atoms rem cur done gs rest h
    cases atoms with
    | nil =>
      rw [matchA] at h
      simp only [Option.some.injEq, Prod.mk.injEq] at h
      obtain ⟨rfl, rfl⟩ := h
      refine ⟨[], rfl, ?_, by simp [countClose]⟩
      intro hg
      cases cur with
      | none => simp
      | some c => simp [grouped] at hg
    | cons a r =>
      cases a with
      | openG =>
        rw [matchA] at h
        obtain ⟨cons, h1, h2, h3⟩ := ih _ _ _ _ _ _ h
        refine ⟨cons, h1, ?_, by simpa [countClose] using h3⟩
        intro hg
        cases cur with
        | none =>
          have := h2 (by simpa [grouped] using hg)
          simpa using this
        | some c => simp [grouped] at hg
      | closeG =>
        rw [matchA] at h
        obtain ⟨cons, h1, h2, h3⟩ := ih _ _ _ _ _ _ h
        refine ⟨cons, h1, ?_, ?_⟩
        · intro hg
          cases cur with
          | none => simp [grouped] at hg
          | some c =>
            have := h2 (by simpa [grouped] using hg)
            simpa [List.join_append] using this
        · simp only [countClose] at h3 ⊢
          simp at h3
          omega
      | lit cs =>
        rw [matchA] at h
        by_cases hs : startsWithCI ci rem cs = true
        · rw [if_pos hs] at h
          obtain ⟨cons, h1, h2, h3⟩ := ih _ _ _ _ _ _ h
          refine ⟨rem.take cs.length ++ cons, ?_, ?_, by simpa [countClose] using h3⟩
          · conv_lhs => rw [← List.take_append_drop cs.length rem]
            rw [h1, List.append_assoc]
          · intro hg
            cases cur with
            | none => simp [grouped] at hg
            | some c =>
              have := h2 (by simpa [grouped] using hg)
              simpa [List.append_assoc] using this
        · rw [if_neg hs] at h
          cases h
      | litChoices alts =>
        cases alts with
        | nil => rw [matchA] at h; cases h
        | cons l ls =>
          rw [matchA] at h
          by_cases hs : startsWithCI ci rem l = true
          · rw [if_pos hs] at h
            cases hin : matchA ci n r (rem.drop l.length)
                (cur.map (· ++ rem.take l.length)) done with
            | some pr =>
              rw [hin] at h
              simp only [Option.some.injEq] at h
              obtain rfl : pr = (gs, rest) := h
              obtain ⟨cons, h1, h2, h3⟩ := ih _ _ _ _ _ _ hin
              refine ⟨rem.take l.length ++ cons, ?_, ?_,
                by simpa [countClose] using h3⟩
              · conv_lhs => rw [← List.take_append_drop l.length rem]
                rw [h1, List.append_assoc]
              · intro hg
                cases cur with
                | none => simp [grouped] at hg
                | some c =>
                  have := h2 (by simpa [grouped] using hg)
                  simpa [List.append_assoc] using this
            | none =>
              rw [hin] at h
              obtain ⟨cons, h1, h2, h3⟩ := ih _ _ _ _ _ _ h
              refine ⟨cons, h1, ?_, by simpa [countClose] using h3⟩
              intro hg
              cases cur with
              | none => simp [grouped] at hg
              | some c =>
                exact h2 (by simpa [grouped] using hg)
          · rw [if_neg hs] at h
            obtain ⟨cons, h1, h2, h3⟩ := ih _ _ _ _ _ _ h
            refine ⟨cons, h1, ?_, by simpa [countClose] using h3⟩
            intro hg
            cases cur with
            | none => simp [grouped] at hg
            | some c =>
              exact h2 (by simpa [grouped] using hg)
      | rep p mn mx lz =>
        cases mx with
        | none =>
          rw [matchA] at h
          by_cases hmn : mn > countWhile p rem
          · rw [if_pos hmn] at h
            cases h
          · rw [if_neg hmn] at h
            obtain ⟨cons, h1, h2, h3⟩ := ih _ _ _ _ _ _ h
            refine ⟨cons, h1, ?_, by simpa [countClose] using h3⟩
            intro hg
            cases cur with
            | none => simp [grouped] at hg
            | some c =>
              exact h2 (by simpa [grouped] using hg)
        | some mxv =>
          rw [matchA] at h
          by_cases hmn : mn > min mxv (countWhile p rem)
          · rw [if_pos hmn] at h
            cases h
          · rw [if_neg hmn] at h
            obtain ⟨cons, h1, h2, h3⟩ := ih _ _ _ _ _ _ h
            refine ⟨cons, h1, ?_, by simpa [countClose] using h3⟩
            intro hg
            cases cur with
            | none => simp [grouped] at hg
            | some c =>
              exact h2 (by simpa [grouped] using hg)
      | repChoices p ns =>
        cases ns with
        | nil => rw [matchA] at h; cases h
        | cons m ms =>
          rw [matchA] at h
          cases hin : matchA ci n r (rem.drop m)
              (cur.map (· ++ rem.take m)) done with
          | some pr =>
            rw [hin] at h
            simp only [Option.some.injEq] at h
            obtain rfl : pr = (gs, rest) := h
            obtain ⟨cons, h1, h2, h3⟩ := ih _ _ _ _ _ _ hin
            refine ⟨rem.take m ++ cons, ?_, ?_, by simpa [countClose] using h3⟩
            · conv_lhs => rw [← List.take_append_drop m rem]
              rw [h1, List.append_assoc]
            · intro hg
              cases cur with
              | none => simp [grouped] at hg
              | some c =>
                have := h2 (by simpa [grouped] using hg)
                simpa [List.append_assoc] using this
          | none =>
            rw [hin] at h
            obtain ⟨cons, h1, h2, h3⟩ := ih _ _ _ _ _ _ h
            refine ⟨cons, h1, ?_, by simpa [countClose] using h3⟩
            intro hg
            cases cur with
            | none => simp [grouped] at hg
            | some c =>
              exact h2 (by simpa [grouped] using hg)
      | altRep branches =>
        cases branches with
        | nil => rw [matchA] at h; cases h
        | cons b bs =>
          rw [matchA] at h
          cases hin : matchA ci n (RAtom.rep b.1 b.2.1 b.2.2 false :: r)
              rem cur done with
          | some pr =>
            rw [hin] at h
            simp only [Option.some.injEq] at h
            obtain rfl : pr = (gs, rest) := h
            obtain ⟨cons, h1, h2, h3⟩ := ih _ _ _ _ _ _ hin
            refine ⟨cons, h1, ?_, by simpa [countClose] using h3⟩
            intro hg
            cases cur with
            | none => simp [grouped] at hg
            | some c =>
              exact h2 (by simpa [grouped] using hg)
          | none =>
            rw [hin] at h
            obtain ⟨cons, h1, h2, h3⟩ := ih _ _ _ _ _ _ h
            refine ⟨cons, h1, ?_, by simpa [countClose] using h3⟩
            intro hg
            cases cur with
            | none => simp [grouped] at hg
            | some c =>
              exact h2 (by simpa [grouped] using hg)

theorem findM_spec {ci : Bool} {atoms : List RAtom}
    (hg : grouped false atoms = true) :
    ∀ {s sk : List Char} {gs : List (List Char)} {rest : List Char},
      findM ci atoms s = some (sk, gs, rest) →
      s = sk ++ gs.join ++ rest
        ∧ (s.drop sk.length).take (s.length - sk.length - rest.length) = gs.join
        ∧ gs.length = countClose atoms := by
  intro s
  induction s with
  | nil =>
    intro sk gs rest h
    rw [findM] at h
    cases hin : matchA ci (fuelFor atoms []) atoms [] none [] with
    | none => rw [hin] at h; cases h
    | some pr =>
      rw [hin] at h
      simp only [Option.some.injEq, Prod.mk.injEq] at h
      obtain ⟨rfl, rfl, rfl⟩ := h
      obtain ⟨cons, h1, h2, h3⟩ := matchA_spec ci _ _ _ _ _ _ _ hin
      have hj : pr.1.join = cons := by simpa using h2 (by simpa using hg)
      have hc : cons = [] := (List.append_eq_nil.mp h1.symm).1
      have hp2 : pr.2 = [] := (List.append_eq_nil.mp h1.symm).2
      refine ⟨?_, ?_, by simpa using h3⟩
      · simp [hj, hc, hp2]
      · simp [hj, hc, hp2]
  | cons c t iht =>
    intro sk gs rest h
    rw [findM] at h
    cases hin : matchA ci (fuelFor atoms (c :: t)) atoms (c :: t) none [] with
    | some pr =>
      rw [hin] at h
      simp only [Option.some.injEq, Prod.mk.injEq] at h
      obtain ⟨rfl, rfl, rfl⟩ := h
      obtain ⟨cons, h1, h2, h3⟩ := matchA_spec ci _ _ _ _ _ _ _ hin
      have hj : pr.1.join = cons := by simpa using h2 (by simpa using hg)
      refine ⟨by simpa [hj] using h1, ?_, by simpa using h3⟩
      have hlen : (c :: t).length - pr.2.length = cons.length := by
        rw [h1]
        simp
      rw [hj, List.length_nil, List.drop_zero, Nat.sub_zero, hlen, h1]
      exact List.take_left cons pr.2
    | none =>
      rw [hin] at h
      cases hrec : findM ci atoms t with
      | none => rw [hrec] at h; cases h
      | some r =>
        rw [hrec] at h
        simp only [Option.map_some, Option.some.injEq, Prod.mk.injEq] at h
        obtain ⟨rfl, rfl, rfl⟩ := h
        obtain ⟨hr1, hr2, hr3⟩ := iht hrec
        refine ⟨by rw [hr1]; simp, ?_, hr3⟩
        simpa using hr2

theorem join_five {gs : List (List Char)} (h : gs.length = 5) :
    gs.join = gs.getD 0 [] ++ gs.getD 1 [] ++ gs.getD 2 [] ++ gs.getD 3 [] ++
      gs.getD 4 [] := by
  cases gs with
  | nil => simp at h
  | cons a g1 =>
  cases g1 with
  | nil => simp at h
  | cons b g2 =>
  cases g2 with
  | nil => simp at h
  | cons c g3 =>
  cases g3 with
  | nil => simp at h
  | cons d g4 =>
  cases g4 with
  | nil => simp at h
  | cons e g5 =>
  cases g5 with
  | nil => simp [List.join, List.getD]
  | cons f g6 => simp at h

theorem BlankFill.trans {v : JSVal} :
    ∀ {s t u : List Char}, BlankFill v s t → BlankFill v t u → BlankFill v s u := by
  intro s t u h1 h2
  induction h1 with
  | refl => exact h2
  | step a g0 g1 g2 g3 g4 b out hg hrest ih =>
    exact BlankFill.step a g0 g1 g2 g3 g4 b u hg (ih h2)

theorem BlankFill.append_left {v : JSVal} (p : List Char) :
    ∀ {s t : List Char}, BlankFill v s t → BlankFill v (p ++ s) (p ++ t) := by
  intro s t h
  induction h with
  | refl s => exact BlankFill.refl _
  | step a g0 g1 g2 g3 g4 b out hg hrest ih =>
    have := BlankFill.step (p ++ a) g0 g1 g2 g3 g4 b (p ++ out) hg
      (by simpa [List.append_assoc] using ih)
    simpa [List.append_assoc] using this

theorem replaceG_blankFill (v : JSVal) {atoms : List RAtom} (ci : Bool)
    (hg : grouped false atoms = true) (h5 : countClose atoms = 5) :
    ∀ fuel pre s, BlankFill v s (replaceG ci atoms (tableCb v) fuel pre s) := by
  intro fuel
  induction fuel with
  | zero =>
    intro pre s
    rw [replaceG]
    exact BlankFill.refl s
  | succ n ih =>
    intro pre s
    rw [replaceG]
    cases hf : findM ci atoms s with
    | none => exact BlankFill.refl s
    | some skr =>
      obtain ⟨sk, gs, rest⟩ := skr
      obtain ⟨hs1, hs2, hs3⟩ := findM_spec hg hf
      have hbig := join_five (hs3.trans h5)
      simp only [hs2, tableCb]
      by_cases hm : s.length - sk.length - rest.length = 0
      · rw [if_pos hm]
        have hj0 : gs.join = [] := by
          rw [← hs2, hm]
          simp
        have he : gs.getD 0 [] ++ gs.getD 1 [] ++ gs.getD 2 [] ++ gs.getD 3 [] ++
            gs.getD 4 [] = [] := hbig.symm.trans hj0
        have h4e : gs.getD 4 [] = [] := (List.append_eq_nil.mp he).2
        have he2 := (List.append_eq_nil.mp he).1
        have h3e : gs.getD 3 [] = [] := (List.append_eq_nil.mp he2).2
        have he3 := (List.append_eq_nil.mp he2).1
        have h2e : gs.getD 2 [] = [] := (List.append_eq_nil.mp he3).2
        have he4 := (List.append_eq_nil.mp he3).1
        have h1e : gs.getD 1 [] = [] := (List.append_eq_nil.mp he4).2
        have h0e : gs.getD 0 [] = [] := (List.append_eq_nil.mp he4).1
        have hcond : (trimJS (gs.getD 3 []) = [] ||
            (!(gs.getD 3 []).isEmpty && (gs.getD 3 []).all blankCls)) = true := by
          rw [h3e]
          decide
        rw [if_pos hcond, h0e, h1e, h2e, h4e]
        cases rest with
        | nil =>
          have hs' : s = sk := by
            rw [hs1, hj0]
            simp
          have hstep := BlankFill.step sk [] [] [] [] [] []
            (sk ++ ([] ++ [] ++ [] ++ escapeXml (strJS v) ++ []) ++ [])
            (by decide) (BlankFill.refl _)
          rw [hs']
          simpa using hstep
        | cons c rest2 =>
          have hs' : s = sk ++ c :: rest2 := by
            rw [hs1, hj0]
            simp
          have hmid : BlankFill v (sk ++ c :: rest2)
              (sk ++ escapeXml (strJS v) ++ c :: rest2) := by
            have hstep := BlankFill.step sk [] [] [] [] [] (c :: rest2)
              (sk ++ ([] ++ [] ++ [] ++ escapeXml (strJS v) ++ []) ++ c :: rest2)
              (by decide) (BlankFill.refl _)
            simpa using hstep
          have htail : BlankFill v (sk ++ escapeXml (strJS v) ++ c :: rest2)
              (sk ++ escapeXml (strJS v) ++
                c :: replaceG ci atoms (tableCb v) n ((pre ++ sk) ++ [c]) rest2) := by
            have := BlankFill.append_left (sk ++ escapeXml (strJS v) ++ [c])
              (ih ((pre ++ sk) ++ [c]) rest2)
            simpa [List.append_assoc] using this
          rw [hs']
          have := BlankFill.trans hmid htail
          simpa [List.append_assoc] using this
      · rw [if_neg hm]
        by_cases hcond : (trimJS (gs.getD 3 []) = [] ||
            (!(gs.getD 3 []).isEmpty && (gs.getD 3 []).all blankCls)) = true
        · rw [if_pos hcond]
          have h1 : BlankFill v s
              ((sk ++ (gs.getD 0 [] ++ gs.getD 1 [] ++ gs.getD 2 [] ++
                escapeXml (strJS v) ++ gs.getD 4 [])) ++ rest) := by
            rw [hs1, hbig]
            exact BlankFill.step sk _ _ _ _ _ rest _ hcond (BlankFill.refl _)
          have h2 := BlankFill.append_left
            (sk ++ (gs.getD 0 [] ++ gs.getD 1 [] ++ gs.getD 2 [] ++
              escapeXml (strJS v) ++ gs.getD 4 []))
            (ih ((pre ++ sk) ++ gs.join) rest)
          have := BlankFill.trans h1 h2
          simpa [List.append_assoc] using this
        · rw [if_neg hcond]
          have h2 := BlankFill.append_left (sk ++ gs.join)
            (ih ((pre ++ sk) ++ gs.join) rest)
          rw [hs1]
          simpa [List.append_assoc] using h2

theorem foldTableFills (d : Ctx) :
    ∀ (lvs : List (List Char × JSVal)) (s : List Char),
      (∀ lv ∈ lvs, lv ∈ labelMapTable d) →
      TableFills d s (lvs.foldl (fun x lv => replaceTableOne x lv.1 lv.2) s) := by
  intro lvs
  induction lvs with
  | nil =>
    intro s _
    exact TableFills.refl s
  | cons lv lvs ih =>
    intro s hmem
    rw [List.foldl_cons]
    by_cases hv : truthyV lv.2 = true
    · refine TableFills.step lv.1 lv.2 (hmem lv (List.mem_cons_self _ _)) hv ?_
        (ih _ (fun x hx => hmem x (List.mem_cons_of_mem _ hx)))
      rw [replaceTableOne, if_pos hv]
      exact @replaceG_blankFill lv.2 (tablePattern lv.1) true rfl rfl _ _ _
    · have hid : replaceTableOne s lv.1 lv.2 = s := by
        rw [replaceTableOne, if_neg hv]
      rw [hid]
      exact ih _ (fun x hx => hmem x (List.mem_cons_of_mem _ hx))

/-- C4: in the table-cell pass, a label whose context value is falsy triggers
no modification at all; for a matched label the callback leaves the match
byte-for-byte unchanged whenever the sibling cell's captured text is non-blank
(not empty after trimming and not composed solely of underscores/whitespace),
and fills it with the XML-escaped value exactly when that blank test passes;
consequently the whole pass transforms the body by a sequence of such blank
fills using truthy values from its label map, and nothing else. -/
theorem table_cell_pass_frame (xml : List Char) (d : Ctx) :
    (∀ label v, truthyV v = false → replaceTableOne xml label v = xml)
    ∧ (∀ v gs m b a,
        (trimJS (gs.getD 3 []) = [] ||
          (!(gs.getD 3 []).isEmpty && (gs.getD 3 []).all blankCls)) = false →
        tableCb v gs m b a = m)
    ∧ (∀ v gs m b a,
        (trimJS (gs.getD 3 []) = [] ||
          (!(gs.getD 3 []).isEmpty && (gs.getD 3 []).all blankCls)) = true →
        tableCb v gs m b a =
          gs.getD 0 [] ++ gs.getD 1 [] ++ gs.getD 2 [] ++ escapeXml (strJS v) ++
            gs.getD 4 [])
    ∧ TableFills d xml (replaceTableCells xml d) := by
  refine ⟨?_, ?_, ?_, ?_⟩
  · intro label v hv
    rw [replaceTableOne, if_neg (by simp [hv])]
  · intro v gs m b a hcond
    simp only [tableCb]
    rw [if_neg (by rw [hcond]; simp)]
  · intro v gs m b a hcond
    simp only [tableCb]
    rw [if_pos hcond]
  · rw [replaceTableCells]
    exact foldTableFills d (labelMapTable d) xml (fun lv h => h)

theorem table_cell_pass_frame_witness :
    replaceTableOne ("<w:t>abc</w:t>".data) ("企业名称".data) JSVal.undef =
      "<w:t>abc</w:t>".data :=
  (table_cell_pass_frame ("<w:t>abc</w:t>".data) {}).1 ("企业名称".data) JSVal.undef
    (by with_unfolding_all rfl)

/-! ## Escaping (claim C8) -/

/-- The single-pass character escape that the chained `escapeXml`
replacements amount to. -/
def escCh (c : Char) : List Char :=
  if c = '&' then "&amp;".data
  else if c = '<' then "&lt;".data
  else if c = '>' then "&gt;".data
  else if c = '"' then "&quot;".data
  else if c = Char.ofNat 39 then "&apos;".data
  else [c]

/-- Not one of the four raw markup delimiters (`<`, `>`, `"`, apostrophe). -/
def notSpecial (c : Char) : Bool :=
  !(c = '<' || c = '>' || c = '"' || c = Char.ofNat 39)

/-- Read a regex source string as a backslash-escaped literal: fails on any
unescaped metacharacter, and returns the denoted literal text otherwise. -/
def parseEscapedLit : List Char → Option (List Char)
  | [] => some []
  | c :: t =>
    if c = '\\' then
      match t with
      | [] => none
      | c2 :: t2 => (parseEscapedLit t2).map (c2 :: ·)
    else if regexMeta c then none
    else (parseEscapedLit t).map (c :: ·)

theorem replChar_append (c : Char) (r a b : List Char) :
    replChar c r (a ++ b) = replChar c r a ++ replChar c r b := by
  simp [replChar]

theorem escCh_spec (c : Char) :
    replChar (Char.ofNat 39) "&apos;".data
      (replChar '"' "&quot;".data
        (replChar '>' "&gt;".data
          (replChar '<' "&lt;".data
            (replChar '&' "&amp;".data [c])))) = escCh c := by
  by_cases h1 : c = '&'
  · subst h1; rfl
  by_cases h2 : c = '<'
  · subst h2; rfl
  by_cases h3 : c = '>'
  · subst h3; rfl
  by_cases h4 : c = '"'
  · subst h4; rfl
  by_cases h5 : c = Char.ofNat 39
  · subst h5; rfl
  simp [replChar, escCh, h1, h2, h3, h4, h5]

theorem comp5_eq (s : List Char) :
    replChar (Char.ofNat 39) "&apos;".data
      (replChar '"' "&quot;".data
        (replChar '>' "&gt;".data
          (replChar '<' "&lt;".data
            (replChar '&' "&amp;".data s)))) = s.flatMap escCh := by
  induction s with
  | nil => rfl
  | cons c t ih =>
    have hsplit : (c :: t) = [c] ++ t := rfl
    conv_lhs => rw [hsplit]
    rw [replChar_append, replChar_append, replChar_append, replChar_append,
      replChar_append, escCh_spec, ih, List.flatMap_cons]

theorem escapeXml_eq (s : List Char) :
    escapeXml s = if s.isEmpty then [] else s.flatMap escCh := by
  rw [escapeXml]
  by_cases hs : s.isEmpty = true
  · rw [if_pos hs, if_pos hs]
  · rw [if_neg hs, if_neg hs, comp5_eq]

theorem escCh_all (c : Char) : (escCh c).all notSpecial = true := by
  by_cases h1 : c = '&'
  · subst h1; decide
  by_cases h2 : c = '<'
  · subst h2; decide
  by_cases h3 : c = '>'
  · subst h3; decide
  by_cases h4 : c = '"'
  · subst h4; decide
  by_cases h5 : c = Char.ofNat 39
  · subst h5; decide
  simp [escCh, notSpecial, h1, h2, h3, h4, h5]

theorem flatMap_escCh_all (s : List Char) :
    (s.flatMap escCh).all notSpecial = true := by
  induction s with
  | nil => rfl
  | cons c t ih =>
    rw [List.flatMap_cons, List.all_append, ih, escCh_all]
    rfl

theorem parseEscapedLit_escapeRegex (s : List Char) :
    parseEscapedLit (escapeRegex s) = some s := by
  induction s with
  | nil => rfl
  | cons c t ih =>
    have hexp : escapeRegex (c :: t) =
        (if regexMeta c then ['\\', c] else [c]) ++ escapeRegex t := by
      simp [escapeRegex]
    rw [hexp]
    by_cases hm : regexMeta c = true
    · rw [if_pos hm]
      rw [List.cons_append, List.cons_append, List.nil_append,
        parseEscapedLit.eq_def]
      simp [ih]
    · rw [if_neg hm]
      have hc : ¬(c = '\\') := by
        intro he
        exact hm (by rw [he]; rfl)
      rw [List.cons_append, List.nil_append, parseEscapedLit.eq_def]
      simp [hc, hm, ih]

/-- C8 (amended): `escapeXml` maps each of the five reserved markup
characters to its XML entity and leaves every other character alone (so its
output never contains a raw `<`, `>`, `"` or apostrophe), and `escapeRegex`
backslash-escapes exactly the regex metacharacters, so an escaped label
always reads back as the original literal text and cannot change the meaning
of a search pattern.  The original claim's further assertion — that every
value inserted by the inline passes reaches the markup escaped — fails for
the colon and blank passes, whose string replacement templates re-expand
`$`-sequences inside the value (see the counterexample). -/
theorem escaping_amended :
    (∀ s, escapeXml s = if s.isEmpty then [] else s.flatMap escCh)
    ∧ (∀ s, (escapeXml s).all notSpecial = true)
    ∧ (∀ s, parseEscapedLit (escapeRegex s) = some s) := by
  refine ⟨escapeXml_eq, ?_, parseEscapedLit_escapeRegex⟩
  intro s
  rw [escapeXml_eq]
  by_cases hs : s.isEmpty = true
  · rw [if_pos hs]
    rfl
  · rw [if_neg hs]
    exact flatMap_escCh_all s

/-- C8 counterexample: with companyName `"$1"` — a value `escapeXml` leaves
unchanged — the colon pass expands the `$1` inside the substituted value to
capture group 1 (`<w:t>`), injecting raw unescaped markup; the output differs
from the claimed one (the blank span replaced by the escaped value). -/
theorem escaping_counterexample :
    replaceLabeledContent ("<w:t>企业名称：__</w:t>".data)
        { companyName := JSVal.str "$1".data } =
      "<w:t>企业名称：<w:t></w:t>".data
    ∧ escapeXml "$1".data = "$1".data
    ∧ replaceLabeledContent ("<w:t>企业名称：__</w:t>".data)
        { companyName := JSVal.str "$1".data } ≠
      "<w:t>企业名称：$1</w:t>".data := by
  have h1 : replaceLabeledContent ("<w:t>企业名称：__</w:t>".data)
      { companyName := JSVal.str "$1".data } =
      "<w:t>企业名称：<w:t></w:t>".data := by
    with_unfolding_all rfl
  refine ⟨h1, by with_unfolding_all rfl, ?_⟩
  rw [h1]
  decide

/-! ## The business-record parser (claim C9) -/

/-- `parseBizFields` restricted to a sublist of the patterns. -/
def bizFieldsOf (text : List Char) (ps : List (BizKey × Bool × List RAtom)) :
    List (BizKey × List Char) :=
  ps.filterMap (fun kp => (bizExtractOne text kp.2).map (fun cap => (kp.1, trimJS cap)))

theorem bizLookup_hit (text : List Char) (k : BizKey) (cip : Bool × List RAtom)
    (ps : List (BizKey × Bool × List RAtom)) (cap : List Char)
    (h : bizExtractOne text cip = some cap) :
    (bizFieldsOf text ((k, cip) :: ps)).lookup k = some (trimJS cap) := by
  rw [bizFieldsOf, List.filterMap_cons, h]
  simp [List.lookup]

theorem bizLookup_miss (text : List Char) (k k0 : BizKey) (cip : Bool × List RAtom)
    (ps : List (BizKey × Bool × List RAtom))
    (h : bizExtractOne text cip = none) :
    (bizFieldsOf text ((k0, cip) :: ps)).lookup k = (bizFieldsOf text ps).lookup k := by
  rw [bizFieldsOf, List.filterMap_cons, h]
  rfl

theorem bizLookup_skip (text : List Char) (k k0 : BizKey) (cip : Bool × List RAtom)
    (ps : List (BizKey × Bool × List RAtom)) (hne : ¬(k0 = k)) :
    (bizFieldsOf text ((k0, cip) :: ps)).lookup k = (bizFieldsOf text ps).lookup k := by
  rw [bizFieldsOf, List.filterMap_cons]
  cases h : bizExtractOne text cip with
  | none => rfl
  | some cap =>
    have hb : (k == k0) = false := by
      simp
      exact fun he => hne he.symm
    show List.lookup k ((k0, trimJS cap) :: bizFieldsOf text ps) =
      List.lookup k (bizFieldsOf text ps)
    rw [List.lookup.eq_def]
    simp [hb]

theorem bizLookup_nil (text : List Char) (k : BizKey) :
    (bizFieldsOf text []).lookup k = none := rfl

theorem bizLookup_none (text : List Char) (k : BizKey) :
    ∀ ps : List (BizKey × Bool × List RAtom),
      (∀ q ∈ ps, q.1 = k → bizExtractOne text q.2 = none) →
      (bizFieldsOf text ps).lookup k = none := by
  intro ps
  induction ps with
  | nil => intro _; rfl
  | cons q rest ih =>
    intro hall
    by_cases hk : q.1 = k
    · rw [show q = (q.1, q.2) from rfl,
        bizLookup_miss text k q.1 q.2 rest (hall q (List.mem_cons_self _ _) hk)]
      exact ih (fun x h1 h2 => hall x (List.mem_cons_of_mem _ h1) h2)
    · rw [show q = (q.1, q.2) from rfl, bizLookup_skip text k q.1 q.2 rest hk]
      exact ih (fun x h1 h2 => hall x (List.mem_cons_of_mem _ h1) h2)

theorem bizLookup_general (text : List Char) (k : BizKey) (cip : Bool × List RAtom) :
    ∀ ps : List (BizKey × Bool × List RAtom),
      (k, cip) ∈ ps → (∀ q ∈ ps, q.1 = k → q.2 = cip) →
      (bizFieldsOf text ps).lookup k =
        (bizExtractOne text cip).map (fun cap => trimJS cap) := by
  intro ps
  induction ps with
  | nil => intro h _; cases h
  | cons q rest ih =>
    intro hmem huniq
    by_cases hk : q.1 = k
    · have hq2 : q.2 = cip := huniq q (List.mem_cons_self _ _) hk
      have hq : q = (k, cip) := by
        cases q with
        | mk a b =>
          simp only at hk hq2
          rw [hk, hq2]
      subst hq
      cases hx : bizExtractOne text cip with
      | some cap =>
        rw [bizLookup_hit text k cip rest cap hx]
        with_unfolding_all rfl
      | none =>
        rw [bizLookup_miss text k k cip rest hx]
        rw [bizLookup_none text k rest (fun x h1 h2 => by
          rw [huniq x (List.mem_cons_of_mem _ h1) h2]
          exact hx)]
        with_unfolding_all rfl
    · have hmem2 : (k, cip) ∈ rest := by
        rcases List.mem_cons.mp hmem with he | hm
        · exact absurd (congrArg Prod.fst he).symm hk
        · exact hm
      rw [show q = (q.1, q.2) from rfl, bizLookup_skip text k q.1 q.2 rest hk]
      exact ih hmem2 (fun x h1 h2 => huniq x (List.mem_cons_of_mem _ h1) h2)

theorem bizPatterns_keyUnique :
    ∀ p ∈ bizPatterns, ∀ q ∈ bizPatterns, q.1 = p.1 → q.2 = p.2 := by
  intro p hp q hq
  simp only [bizPatterns, List.mem_cons, List.not_mem_nil, or_false] at hp hq
  rcases hp with h|h|h|h|h|h|h|h|h <;> rcases hq with h2|h2|h2|h2|h2|h2|h2|h2|h2 <;>
    subst h <;> subst h2 <;> intro hk <;>
    first
      | rfl
      | exact absurd hk (by decide)

/-- C9: `parseBusinessInfo` returns the parsed object of the first
brace-delimited span directly when `JSON.parse` succeeds on it; when the span
is absent, or its parse fails, it falls back to the line-oriented regex
extraction; and in the fallback record the entry for each of the nine field
patterns is exactly the trimmed first capture of that pattern's leftmost
match — in particular a field whose pattern did not match is absent from the
record, never present as an empty string. -/
theorem business_parser_fallback :
    (∀ ocr span j, braceSpan ocr = some span → jsonParseTop span = some j →
      parseBusinessInfo ocr = BizInfo.fromJson j)
    ∧ (∀ ocr, braceSpan ocr = none →
      parseBusinessInfo ocr = BizInfo.fromText (parseBizFields ocr))
    ∧ (∀ ocr span, braceSpan ocr = some span → jsonParseTop span = none →
      parseBusinessInfo ocr = BizInfo.fromText (parseBizFields ocr))
    ∧ (∀ text k ci pat, (k, ci, pat) ∈ bizPatterns →
      (parseBizFields text).lookup k =
        (bizExtractOne text (ci, pat)).map (fun cap => trimJS cap)) := by
  refine ⟨?_, ?_, ?_, ?_⟩
  · intro ocr span j h1 h2
    rw [parseBusinessInfo, h1]
    simp only [h2]
  · intro ocr h1
    rw [parseBusinessInfo, h1]
  · intro ocr span h1 h2
    rw [parseBusinessInfo, h1]
    simp only [h2]
  · intro text k ci pat hmem
    have huniq : ∀ q ∈ bizPatterns, q.1 = k → q.2 = (ci, pat) :=
      fun q hq hqk => bizPatterns_keyUnique (k, ci, pat) hmem q hq hqk
    exact bizLookup_general text k (ci, pat) bizPatterns hmem huniq

theorem business_parser_fallback_witness :
    parseBusinessInfo ("ocr text \x7b\"companyName\": \"测试\"\x7d end".data) =
      BizInfo.fromJson (Json.obj [("companyName".data, Json.str "测试".data)]) :=
  business_parser_fallback.1 ("ocr text \x7b\"companyName\": \"测试\"\x7d end".data)
    ("\x7b\"companyName\": \"测试\"\x7d".data)
    (Json.obj [("companyName".data, Json.str "测试".data)])
    (by with_unfolding_all rfl) (by with_unfolding_all rfl)

end BankPi
